import Mathlib

/-!
# golem: parameter parsing from the command line and config files, string distances

A shallow embedding of `param/parserCmdLine.go`, `param/parserConfigFile.go`,
`strdist/levenshtein.go` and `strdist/hamming.go`.

Go strings are embedded as Lean `String`s, that is as valid UTF-8 text: the
runes a Go `range` loop yields are the characters of the string, and the byte
offset the loop yields with each rune is the sum of the UTF-8 widths of the
characters before it. A Go panic is the result `none`.

The file has two parts: the definitions (the embedding of the sources and the
descriptions the statements use), then the lemmas and theorems.
-/

namespace Golem

/-! ## Go string primitives used by the sources -/

/-- Go `strings.TrimPrefix(s, pre)`: `s` without the leading `pre`, or `s`
itself when it does not start with `pre`. -/
def TrimPrefix (s pre : String) : String :=
  if pre.data.isPrefixOf s.data then ⟨s.data.drop pre.data.length⟩ else s

/-- Go `strings.SplitN(s, sep, 2)` for a one-character separator: the text
before the first separator and (when there is a separator) the whole text after
it. -/
def SplitN2 (s : String) (sep : Char) : List String :=
  match s.data.span (fun c => c != sep) with
  | (_, []) => [s]
  | (before, _ :: after) => [⟨before⟩, ⟨after⟩]

/-! ## `trimParam` -/

/-- The text of the error `trimParam` returns. -/
def trimParamErrText (param : String) : String :=
  "'" ++ param ++ "' is a parameter but does not start with either '--' or '-'"

/-- Embedding of `trimParam`: the trimmed name and the error (`none` is Go's
`nil`). -/
def trimParam (param : String) : String × Option String :=
  let trimmedParam := TrimPrefix param "--"
  if trimmedParam != param then (trimmedParam, none)
  else
    let trimmedParam := TrimPrefix param "-"
    if trimmedParam != param then (trimmedParam, none)
    else (param, some (trimParamErrText param))

/-! ## Data model of the parameter set -/

/-- Modelled from the spec: `param.ValueReq` is declared outside the given
sources (only `param.Mandatory` is named in them); the spec gives the value
requirement as one of none, optional, mandatory. -/
inductive ValueReq where
  | None
  | Optional
  | Mandatory
deriving DecidableEq, Repr

/-- Modelled from the spec: `location.L` is declared outside the given sources;
the spec's SourceLocation is a source name, a sequence number and the raw
content. -/
structure Loc where
  source : String
  idx : Nat
  content : String
deriving DecidableEq, Repr

/-- Modelled from the spec: `location.New(source)`, a location before the first
item of the source. -/
def Loc.New (source : String) : Loc := { source := source, idx := 0, content := "" }

/-- Modelled from the spec: `loc.Incr()`, advance the sequence number by one. -/
def Loc.Incr (l : Loc) : Loc := { l with idx := l.idx + 1 }

/-- Modelled from the spec: `loc.SetContent(s)`, record the raw content. -/
def Loc.SetContent (l : Loc) (s : String) : Loc := { l with content := s }

/-- An error value: a plain one (`errors.New`, `fmt.Errorf`), one made by
`loc.Error(msg)`, which carries its location, or an `*os.PathError` with its
operation, path and cause. -/
inductive Err where
  | plain (msg : String)
  | located (loc : Loc) (msg : String)
  | pathError (op : String) (path : String) (msg : String)
deriving DecidableEq, Repr

/-- A positional parameter: the fields `name` and `isTerminal` the parser
reads. -/
structure ByPos where
  name : String
  isTerminal : Bool := false
deriving DecidableEq, Repr

/-- A named parameter: its canonical name, `setter.ValueReq()` and the name
of its group (empty when it has none). -/
structure ByName where
  name : String
  valueReq : ValueReq := ValueReq.None
  groupName : String := ""
deriving DecidableEq, Repr

/-- The type `filecheck.Exists` with its three constants. -/
inductive filecheck.Exists where
  | Optional
  | MustExist
  | MustNotExist
deriving DecidableEq, Repr

/-- The struct `ConfigFileDetails`. -/
structure ConfigFileDetails where
  Name : String
  CfConstraint : filecheck.Exists
deriving DecidableEq, Repr

/-- Modelled from the spec: the type of the constants `paramMustExist` and
`paramNeedNotExist` is declared outside the given sources; the spec has the
two rules "required to exist in the registry" and "tolerated silently". -/
inductive paramExistenceRule where
  | paramMustExist
  | paramNeedNotExist
deriving DecidableEq, Repr

/-- The error map `ps.errors`: a key with no entry holds the empty list. -/
abbrev ErrMap := String → List Err

/-- Go `m[k] = append(m[k], es...)`. -/
def ErrMap.append (m : ErrMap) (k : String) (es : List Err) : ErrMap :=
  fun k2 => if k2 = k then m k2 ++ es else m k2

/-- The fields of `ParamSet` the two parsers use. The maps `nameToParam` and
`groupCfgFiles` are lists of key/value pairs with the lookup taking the first
pair with the key; the list order stands for the order in which a `range`
over the map visits the keys. -/
structure ParamSet where
  byPos : List ByPos := []
  nameToParam : List (String × ByName) := []
  terminalParam : String := "--"
  errors : ErrMap := fun _ => []
  remainingParams : List String := []
  progBaseName : String := ""
  configFiles : List ConfigFileDetails := []
  groupCfgFiles : List (String × List ConfigFileDetails) := []

/-- One call the parsers make into code outside the given sources. -/
inductive Call where
  | byPos (pp : ByPos) (source : String) (loc : Loc) (val : String)
  | byName (p : ByName) (source : String) (loc : Loc) (paramParts : List String)
  | unexpected (name : String) (loc : Loc)
  | markAsUnused (name : String) (loc : Loc)
  | setValueFromFile (paramParts : List String) (loc : Loc) (eRule : paramExistenceRule)
  | setValueFromGroupFile (paramParts : List String) (loc : Loc) (gName : String)
  | parseFile (desc : String) (gName : Option String) (fName : String)
deriving DecidableEq, Repr

/-- The three methods the parser calls that are declared outside the given
sources, taken as parameters: `ByPos.processParam`, `ByName.processParam` and
`ParamSet.recordUnexpectedParam`. Each may change the world outside the
parameter set (the setters' targets), of type `ω`, and the error map in any
way; the registry (`byPos`, `nameToParam`, `terminalParam`), which the spec
gives as read-only during parsing, and the remainder are out of their reach. -/
structure Env (ω : Type) where
  processParamByPos : ByPos → String → Loc → String → ω × ErrMap → ω × ErrMap
  processParamByName : ByName → String → Loc → List String → ω × ErrMap → ω × ErrMap
  recordUnexpectedParam : String → Loc → ω × ErrMap → ω × ErrMap

/-- The state of a run: the parameter set, the world outside it and the
record of the outside calls made so far, oldest first. -/
structure Run (ω : Type) where
  ps : ParamSet
  world : ω
  calls : List Call := []

/-- Make an outside call: apply its effect and record it. -/
def Run.call {ω : Type} (r : Run ω) (f : ω × ErrMap → ω × ErrMap) (c : Call) : Run ω :=
  { ps := { r.ps with errors := (f (r.world, r.ps.errors)).2 },
    world := (f (r.world, r.ps.errors)).1,
    calls := r.calls ++ [c] }

/-- Go `ps.errors[k] = append(ps.errors[k], e)`. -/
def Run.addErr {ω : Type} (r : Run ω) (k : String) (e : Err) : Run ω :=
  { r with ps := { r.ps with errors := r.ps.errors.append k [e] } }

/-- Go `ps.remainingParams = rest`. -/
def Run.setRemainder {ω : Type} (r : Run ω) (rest : List String) : Run ω :=
  { r with ps := { r.ps with remainingParams := rest } }

/-- Embedding of `Remainder`. -/
def ParamSet.Remainder (ps : ParamSet) : List String := ps.remainingParams

/-! ## `reportMissingParams` -/

/-- The loop of `reportMissingParams` over `ps.byPos`: the text so far and the
separator. -/
def byPosNames : List ByPos → String × String → String × String
  | [], acc => acc
  | bp :: bps, (help, sep) => byPosNames bps (help ++ sep ++ bp.name, ">, <")

/-- The text `byPosMiniHelp` of `reportMissingParams`. -/
def byPosMiniHelp (ps : ParamSet) : String :=
  match ps.byPos with
  | [bp] => "The first" ++ (" parameter should be: <" ++ bp.name ++ ">")
  | bps =>
    (byPosNames bps
      ("The first" ++ (" " ++ toString bps.length ++ " parameters should be: "), "<")).1 ++ ">"

/-- The error `reportMissingParams` builds. -/
def missingParamsErr (ps : ParamSet) (missingCount : Int) : Err :=
  if missingCount = 1 then
    Err.plain ("A parameter is missing," ++ " one more positional parameter is needed. " ++
      byPosMiniHelp ps)
  else
    Err.plain ("Some parameters are missing," ++ " " ++ toString missingCount ++
      " more positional parameters are needed. " ++ byPosMiniHelp ps)

/-- Embedding of `reportMissingParams`. -/
def reportMissingParams (ps : ParamSet) (missingCount : Int) : ParamSet :=
  { ps with errors := ps.errors.append "" [missingParamsErr ps missingCount] }

/-! ## `getParamsFromStringSlice` -/

/-- The positional loop `for i, pp := range ps.byPos`, from index `i` on.
The result is `none` when `params[i]` is out of range (a Go panic); otherwise
the location, the state and whether the function returned from inside the
loop (a terminal parameter). -/
def positionalLoop {ω : Type} (env : Env ω) (source : String) (params : List String) :
    List ByPos → Nat → Loc → Run ω → Option (Loc × Run ω × Bool)
  | [], _, loc, r => some (loc, r, false)
  | pp :: pps, i, loc, r =>
    match params[i]? with
    | none => none
    | some pStr =>
      let loc1 := (loc.Incr).SetContent pStr
      let r1 := r.call (env.processParamByPos pp source loc1 pStr) (Call.byPos pp source loc1 pStr)
      if pp.isTerminal then
        some (loc1, r1.setRemainder (params.drop (i + 1)), true)
      else
        positionalLoop env source params pps (i + 1) loc1 r1

/-- The named loop `for i := len(ps.byPos); i < len(params); i++`. The loop
variable is represented by the slice `params[i:]` still to be read, so that
`params[i]` is its head, `params[i+1:]` its tail, and `i < len(params) - 1`
says that the tail is not empty. -/
def namedLoop {ω : Type} (env : Env ω) (source : String) :
    List String → Loc → Run ω → Run ω
  | [], _, r => r
  | pStr :: rest, loc, r =>
    let loc1 := (loc.Incr).SetContent pStr
    if pStr = r.ps.terminalParam then
      r.setRemainder rest
    else
      let paramParts := SplitN2 pStr '='
      match trimParam (paramParts.headD "") with
      | (trimmedParam, some err) =>
        namedLoop env source rest loc1 (r.addErr trimmedParam (Err.located loc1 err))
      | (trimmedParam, none) =>
        match r.ps.nameToParam.lookup trimmedParam with
        | some p =>
          if p.valueReq = ValueReq.Mandatory ∧ paramParts.length = 1 then
            match rest with
            | v :: rest2 =>
              let loc2 := (loc1.Incr).SetContent (pStr ++ " " ++ v)
              namedLoop env source rest2 loc2
                (r.call (env.processParamByName p source loc2 (paramParts ++ [v]))
                  (Call.byName p source loc2 (paramParts ++ [v])))
            | [] =>
              r.call (env.processParamByName p source loc1 paramParts)
                (Call.byName p source loc1 paramParts)
          else
            namedLoop env source rest loc1
              (r.call (env.processParamByName p source loc1 paramParts)
                (Call.byName p source loc1 paramParts))
        | none =>
          namedLoop env source rest loc1
            (r.call (env.recordUnexpectedParam trimmedParam loc1)
              (Call.unexpected trimmedParam loc1))

/-- Embedding of `getParamsFromStringSlice`; `none` is a Go panic. -/
def getParamsFromStringSlice {ω : Type} (env : Env ω) (source : String)
    (params : List String) (r : Run ω) : Option (Run ω) :=
  let loc := Loc.New source
  if r.ps.byPos.length > 0 then
    let missingCount : Int := (r.ps.byPos.length : Int) - (params.length : Int)
    if missingCount > 0 then
      some { r with ps := reportMissingParams r.ps missingCount }
    else
      match positionalLoop env source params r.ps.byPos 0 loc r with
      | none => none
      | some (_, r1, true) => some r1
      | some (loc1, r1, false) =>
        some (namedLoop env source (params.drop r.ps.byPos.length) loc1 r1)
  else
    some (namedLoop env source (params.drop r.ps.byPos.length) loc r)

/-! ## Descriptions of the positional phase used in the statements -/

/-- The location of the token at index `j`: sequence number `j + 1` and the
token as content. -/
def posLoc (source : String) (params : List String) (j : Nat) : Loc :=
  { source := source, idx := j + 1, content := params.getD j "" }

/-- The call that passes the token at index `i + k` to the `k`-th parameter of
`pps`. -/
def posCall (source : String) (pps : List ByPos) (params : List String) (i k : Nat) : Call :=
  Call.byPos (pps.getD k { name := "" }) source (posLoc source params (i + k))
    (params.getD (i + k) "")

/-- The effect of the call `posCall source pps params i k`. -/
def posEffect {ω : Type} (env : Env ω) (source : String) (pps : List ByPos)
    (params : List String) (i k : Nat) : ω × ErrMap → ω × ErrMap :=
  env.processParamByPos (pps.getD k { name := "" }) source (posLoc source params (i + k))
    (params.getD (i + k) "")

/-- The state `r` after the first `m` parameters of `pps` have been passed the
tokens at the indices `i`, ..., `i + m - 1`, in this order. -/
def boundRun {ω : Type} (env : Env ω) (source : String) (pps : List ByPos)
    (params : List String) (i m : Nat) (r : Run ω) : Run ω :=
  { ps := { r.ps with
      errors := ((List.range m).foldl (fun st k => posEffect env source pps params i k st)
        (r.world, r.ps.errors)).2 },
    world := ((List.range m).foldl (fun st k => posEffect env source pps params i k st)
        (r.world, r.ps.errors)).1,
    calls := r.calls ++ (List.range m).map (posCall source pps params i) }

/-! ## Descriptions of the named phase used in the statements -/

/-- Whether the named loop, examining the token `pStr` as a parameter, also
takes the token after it: `pStr` has no `=`, its name has a marker and is
registered, and the parameter requires a value. -/
def takesNext (reg : List (String × ByName)) (pStr : String) : Bool :=
  match trimParam ((SplitN2 pStr '=').headD "") with
  | (nm, none) =>
    match reg.lookup nm with
    | some p => decide (p.valueReq = ValueReq.Mandatory ∧ (SplitN2 pStr '=').length = 1)
    | none => false
  | (_, some _) => false

/-- The tokens `toks` are consumed by whole iterations of the named loop, none
of which examines the terminal token `term` as a parameter: each token
examined differs from `term` and, when it takes the token after it, that token
is in `toks` too. -/
def consumedWhole (reg : List (String × ByName)) (term : String) : List String → Bool
  | [] => true
  | t :: rest =>
    if t = term then false
    else if takesNext reg t then
      match rest with
      | [] => false
      | _ :: rest2 => consumedWhole reg term rest2
    else consumedWhole reg term rest

/-- An environment in which the outside calls change nothing. -/
def quietEnv : Env Unit :=
  { processParamByPos := fun _ _ _ _ s => s,
    processParamByName := fun _ _ _ _ s => s,
    recordUnexpectedParam := fun _ _ s => s }

/-! ## `strdist.Levenshtein` -/

/-- Go `utf8.RuneCountInString`. -/
def RuneCountInString (s : String) : Nat := s.data.length

/-- The pairs a Go `for i, r := range s` loop yields from byte offset `off`
on: each rune with the byte offset at which it starts. -/
def rangeFrom (off : Nat) : List Char → List (Nat × Char)
  | [] => []
  | c :: cs => (off, c) :: rangeFrom (off + c.utf8Size) cs

/-- The pairs a Go `for i, r := range s` loop yields. -/
def rangeString (s : String) : List (Nat × Char) := rangeFrom 0 s.data

/-- The matrix `d` of `Levenshtein`, a slice of rows. Its entries are
non-negative and stay far below the range of `int`. -/
abbrev Matrix := List (List Nat)

/-- Go `d[i][j]` as a value; `none` is the panic of an index out of range. -/
def Matrix.get (d : Matrix) (i j : Nat) : Option Nat :=
  match d[i]? with
  | none => none
  | some row => row[j]?

/-- Go `d[i][j] = v`; `none` is the panic of an index out of range. -/
def Matrix.set (d : Matrix) (i j v : Nat) : Option Matrix :=
  match d[i]? with
  | none => none
  | some row => if j < row.length then some (List.set d i (List.set row j v)) else none

/-- Modelled from the spec: `mathutil.MinOfInt` is declared outside the given
sources; it is called with the three costs and the spec's edit distance takes
the least of them. -/
def MinOfInt (x y z : Nat) : Nat := min x (min y z)

/-- The matrix after the two initialising loops of `Levenshtein`. -/
def initMatrix (aLen bLen : Nat) : Option Matrix :=
  (List.range' 1 bLen).foldlM (fun (d : Matrix) i => d.set 0 i i)
    ((List.range (aLen + 1)).map (fun i => List.set (List.replicate (bLen + 1) 0) 0 i))

/-- The inner loop `for i, aRune := range a` of `Levenshtein`, for the rune
`bRune` found at byte offset `j` of `b`. -/
def levInner (bRune : Char) (j : Nat) : List (Nat × Char) → Matrix → Option Matrix
  | [], d => some d
  | (i, aRune) :: rest, d =>
    match d.get i (j + 1), d.get (i + 1) j, d.get i j with
    | some del, some ins, some sub =>
      match d.set (i + 1) (j + 1)
          (MinOfInt (del + 1) (ins + 1) (sub + if aRune != bRune then 1 else 0)) with
      | some d2 => levInner bRune j rest d2
      | none => none
    | _, _, _ => none

/-- The outer loop `for j, bRune := range b` of `Levenshtein`. -/
def levOuter (a : List (Nat × Char)) : List (Nat × Char) → Matrix → Option Matrix
  | [], d => some d
  | (j, bRune) :: rest, d =>
    match levInner bRune j a d with
    | some d2 => levOuter a rest d2
    | none => none

/-- Embedding of `Levenshtein`; `none` is a Go panic (index out of range). -/
def Levenshtein (a b : String) : Option Nat :=
  match initMatrix (RuneCountInString a) (RuneCountInString b) with
  | none => none
  | some d =>
    match levOuter (rangeString a) (rangeString b) d with
    | none => none
    | some d2 => d2.get (RuneCountInString a) (RuneCountInString b)

/-! ## The edit distance of the specification -/

/-- `EditsTo xs ys n`: the rune sequence `xs` is turned into `ys` by `n`
single-rune insertions, deletions and substitutions (runes that are kept cost
nothing). -/
inductive EditsTo : List Char → List Char → Nat → Prop where
  | done : EditsTo [] [] 0
  | keep (c : Char) {xs ys : List Char} {n : Nat} :
      EditsTo xs ys n → EditsTo (c :: xs) (c :: ys) n
  | substitute (x y : Char) {xs ys : List Char} {n : Nat} :
      EditsTo xs ys n → EditsTo (x :: xs) (y :: ys) (n + 1)
  | delete (x : Char) {xs ys : List Char} {n : Nat} :
      EditsTo xs ys n → EditsTo (x :: xs) ys (n + 1)
  | insert (y : Char) {xs ys : List Char} {n : Nat} :
      EditsTo xs ys n → EditsTo xs (y :: ys) (n + 1)

/-- One row of the edit-distance recursion: from the distances `f` of `xs` to
every sequence, the distances of `x :: xs`. -/
def editRow (x : Char) (f : List Char → Nat) : List Char → Nat
  | [] => f [] + 1
  | y :: ys =>
    min (f (y :: ys) + 1) (min (editRow x f ys + 1) (f ys + if x = y then 0 else 1))

/-- The classic edit distance between two rune sequences: the least number of
single-rune insertions, deletions and substitutions turning one into the
other. -/
def editDistance : List Char → List Char → Nat
  | [] => fun ys => ys.length
  | x :: xs => editRow x (editDistance xs)

/-- A string in which every rune except possibly the last is a single byte:
the byte offsets of its runes are the rune indices. -/
def OffsetsAreIndices (cs : List Char) : Prop :=
  rangeFrom 0 cs = List.enumFrom 0 cs

instance (cs : List Char) : Decidable (OffsetsAreIndices cs) := by
  unfold OffsetsAreIndices
  infer_instance

/-- The matrix `d` has exactly the entries `d[i][j]` with `i ≤ m` and
`j ≤ n`. -/
def Matrix.Shape (d : Matrix) (m n : Nat) : Prop :=
  ∀ i j, (d.get i j).isSome = true ↔ (i ≤ m ∧ j ≤ n)

/-- The entries of `d` in row 0, in the columns up to `J` and in the rows up
to `I` of column `J + 1` hold the edit distances of the prefixes of `a` and
`b`. -/
def Filled (a b : List Char) (d : Matrix) (J I : Nat) : Prop :=
  ∀ i j, i ≤ a.length → j ≤ b.length → (i = 0 ∨ j ≤ J ∨ (j = J + 1 ∧ i ≤ I)) →
    d.get i j = some (editDistance (a.take i) (b.take j))

/-! ## `findClosestMatch` -/

/-- The loop `for p := range ps.nameToParam` of `findClosestMatch` over the
keys in the order visited, on the state `minDist`, `closestMatches`; `none` is
a Go panic. -/
def closestLoop (badParam : String) : List String → Int × List String → Option (Int × List String)
  | [], st => some st
  | p :: rest, (minDist, closestMatches) =>
    if minDist = -1 then
      match Levenshtein badParam p with
      | none => none
      | some dist => closestLoop badParam rest ((dist : Int), closestMatches ++ [p])
    else
      match Levenshtein badParam p with
      | none => none
      | some dist =>
        if (dist : Int) < minDist then
          match closestMatches with
          | [] => none
          | _ :: _ => closestLoop badParam rest ((dist : Int), [p])
        else if (dist : Int) = minDist then
          closestLoop badParam rest (minDist, closestMatches ++ [p])
        else
          closestLoop badParam rest (minDist, closestMatches)

/-- The loop of `findClosestMatch` that joins the matches: the text so far and
the separator. -/
def joinMatches : List String → String × String → String × String
  | [], acc => acc
  | m :: rest, (closestMatch, sep) => joinMatches rest (closestMatch ++ (sep ++ m), " or ")

/-- Embedding of `findClosestMatch`; `none` is a Go panic. -/
def findClosestMatch (ps : ParamSet) (badParam : String) : Option (String × Int) :=
  match closestLoop badParam (ps.nameToParam.map Prod.fst) (-1, []) with
  | none => none
  | some (minDist, closestMatches) => some ((joinMatches closestMatches ("", "")).1, minDist)

/-! ## `strdist.Hamming` -/

/-- Go `utf8.DecodeRuneInString` on text that starts at a rune: the first rune
and its width in bytes, and `RuneError` with width 0 on the empty string. -/
def DecodeRuneInString (cs : List Char) : Char × Nat :=
  match cs with
  | [] => (Char.ofNat 0xFFFD, 0)
  | c :: _ => (c, c.utf8Size)

/-- Go `b[offset:]` for a byte offset: the runes from that offset on. The
result is `none` when the offset is beyond the end (a Go panic) and when it is
inside a rune (the slice is then not valid UTF-8, outside the embedding). -/
def byteSlice : List Char → Nat → Option (List Char)
  | [], offset => if offset = 0 then some [] else none
  | c :: cs, offset =>
    if offset = 0 then some (c :: cs)
    else if c.utf8Size ≤ offset then byteSlice cs (offset - c.utf8Size)
    else none

/-- The loop `for _, aRune := range a` of `Hamming` on the state `offset`,
`d`. -/
def hammingLoop (b : List Char) : List Char → Nat → Int → Option Int
  | [], _, d => some d
  | aRune :: rest, offset, d =>
    match byteSlice b offset with
    | none => none
    | some s =>
      hammingLoop b rest (offset + (DecodeRuneInString s).2)
        (if (DecodeRuneInString s).1 != aRune then d + 1 else d)

/-- Embedding of `Hamming`; `none` is a Go panic. -/
def Hamming (a b : String) : Option Int :=
  let d : Int := (RuneCountInString b : Int) - (RuneCountInString a : Int)
  if d < 0 then
    hammingLoop a.data b.data 0 (d * -1)
  else
    hammingLoop b.data a.data 0 d

/-- The number of positions below the shorter length at which the runes of
`a` and `b` differ. -/
def mismatchCount (a b : List Char) : Nat :=
  (List.range (min a.length b.length)).countP (fun i => a[i]? != b[i]?)

/-- The length-adjusted Hamming distance of the specification: the absolute
difference of the rune counts plus the number of differing positions. -/
def hammingDistance (a b : List Char) : Nat :=
  (max a.length b.length - min a.length b.length) + mismatchCount a b

/-! ## `parserConfigFile.go`: the line parsers -/

/-- Go `unicode.IsSpace`: the Latin-1 spaces and the other runes with the
Unicode property White_Space. -/
def isSpace (c : Char) : Bool :=
  decide ((0x09 ≤ c.toNat ∧ c.toNat ≤ 0x0D) ∨ c.toNat = 0x20 ∨ c.toNat = 0x85 ∨ c.toNat = 0xA0
    ∨ c.toNat = 0x1680 ∨ (0x2000 ≤ c.toNat ∧ c.toNat ≤ 0x200A) ∨ c.toNat = 0x2028
    ∨ c.toNat = 0x2029 ∨ c.toNat = 0x202F ∨ c.toNat = 0x205F ∨ c.toNat = 0x3000)

/-- Go `strings.TrimSpace`: the string without its leading and trailing white
space. -/
def TrimSpace (s : String) : String :=
  ⟨((s.data.dropWhile isSpace).reverse.dropWhile isSpace).reverse⟩

/-- Embedding of `splitParamName`: the program name and the parameter name. -/
def splitParamName (pName : String) : String × String :=
  match SplitN2 pName '/' with
  | [p0, p1] => (TrimSpace p0, TrimSpace p1)
  | parts => ("", TrimSpace (parts.headD ""))

/-- The three methods the line parsers call that are declared outside the
given sources, taken as parameters: `markAsUnused`, `setValueFromFile` and
`setValueFromGroupFile`. As for `Env`, each may change the world outside the
parameter set and the error map in any way. -/
structure FileEnv (ω : Type) where
  markAsUnused : String → Loc → ω × ErrMap → ω × ErrMap
  setValueFromFile : List String → Loc → paramExistenceRule → ω × ErrMap → ω × ErrMap
  setValueFromGroupFile : List String → Loc → String → ω × ErrMap → ω × ErrMap

/-- The statements `paramParts[0] = paramName` and, when there are two parts,
`paramParts[1] = strings.TrimSpace(paramParts[1])` of both line parsers. -/
def trimParts (paramParts : List String) (paramName : String) : List String :=
  let parts1 := paramParts.set 0 paramName
  if parts1.length = 2 then parts1.set 1 (TrimSpace (parts1.getD 1 "")) else parts1

/-- Embedding of `paramLineParser.ParseLine`: the state after the call and the
error returned (`none` is Go's `nil`). -/
def paramLineParser.ParseLine {ω : Type} (fenv : FileEnv ω) (line : String) (loc : Loc)
    (r : Run ω) : Run ω × Option Err :=
  let paramParts := SplitN2 line '='
  let progName := (splitParamName (paramParts.headD "")).1
  let paramName := (splitParamName (paramParts.headD "")).2
  if progName ≠ "" then
    if progName = r.ps.progBaseName then
      (r.call (fenv.setValueFromFile (trimParts paramParts paramName) loc
          paramExistenceRule.paramMustExist)
        (Call.setValueFromFile (trimParts paramParts paramName) loc
          paramExistenceRule.paramMustExist), none)
    else
      (r.call (fenv.markAsUnused paramName loc) (Call.markAsUnused paramName loc), none)
  else
    (r.call (fenv.setValueFromFile (trimParts paramParts paramName) loc
        paramExistenceRule.paramNeedNotExist)
      (Call.setValueFromFile (trimParts paramParts paramName) loc
        paramExistenceRule.paramNeedNotExist), none)

/-- Embedding of `groupParamLineParser.ParseLine` for the group `gName`: the
state after the call and the error returned. -/
def groupParamLineParser.ParseLine {ω : Type} (fenv : FileEnv ω) (gName : String)
    (line : String) (loc : Loc) (r : Run ω) : Run ω × Option Err :=
  let paramParts := SplitN2 line '='
  let progName := (splitParamName (paramParts.headD "")).1
  let paramName := (splitParamName (paramParts.headD "")).2
  if progName ≠ "" ∧ progName ≠ r.ps.progBaseName then
    (r.call (fenv.markAsUnused paramName loc) (Call.markAsUnused paramName loc), none)
  else
    (r.call (fenv.setValueFromGroupFile (trimParts paramParts paramName) loc gName)
      (Call.setValueFromGroupFile (trimParts paramParts paramName) loc gName), none)

/-! ## The helpers of the line parsers, from the specification -/

/-- The text of the error for a name that is not registered. -/
def notAParamText : String := "this is not a parameter of this program"

/-- Modelled from the spec: `ParamSet.markAsUnused` is outside the given
sources; the spec has the line "marked unused, not an error", so the mark
`mark` is made in the world outside the error map and the errors stay. -/
def markAsUnused {ω : Type} (mark : String → Loc → ω → ω) (paramName : String) (loc : Loc) :
    ω × ErrMap → ω × ErrMap :=
  fun s => (mark paramName loc s.1, s.2)

/-- Modelled from the spec: `ParamSet.setValueFromFile` is outside the given
sources. By the spec's global file rule a registered name has its setter
invoked with the parts (the name alone for a value-less line); a name that is
not registered is an "unrecognized parameter" error recorded for that name
under the must-exist rule and is tolerated silently under the need-not-exist
rule. -/
def setValueFromFile {ω : Type} (env : Env ω) (reg : List (String × ByName))
    (paramParts : List String) (loc : Loc) (eRule : paramExistenceRule) :
    ω × ErrMap → ω × ErrMap :=
  fun s =>
    match reg.lookup (paramParts.headD "") with
    | some p => env.processParamByName p loc.source loc paramParts s
    | none =>
      match eRule with
      | paramExistenceRule.paramMustExist =>
        (s.1, s.2.append (paramParts.headD "") [Err.located loc notAParamText])
      | paramExistenceRule.paramNeedNotExist => s

/-- Modelled from the spec: `ParamSet.setValueFromGroupFile` is outside the
given sources. By the spec's group file rule a name that is not registered is
always an error ("not a parameter of this program"), a registered name of
another group is an error ("not a member of group: X"), and otherwise the
setter is invoked with the parts. -/
def setValueFromGroupFile {ω : Type} (env : Env ω) (reg : List (String × ByName))
    (paramParts : List String) (loc : Loc) (gName : String) :
    ω × ErrMap → ω × ErrMap :=
  fun s =>
    match reg.lookup (paramParts.headD "") with
    | some p =>
      if p.groupName = gName then env.processParamByName p loc.source loc paramParts s
      else
        (s.1, s.2.append (paramParts.headD "")
          [Err.located loc ("this parameter is not a member of group: " ++ gName)])
    | none => (s.1, s.2.append (paramParts.headD "") [Err.located loc notAParamText])

/-- The helpers of the line parsers as the specification describes them, for
the registry `reg`. -/
def specFileEnv {ω : Type} (env : Env ω) (mark : String → Loc → ω → ω)
    (reg : List (String × ByName)) : FileEnv ω :=
  { markAsUnused := markAsUnused mark,
    setValueFromFile := setValueFromFile env reg,
    setValueFromGroupFile := setValueFromGroupFile env reg }

/-! ## `parserConfigFile.go`: the config file descriptors -/

/-- The outcome of a call that may panic: the state it leaves, or the panic
with its message and the state at the time of the panic. -/
inductive Outcome (α : Type) where
  | done (s : α)
  | panicked (msg : String) (s : α)

/-- Whether the call panicked. -/
def Outcome.isPanic {α : Type} : Outcome α → Bool
  | Outcome.done _ => false
  | Outcome.panicked _ _ => true

/-- The state the call leaves, or the state at the time of the panic. -/
def Outcome.state {α : Type} : Outcome α → α
  | Outcome.done s => s
  | Outcome.panicked _ s => s

/-- Go `m[k]` on the map of group config files: the empty list for a key with
no entry. -/
def groupFilesGet (m : List (String × List ConfigFileDetails)) (k : String) :
    List ConfigFileDetails :=
  (m.lookup k).getD []

/-- Go `m[k] = v` on the map of group config files. -/
def groupFilesSet : List (String × List ConfigFileDetails) → String → List ConfigFileDetails →
    List (String × List ConfigFileDetails)
  | [], k, v => [(k, v)]
  | (k2, v2) :: rest, k, v =>
    if k2 = k then (k, v) :: rest else (k2, v2) :: groupFilesSet rest k v

/-- Embedding of `SetConfigFile`. -/
def SetConfigFile (ps : ParamSet) (fName : String) (c : filecheck.Exists) : Outcome ParamSet :=
  if c = filecheck.Exists.MustNotExist then
    Outcome.panicked ("config file '" ++ fName ++ "': bad existence constraint.") ps
  else
    Outcome.done { ps with configFiles := [{ Name := fName, CfConstraint := c }] }

/-- Embedding of `SetGroupConfigFile`. -/
def SetGroupConfigFile (ps : ParamSet) (gName fName : String) (c : filecheck.Exists) :
    Outcome ParamSet :=
  if c = filecheck.Exists.MustNotExist then
    Outcome.panicked ("config file '" ++ fName ++ "' (group '" ++ gName ++
      "'): bad existence constraint.") ps
  else
    Outcome.done { ps with
      groupCfgFiles := groupFilesSet ps.groupCfgFiles gName [{ Name := fName, CfConstraint := c }] }

/-- Embedding of `AddConfigFile`. -/
def AddConfigFile (ps : ParamSet) (fName : String) (c : filecheck.Exists) : Outcome ParamSet :=
  if c = filecheck.Exists.MustNotExist then
    Outcome.panicked ("config file '" ++ fName ++ "': bad existence constraint.") ps
  else
    Outcome.done { ps with
      configFiles := ps.configFiles ++ [{ Name := fName, CfConstraint := c }] }

/-- Embedding of `AddGroupConfigFile`. -/
def AddGroupConfigFile (ps : ParamSet) (gName fName : String) (c : filecheck.Exists) :
    Outcome ParamSet :=
  if c = filecheck.Exists.MustNotExist then
    Outcome.panicked ("config file '" ++ fName ++ "' (group '" ++ gName ++
      "'): bad existence constraint.") ps
  else
    Outcome.done { ps with
      groupCfgFiles := groupFilesSet ps.groupCfgFiles gName
        (groupFilesGet ps.groupCfgFiles gName ++ [{ Name := fName, CfConstraint := c }]) }

/-- Embedding of `ConfigFiles`: a copy of the list. -/
def ConfigFiles (ps : ParamSet) : List ConfigFileDetails := ps.configFiles

/-- Embedding of `ConfigFilesForGroup`: a copy of the list of the group. -/
def ConfigFilesForGroup (ps : ParamSet) (gName : String) : List ConfigFileDetails :=
  groupFilesGet ps.groupCfgFiles gName

/-! ## `parserConfigFile.go`: reading the files -/

/-- Embedding of `isOpenErr`. -/
def isOpenErr (err : Err) : Bool :=
  match err with
  | Err.pathError op _ _ => op == "open"
  | _ => false

/-- Embedding of `checkErrors`. -/
def checkErrors (ps : ParamSet) (errors : List Err) (cf : ConfigFileDetails) : ParamSet :=
  if errors.length > 0 then
    if errors.length = 1 ∧
        isOpenErr (errors.headD (Err.plain "")) = true ∧
        cf.CfConstraint = filecheck.Exists.Optional then
      ps
    else
      { ps with errors := ps.errors.append ("config file: " ++ cf.Name) errors }
  else ps

/-- The method `Parse` of the file parser made by `fileparser.New(desc, lp)`,
declared outside the given sources and taken as a parameter: for the
description `desc`, the line parser (the one of the group `gName`, or the
global one for `none`) and the file name, its effect on the world and the
error map, and the errors it returns. -/
structure FileReader (ω : Type) where
  Parse : String → Option String → String → ω × ErrMap → (ω × ErrMap) × List Err

/-- The loop `for _, cf := range cfs` of `getParamsFromConfigFile`: parse each
file and check the errors. -/
def readFiles {ω : Type} (fr : FileReader ω) (desc : String) (gName : Option String) :
    List ConfigFileDetails → Run ω → Run ω
  | [], r => r
  | cf :: cfs, r =>
    let res := fr.Parse desc gName cf.Name (r.world, r.ps.errors)
    readFiles fr desc gName cfs
      { ps := checkErrors { r.ps with errors := res.1.2 } res.2 cf,
        world := res.1.1,
        calls := r.calls ++ [Call.parseFile desc gName cf.Name] }

/-- The loop `for gName, cfs := range ps.groupCfgFiles` of
`getParamsFromConfigFile`. -/
def readGroupFiles {ω : Type} (fr : FileReader ω) :
    List (String × List ConfigFileDetails) → Run ω → Run ω
  | [], r => r
  | (gName, cfs) :: rest, r =>
    readGroupFiles fr rest
      (readFiles fr "group-specific parameter config file" (some gName) cfs r)

/-- Embedding of `getParamsFromConfigFile`. -/
def getParamsFromConfigFile {ω : Type} (fr : FileReader ω) (r : Run ω) : Run ω :=
  readFiles fr "parameter config file" none
    (readGroupFiles fr r.ps.groupCfgFiles r).ps.configFiles
    (readGroupFiles fr r.ps.groupCfgFiles r)

/-! ## `check`: checks on durations and strings -/

/-- The type `Duration` of the package `check`: a check on a `time.Duration`
(a count of nanoseconds), returning the text of its error or `none` for Go's
`nil`. -/
abbrev DurationCheck := Int → Option String

/-- The type `String` of the package `check`: a check on a string, returning
the text of its error or `none` for Go's `nil`. -/
abbrev StringCheck := String → Option String

/-- Embedding of `DurationBetween`; `durStr` is the method `String` of
`time.Duration`, by which `%s` formats it, and `Except.error` is the panic with
its message. -/
def DurationBetween (durStr : Int → String) (low high : Int) : Except String DurationCheck :=
  if low ≥ high then
    Except.error ("Impossible checks passed to DurationBetween: " ++
      "the lower limit (" ++ durStr low ++ ") should be less than the upper limit (" ++
      durStr high ++ ")")
  else
    Except.ok (fun d =>
      if d < low then
        some ("the value (" ++ durStr d ++ ") must be between " ++ durStr low ++ " and " ++
          durStr high ++ " - too short")
      else if d > high then
        some ("the value (" ++ durStr d ++ ") must be between " ++ durStr low ++ " and " ++
          durStr high ++ " - too long")
      else none)

/-- The loop of the check `StringOr` returns, on the state `compositeErr`,
`sep`: `none` when a check passes (the function returns nil), otherwise the
composite text at the end of the loop. -/
def stringOrLoop (s : String) : List StringCheck → String × String → Option String
  | [], acc => some acc.1
  | cf :: rest, (compositeErr, sep) =>
    match cf s with
    | none => none
    | some err => stringOrLoop s rest (compositeErr ++ (sep ++ err), " OR ")

/-- Embedding of `StringOr`. -/
def StringOr (chkFuncs : List StringCheck) : StringCheck :=
  fun s =>
    match stringOrLoop s chkFuncs ("", "(") with
    | none => none
    | some compositeErr => some (compositeErr ++ ")")

/-- Embedding of `StringAnd`. -/
def StringAnd : List StringCheck → StringCheck
  | [] => fun _ => none
  | cf :: rest => fun s =>
    match cf s with
    | some err => some err
    | none => StringAnd rest s

/-- Embedding of `StringLenGT`, with the length in bytes. -/
def StringLenGT (limit : Int) : StringCheck :=
  fun s =>
    if (s.utf8ByteSize : Int) > limit then none
    else some ("the length of the value (" ++ toString s.utf8ByteSize ++
      ") must be greater than " ++ toString limit)

/-- Embedding of `StringLenLT`, with the length in bytes. -/
def StringLenLT (limit : Int) : StringCheck :=
  fun s =>
    if (s.utf8ByteSize : Int) < limit then none
    else some ("the length of the value (" ++ toString s.utf8ByteSize ++
      ") must be less than " ++ toString limit)

/-! ## Sequences of registrations of config files -/

/-- One call of a function that registers a config file. -/
inductive CfgOp where
  | SetConfigFile (fName : String) (c : filecheck.Exists)
  | AddConfigFile (fName : String) (c : filecheck.Exists)
  | SetGroupConfigFile (gName fName : String) (c : filecheck.Exists)
  | AddGroupConfigFile (gName fName : String) (c : filecheck.Exists)
deriving DecidableEq, Repr

/-- The call made on the parameter set `ps`. -/
def CfgOp.apply (ps : ParamSet) : CfgOp → Outcome ParamSet
  | CfgOp.SetConfigFile fName c => Golem.SetConfigFile ps fName c
  | CfgOp.AddConfigFile fName c => Golem.AddConfigFile ps fName c
  | CfgOp.SetGroupConfigFile gName fName c => Golem.SetGroupConfigFile ps gName fName c
  | CfgOp.AddGroupConfigFile gName fName c => Golem.AddGroupConfigFile ps gName fName c

/-- The calls made one after the other; `none` when one of them panics. -/
def applyOps : ParamSet → List CfgOp → Option ParamSet
  | ps, [] => some ps
  | ps, op :: rest =>
    match op.apply ps with
    | Outcome.done ps2 => applyOps ps2 rest
    | Outcome.panicked _ _ => none

/-- The existence constraint given in the call. -/
def CfgOp.constraint : CfgOp → filecheck.Exists
  | CfgOp.SetConfigFile _ c => c
  | CfgOp.AddConfigFile _ c => c
  | CfgOp.SetGroupConfigFile _ _ c => c
  | CfgOp.AddGroupConfigFile _ _ c => c

/-- The call is a `SetConfigFile`. -/
def CfgOp.isGlobalSet : CfgOp → Bool
  | CfgOp.SetConfigFile _ _ => true
  | _ => false

/-- The call is a `SetGroupConfigFile` for the group `g`. -/
def CfgOp.isGroupSet (g : String) : CfgOp → Bool
  | CfgOp.SetGroupConfigFile gName _ _ => gName == g
  | _ => false

/-- The descriptors given by the calls of `AddConfigFile`, in call order. -/
def globalAdds : List CfgOp → List ConfigFileDetails
  | [] => []
  | CfgOp.AddConfigFile fName c :: rest => { Name := fName, CfConstraint := c } :: globalAdds rest
  | _ :: rest => globalAdds rest

/-- The descriptors given by the calls of `AddGroupConfigFile` for the group
`g`, in call order. -/
def groupAdds (g : String) : List CfgOp → List ConfigFileDetails
  | [] => []
  | CfgOp.AddGroupConfigFile gName fName c :: rest =>
    if gName = g then { Name := fName, CfConstraint := c } :: groupAdds g rest
    else groupAdds g rest
  | _ :: rest => groupAdds g rest

/-! ## Descriptions of the recording of errors used in the statements -/

/-- Under every key the map `m2` holds the list the map `m1` holds, followed
by the errors recorded since. -/
def ErrMap.Extends (m1 m2 : ErrMap) : Prop := ∀ k, m1 k <+: m2 k

/-- The outside calls of the environment only append to the error map. -/
def Env.AppendOnly {ω : Type} (env : Env ω) : Prop :=
  (∀ pp source loc v w m, ErrMap.Extends m (env.processParamByPos pp source loc v (w, m)).2)
  ∧ (∀ p source loc parts w m,
      ErrMap.Extends m (env.processParamByName p source loc parts (w, m)).2)
  ∧ (∀ nm loc w m, ErrMap.Extends m (env.recordUnexpectedParam nm loc (w, m)).2)

/-- The outside calls of the environment change the errors under the keys in
`allowed` only. -/
def Env.RecordsUnder {ω : Type} (env : Env ω) (allowed : String → Prop) : Prop :=
  (∀ pp source loc v w m k, ¬ allowed k →
      (env.processParamByPos pp source loc v (w, m)).2 k = m k)
  ∧ (∀ p source loc parts w m k, ¬ allowed k →
      (env.processParamByName p source loc parts (w, m)).2 k = m k)
  ∧ (∀ nm loc w m k, ¬ allowed k → (env.recordUnexpectedParam nm loc (w, m)).2 k = m k)

/-- The method `Parse` changes the errors under the keys in `allowed` only. -/
def FileReader.RecordsUnder {ω : Type} (fr : FileReader ω) (allowed : String → Prop) : Prop :=
  ∀ desc gName fName w m k, ¬ allowed k → (fr.Parse desc gName fName (w, m)).1.2 k = m k

/-- The sequence number of the location given in an outside call. -/
def Call.seqNo : Call → Nat
  | Call.byPos _ _ loc _ => loc.idx
  | Call.byName _ _ loc _ => loc.idx
  | Call.unexpected _ loc => loc.idx
  | Call.markAsUnused _ loc => loc.idx
  | Call.setValueFromFile _ loc _ => loc.idx
  | Call.setValueFromGroupFile _ loc _ => loc.idx
  | Call.parseFile _ _ _ => 0

/-- Whether a call of the command-line pass on the tokens `params` is about
the token its location points at. A call located at the sequence number
`i + 1` is about the token at the index `i`: it binds that token, or reports
it as unexpected, or dispatches the parts of that token. A dispatch located at
`i + 2` is about the token at the index `i` with the token at `i + 1` as its
value. -/
def Call.locatedAt (params : List String) : Call → Bool
  | Call.byPos _ _ loc v =>
    decide (1 ≤ loc.idx ∧ params[loc.idx - 1]? = some v ∧ loc.content = v)
  | Call.unexpected _ loc =>
    decide (1 ≤ loc.idx ∧ params[loc.idx - 1]? = some loc.content)
  | Call.byName _ _ loc parts =>
    decide (1 ≤ loc.idx ∧ params[loc.idx - 1]? = some loc.content
        ∧ parts = SplitN2 loc.content '=')
    || (match params[loc.idx - 2]?, params[loc.idx - 1]? with
        | some t, some v =>
          decide (2 ≤ loc.idx ∧ loc.content = t ++ " " ++ v ∧ parts = SplitN2 t '=' ++ [v])
        | _, _ => false)
  | _ => false

/-- One change `getParamsFromStringSlice` makes on the tokens `params`, between
two pairs of the sequence number of the location and the state: the sequence
number before a change is the index of the token examined. -/
inductive PassStep {ω : Type} (env : Env ω) (source : String) (params : List String) :
    Nat × Run ω → Nat × Run ω → Prop where
  | missing (r : Run ω) (k : Int) :
    PassStep env source params (0, r) (0, { r with ps := reportMissingParams r.ps k })
  | remainder (n m : Nat) (r : Run ω) (rest : List String) : n ≤ m →
    PassStep env source params (n, r) (m, r.setRemainder rest)
  | byPos (n : Nat) (r : Run ω) (pp : ByPos) (loc : Loc) (v : String) :
    params[n]? = some v → loc.idx = n + 1 → loc.content = v →
    PassStep env source params (n, r)
      (n + 1, r.call (env.processParamByPos pp source loc v) (Call.byPos pp source loc v))
  | syntaxError (n : Nat) (r : Run ω) (pStr nm err : String) (loc : Loc) :
    params[n]? = some pStr → loc.idx = n + 1 → loc.content = pStr →
    trimParam ((SplitN2 pStr '=').headD "") = (nm, some err) →
    PassStep env source params (n, r) (n + 1, r.addErr nm (Err.located loc err))
  | byName (n : Nat) (r : Run ω) (pStr : String) (p : ByName) (loc : Loc) :
    params[n]? = some pStr → loc.idx = n + 1 → loc.content = pStr →
    PassStep env source params (n, r)
      (n + 1, r.call (env.processParamByName p source loc (SplitN2 pStr '='))
        (Call.byName p source loc (SplitN2 pStr '=')))
  | byNameNext (n : Nat) (r : Run ω) (pStr v : String) (p : ByName) (loc : Loc) :
    params[n]? = some pStr → params[n + 1]? = some v → loc.idx = n + 2 →
    loc.content = pStr ++ " " ++ v →
    PassStep env source params (n, r)
      (n + 2, r.call (env.processParamByName p source loc (SplitN2 pStr '=' ++ [v]))
        (Call.byName p source loc (SplitN2 pStr '=' ++ [v])))
  | unexpected (n : Nat) (r : Run ω) (pStr nm : String) (loc : Loc) :
    params[n]? = some pStr → loc.idx = n + 1 → loc.content = pStr →
    PassStep env source params (n, r)
      (n + 1, r.call (env.recordUnexpectedParam nm loc) (Call.unexpected nm loc))

/-- An environment in which an unexpected parameter is reported under its
name and the other outside calls change nothing. -/
def reportingEnv : Env Unit :=
  { processParamByPos := fun _ _ _ _ s => s,
    processParamByName := fun _ _ _ _ s => s,
    recordUnexpectedParam := fun nm loc s =>
      (s.1, s.2.append nm [Err.located loc "unexpected parameter"]) }

/-! ## The resolution pass -/

/-- Go `os.ModeDir`, a bit of `os.FileMode`. The type `os.FileMode` is
`uint32`; the values here are natural numbers below `2 ^ 32` and the
operations used on them (`&`, `^` with such a value) stay below it. -/
def os.ModeDir : Nat := 2 ^ 31

/-- Go `os.ModeSymlink`. -/
def os.ModeSymlink : Nat := 2 ^ 27

/-- Go `os.ModeDevice`. -/
def os.ModeDevice : Nat := 2 ^ 26

/-- Go `os.ModeNamedPipe`. -/
def os.ModeNamedPipe : Nat := 2 ^ 25

/-- Go `os.ModeSocket`. -/
def os.ModeSocket : Nat := 2 ^ 24

/-- Go `os.ModeCharDevice`. -/
def os.ModeCharDevice : Nat := 2 ^ 21

/-- Go `os.ModeIrregular`. -/
def os.ModeIrregular : Nat := 2 ^ 19

/-- Go `os.ModeType`, the mask of the type bits. -/
def os.ModeType : Nat :=
  os.ModeDir ||| os.ModeSymlink ||| os.ModeNamedPipe ||| os.ModeSocket ||| os.ModeDevice
    ||| os.ModeCharDevice ||| os.ModeIrregular

/-- Go `os.ModePerm`, the mask of the nine permission bits. -/
def os.ModePerm : Nat := 0o777

/-- The constant `FSObjTypeDontCare`. -/
def FSObjTypeDontCare : Nat := os.ModeType

/-- The constant `FSObjTypeRegularFile`. -/
def FSObjTypeRegularFile : Nat := 0

/-- The constant `FSObjTypeDirectory`. -/
def FSObjTypeDirectory : Nat := os.ModeDir

/-- The constant `FSObjTypeSymlink`. -/
def FSObjTypeSymlink : Nat := os.ModeSymlink

/-- The constant `FSObjTypeNamedPipe`. -/
def FSObjTypeNamedPipe : Nat := os.ModeNamedPipe

/-- The constant `FSObjTypeSocket`. -/
def FSObjTypeSocket : Nat := os.ModeSocket

/-- The constant `FSObjTypeDevice`. -/
def FSObjTypeDevice : Nat := os.ModeDevice

/-- The type `PermChecker`: `none` is Go's `nil`, `some msg` an error with the
text `msg`. -/
abbrev PermChecker := Nat → Option String

/-- Go's verb `%04o`: the number in octal, with zeros in front up to four
digits. -/
def fmtOctal04 (n : Nat) : String :=
  String.mk (List.replicate (4 - (Nat.toDigits 8 n).length) '0' ++ Nat.toDigits 8 n)

/-- Embedding of `PermCheckEq`. -/
def PermCheckEq (p : Nat) : PermChecker :=
  fun filePerms =>
    if filePerms = p then none
    else some ("bad permissions: should be " ++ fmtOctal04 p ++ " but we have " ++
      fmtOctal04 filePerms)

/-- Embedding of `PermCheckHasAll`. -/
def PermCheckHasAll (p : Nat) : PermChecker :=
  fun filePerms =>
    if (filePerms &&& p) = p then none
    else some ("bad permissions: all of " ++ fmtOctal04 p ++ " should be set but we have " ++
      fmtOctal04 filePerms)

/-- Embedding of `PermCheckHasNone`. -/
def PermCheckHasNone (p : Nat) : PermChecker :=
  fun filePerms =>
    if (filePerms &&& p) = 0 then none
    else some ("bad permissions: none of " ++ fmtOctal04 p ++ " should be set but we have " ++
      fmtOctal04 filePerms)

/-- The struct `ExpectedStatus`; a size checker is a `check.Int64`. -/
structure ExpectedStatus where
  ObjectType : Nat := 0
  PermCheckers : List PermChecker := []
  SizeCheckers : List (Int → Option String) := []
  Existence : filecheck.Exists := filecheck.Exists.Optional

/-- What `os.Stat` or `os.Lstat` returns: an error for which `os.IsNotExist`
holds, another error with its text, or the mode and the size of the object. -/
inductive StatResult where
  | notExist
  | failed (msg : String)
  | info (mode : Nat) (size : Int)
deriving DecidableEq, Repr

/-- The file system as the status check sees it: the results of `os.Stat` and
of `os.Lstat` for a name. -/
structure FileSystem where
  Stat : String → StatResult
  Lstat : String → StatResult

/-- The loops `for _, pc := range es.PermCheckers` and
`for _, sc := range es.SizeCheckers` of `StatusCheck`: the first error a checker
returns for the value. -/
def firstCheckError {α : Type} : List (α → Option String) → α → Option String
  | [], _ => none
  | c :: rest, v =>
    match c v with
    | some err => some err
    | none => firstCheckError rest v

/-- Embedding of `ObjectTypeAsString`. The text Go's `%v` gives for an
`os.FileMode`, made by the standard library, is the parameter `modeString`. -/
def ObjectTypeAsString (modeString : Nat → String) (objType : Nat) : String :=
  if objType = FSObjTypeDontCare then "any type"
  else if objType = FSObjTypeRegularFile then "regular file"
  else if objType = FSObjTypeDirectory then "directory"
  else if objType = FSObjTypeSymlink then "symbolic link"
  else if objType = FSObjTypeNamedPipe then "named pipe"
  else if objType = FSObjTypeSocket then "socket"
  else if objType = FSObjTypeDevice then "device"
  else "unknown: " ++ modeString objType

/-- The call of `os.Lstat` or `os.Stat` that `StatusCheck` makes. -/
def ExpectedStatus.stat (fs : FileSystem) (es : ExpectedStatus) (name : String) : StatResult :=
  if es.ObjectType = FSObjTypeSymlink then fs.Lstat name else fs.Stat name

/-- Embedding of `ExpectedStatus.StatusCheck`: `none` is Go's `nil`. -/
def ExpectedStatus.StatusCheck (fs : FileSystem) (modeString : Nat → String)
    (es : ExpectedStatus) (name : String) : Option String :=
  match es.stat fs name with
  | StatResult.notExist =>
    if es.Existence = filecheck.Exists.MustExist then
      some ("path: '" ++ name ++ "' does not exist but should")
    else none
  | StatResult.failed msg =>
    if es.Existence = filecheck.Exists.MustNotExist then
      some ("path: '" ++ name ++ "' exists but shouldn't")
    else some ("path: '" ++ name ++ "' error: " ++ msg)
  | StatResult.info mode size =>
    if es.Existence = filecheck.Exists.MustNotExist then
      some ("path: '" ++ name ++ "' exists but shouldn't")
    else if es.ObjectType ≠ FSObjTypeDontCare ∧ (mode &&& os.ModeType) ≠ es.ObjectType then
      some ("path: '" ++ name ++ "' should be a " ++ ObjectTypeAsString modeString es.ObjectType
        ++ " but is a " ++ ObjectTypeAsString modeString (mode &&& os.ModeType))
    else
      match firstCheckError es.PermCheckers (mode &&& os.ModePerm) with
      | some err => some err
      | none => firstCheckError es.SizeCheckers size

/-- Embedding of `ExpectedStatus.String` (the name `String` is the type of the
result here). -/
def ExpectedStatus.asString (modeString : Nat → String) (es : ExpectedStatus) : String :=
  if es.Existence = filecheck.Exists.MustNotExist then "The filesystem object must not exist"
  else
    let rp : String × String :=
      if es.Existence = filecheck.Exists.MustExist then
        ("The filesystem object must exist", " and")
      else if es.Existence = filecheck.Exists.Optional then
        ("The filesystem object need not exist", " but if it does it")
      else ("", "")
    if es.ObjectType ≠ FSObjTypeDontCare then
      rp.1 ++ (rp.2 ++ " must be a " ++ ObjectTypeAsString modeString es.ObjectType)
    else rp.1

/-- A file system for the examples: the name `testdata/nonesuch` does not
exist, `testdata/IsADirectory` is a directory with the permissions 0755, and
every other name is an empty regular file with the permissions 0644. -/
def exampleFS : FileSystem :=
  { Stat := fun n =>
      if n = "testdata/nonesuch" then StatResult.notExist
      else if n = "testdata/IsADirectory" then StatResult.info (os.ModeDir ||| 0o755) 4096
      else StatResult.info 0o644 0,
    Lstat := fun n =>
      if n = "testdata/nonesuch" then StatResult.notExist
      else if n = "testdata/IsADirectory" then StatResult.info (os.ModeDir ||| 0o755) 4096
      else StatResult.info 0o644 0 }

/-! ## `psetter.Float64Setter` -/

/-- The struct `Float64Setter`, with the number the pointer `Value` points at
in the place of the pointer. The type `α` stands for `float64`; a check is a
`check.Float64` and `none` in the list is a nil check. -/
structure Float64Setter (α : Type) where
  Value : α
  Checks : List (Option (α → Option String))

/-- The loop `for _, check := range s.Checks` of `SetWithVal`: the error of the
first check that is not nil and rejects the value. -/
def float64ChecksLoop {α : Type} : List (Option (α → Option String)) → α → Option String
  | [], _ => none
  | none :: rest, v => float64ChecksLoop rest v
  | some check :: rest, v =>
    match check v with
    | some err => some err
    | none => float64ChecksLoop rest v

/-- Embedding of `Float64Setter.Set`: the setter after the call and the error
returned. -/
def Float64Setter.Set {α : Type} (s : Float64Setter α) (_ : String) :
    Float64Setter α × Option String :=
  (s, some "no number given (it should be followed by '=num')")

/-- Embedding of `Float64Setter.SetWithVal`: the setter after the call and
the error returned (`none` is Go's `nil`). Go's `strconv.ParseFloat(_, 64)`,
of the standard library, is the parameter `ParseFloat`, which gives the number
or the text of the error. -/
def Float64Setter.SetWithVal {α : Type} (ParseFloat : String → Except String α)
    (s : Float64Setter α) (_ : String) (paramVal : String) : Float64Setter α × Option String :=
  match ParseFloat paramVal with
  | Except.error err =>
    (s, some ("could not parse '" ++ paramVal ++ "' as a float value: " ++ err))
  | Except.ok v =>
    match float64ChecksLoop s.Checks v with
    | some err => (s, some err)
    | none => ({ s with Value := v }, none)

/-! ## Helper lemmas on strings -/

theorem String.mk_drop_ne (s : String) (n : Nat) (hn : 0 < n) (hs : s.data ≠ []) :
    (String.mk (s.data.drop n)) ≠ s := by
  intro h
  have h2 : (s.data.drop n).length = s.data.length := by
    have := congrArg String.data h
    simp only at this
    rw [this]
  rw [List.length_drop] at h2
  have : 0 < s.data.length := List.length_pos.mpr hs
  omega

theorem TrimPrefix_of_prefix (s pre : String) (h : pre.data.isPrefixOf s.data = true) :
    TrimPrefix s pre = ⟨s.data.drop pre.data.length⟩ := by
  simp [TrimPrefix, h]

theorem TrimPrefix_of_not_prefix (s pre : String) (h : pre.data.isPrefixOf s.data = false) :
    TrimPrefix s pre = s := by
  simp [TrimPrefix, h]

/-- Without a leading dash `trimParam` fails and returns its argument. -/
theorem trimParam_no_dash (p : String) (h : p.data.head? ≠ some '-') :
    trimParam p = (p, some (trimParamErrText p)) := by
  have h1 : ("-" : String).data.isPrefixOf p.data = false := by
    cases hp : p.data with
    | nil => rfl
    | cons c cs =>
      rw [hp] at h
      have hc : c ≠ '-' := by simpa using h
      show List.isPrefixOf ['-'] (c :: cs) = false
      simp [List.isPrefixOf, hc.symm]
  have h2 : ("--" : String).data.isPrefixOf p.data = false := by
    cases hp : p.data with
    | nil => rfl
    | cons c cs =>
      rw [hp] at h
      have hc : c ≠ '-' := by simpa using h
      show List.isPrefixOf ['-', '-'] (c :: cs) = false
      simp [List.isPrefixOf, hc.symm]
  simp [trimParam, TrimPrefix_of_not_prefix _ _ h1, TrimPrefix_of_not_prefix _ _ h2]

/-- With a leading double dash `trimParam` drops two characters. -/
theorem trimParam_double_dash (p : String) (cs : List Char) (h : p.data = '-' :: '-' :: cs) :
    trimParam p = (⟨cs⟩, none) := by
  have h2 : ("--" : String).data.isPrefixOf p.data = true := by
    rw [h]; show List.isPrefixOf ['-', '-'] ('-' :: '-' :: cs) = true
    simp [List.isPrefixOf]
  have hne : (String.mk (p.data.drop 2)) ≠ p :=
    String.mk_drop_ne p 2 (by decide) (by rw [h]; simp)
  have hd : p.data.drop 2 = cs := by rw [h]; rfl
  have e : TrimPrefix p "--" = ⟨p.data.drop 2⟩ := TrimPrefix_of_prefix _ _ h2
  simp only [trimParam, e]
  rw [hd] at hne ⊢
  simp [hne]

/-- With a single leading dash `trimParam` drops one character. -/
theorem trimParam_single_dash (p : String) (cs : List Char) (h : p.data = '-' :: cs)
    (h2 : cs.head? ≠ some '-') :
    trimParam p = (⟨cs⟩, none) := by
  have h1 : ("-" : String).data.isPrefixOf p.data = true := by
    rw [h]; show List.isPrefixOf ['-'] ('-' :: cs) = true
    simp [List.isPrefixOf]
  have h22 : ("--" : String).data.isPrefixOf p.data = false := by
    rw [h]
    cases cs with
    | nil => rfl
    | cons c cs =>
      have hc : c ≠ '-' := by simpa using h2
      show List.isPrefixOf ['-', '-'] ('-' :: c :: cs) = false
      simp [List.isPrefixOf, hc.symm]
  have hne : (String.mk (p.data.drop 1)) ≠ p :=
    String.mk_drop_ne p 1 (by decide) (by rw [h]; simp)
  have hd : p.data.drop 1 = cs := by rw [h]; rfl
  have e : TrimPrefix p "-" = ⟨p.data.drop 1⟩ := TrimPrefix_of_prefix _ _ h1
  simp only [trimParam, e, TrimPrefix_of_not_prefix _ _ h22]
  rw [hd] at hne ⊢
  simp [hne]

/-! ## `strings.SplitN` -/

theorem span_ne_of_split (sep : Char) (name val : List Char) (h : sep ∉ name) :
    (name ++ sep :: val).span (fun c => c != sep) = (name, sep :: val) := by
  rw [List.span_eq_take_drop]
  induction name with
  | nil => simp [List.takeWhile, List.dropWhile]
  | cons c cs ih =>
    have hc : (c != sep) = true := by
      have : c ≠ sep := fun e => h (by simp [e])
      simpa using this
    have hcs : sep ∉ cs := fun e => h (by simp [e])
    have := ih hcs
    rw [Prod.mk.injEq] at this ⊢
    rw [List.cons_append, List.takeWhile_cons, List.dropWhile_cons, hc]
    simp only [if_true]
    exact ⟨by rw [this.1], this.2⟩

theorem span_ne_of_not_mem (sep : Char) (s : List Char) (h : sep ∉ s) :
    s.span (fun c => c != sep) = (s, []) := by
  rw [List.span_eq_take_drop]
  have ht : s.takeWhile (fun c => c != sep) = s := by
    rw [List.takeWhile_eq_self_iff]
    intro c hc
    have : c ≠ sep := fun e => h (e ▸ hc)
    simpa using this
  have hd : s.dropWhile (fun c => c != sep) = [] := by
    rw [List.dropWhile_eq_nil_iff]
    intro c hc
    have : c ≠ sep := fun e => h (e ▸ hc)
    simpa using this
  rw [ht, hd]

/-- A string with a separator splits at the first one. -/
theorem SplitN2_of_split (s : String) (sep : Char) (name val : List Char)
    (hs : s.data = name ++ sep :: val) (h : sep ∉ name) :
    SplitN2 s sep = [⟨name⟩, ⟨val⟩] := by
  unfold SplitN2
  rw [hs, span_ne_of_split sep name val h]

/-- A string without a separator is not split. -/
theorem SplitN2_of_not_mem (s : String) (sep : Char) (h : sep ∉ s.data) :
    SplitN2 s sep = [s] := by
  unfold SplitN2
  rw [span_ne_of_not_mem sep s.data h]

/-- Every string either has no separator or splits at its first one. -/
theorem split_cases (sep : Char) (s : List Char) :
    sep ∉ s ∨ ∃ name val, s = name ++ sep :: val ∧ sep ∉ name := by
  induction s with
  | nil => left; simp
  | cons c cs ih =>
    by_cases hc : c = sep
    · right; exact ⟨[], cs, by simp [hc], by simp⟩
    · rcases ih with h | ⟨name, val, e, hn⟩
      · left
        intro hm
        rcases List.mem_cons.mp hm with h1 | h1
        · exact hc h1.symm
        · exact h h1
      · right
        refine ⟨c :: name, val, by simp [e], ?_⟩
        intro hm
        rcases List.mem_cons.mp hm with h1 | h1
        · exact hc h1.symm
        · exact hn h1

theorem SplitN2_length_eq_one_iff (s : String) (sep : Char) :
    (SplitN2 s sep).length = 1 ↔ sep ∉ s.data := by
  rcases split_cases sep s.data with h | ⟨name, val, e, hn⟩
  · simp [SplitN2_of_not_mem s sep h, h]
  · rw [SplitN2_of_split s sep name val e hn, e]
    simp

/-! ## The positional phase -/

theorem posCall_cons_succ (source : String) (pp : ByPos) (pps : List ByPos)
    (params : List String) (i k : Nat) :
    posCall source (pp :: pps) params i (k + 1) = posCall source pps params (i + 1) k := by
  simp only [posCall, List.getD_cons_succ]
  have : i + (k + 1) = i + 1 + k := by omega
  rw [this]

theorem posEffect_cons_succ {ω : Type} (env : Env ω) (source : String) (pp : ByPos)
    (pps : List ByPos) (params : List String) (i k : Nat) :
    posEffect env source (pp :: pps) params i (k + 1) = posEffect env source pps params (i + 1) k := by
  simp only [posEffect, List.getD_cons_succ]
  have : i + (k + 1) = i + 1 + k := by omega
  rw [this]

theorem boundRun_zero {ω : Type} (env : Env ω) (source : String) (pps : List ByPos)
    (params : List String) (i : Nat) (r : Run ω) :
    boundRun env source pps params i 0 r = r := by
  cases r
  simp [boundRun]

theorem boundRun_cons {ω : Type} (env : Env ω) (source : String) (pp : ByPos)
    (pps : List ByPos) (params : List String) (i m : Nat) (r : Run ω) :
    boundRun env source (pp :: pps) params i (m + 1) r
      = boundRun env source pps params (i + 1) m
          (r.call (posEffect env source (pp :: pps) params i 0)
            (posCall source (pp :: pps) params i 0)) := by
  simp only [boundRun, Run.call, List.range_succ_eq_map, List.foldl_cons, List.foldl_map,
    List.map_cons, List.map_map, posEffect_cons_succ, List.append_assoc, List.singleton_append]
  congr 3
  apply List.map_congr_left
  intro k _
  exact posCall_cons_succ source pp pps params i k

theorem boundRun_succ {ω : Type} (env : Env ω) (source : String) (pps : List ByPos)
    (params : List String) (i m : Nat) (r : Run ω) :
    boundRun env source pps params i (m + 1) r
      = (boundRun env source pps params i m r).call (posEffect env source pps params i m)
          (posCall source pps params i m) := by
  simp [boundRun, Run.call, List.range_succ, List.foldl_append]

/-- While no terminal parameter is met, the positional loop passes the tokens
to the parameters one by one. -/
theorem positionalLoop_steps {ω : Type} (env : Env ω) (source : String)
    (params : List String) :
    ∀ (m : Nat) (pps : List ByPos) (i : Nat) (loc : Loc) (r : Run ω),
      m ≤ pps.length → i + m ≤ params.length →
      (∀ k, k < m → (pps.getD k { name := "" }).isTerminal = false) →
      loc.source = source → loc.idx = i →
      ∃ loc1 : Loc, loc1.source = source ∧ loc1.idx = i + m ∧
        positionalLoop env source params pps i loc r
          = positionalLoop env source params (pps.drop m) (i + m) loc1
              (boundRun env source pps params i m r) := by
  intro m
  induction m with
  | zero =>
    intro pps i loc r _ _ _ hs hi
    exact ⟨loc, hs, hi, by simp [boundRun_zero]⟩
  | succ m ih =>
    intro pps i loc r hm hp hterm hs hi
    cases pps with
    | nil => simp at hm
    | cons pp pps =>
      have hi2 : i < params.length := by omega
      have hget : params[i]? = some (params.getD i "") := by
        rw [List.getD_eq_getElem?_getD, List.getElem?_eq_getElem hi2]; rfl
      have hpp : pp.isTerminal = false := by
        have := hterm 0 (by omega)
        simpa using this
      obtain ⟨loc1, h1, h2, h3⟩ := ih pps (i + 1) ((loc.Incr).SetContent (params.getD i ""))
        (r.call (posEffect env source (pp :: pps) params i 0)
          (posCall source (pp :: pps) params i 0))
        (by simpa using hm) (by omega)
        (fun k hk => by
          have := hterm (k + 1) (by omega)
          simpa using this)
        (by simp [Loc.SetContent, Loc.Incr, hs]) (by simp [Loc.SetContent, Loc.Incr, hi])
      refine ⟨loc1, h1, by omega, ?_⟩
      have hloc : (loc.Incr).SetContent (params.getD i "") = posLoc source params (i + 0) := by
        simp [Loc.SetContent, Loc.Incr, posLoc, hs, hi]
      rw [positionalLoop, hget]
      simp only [hpp, Bool.false_eq_true, if_false]
      rw [boundRun_cons, List.drop_succ_cons]
      have e : i + (m + 1) = i + 1 + m := by omega
      rw [e, ← h3]
      simp only [posEffect, posCall, List.getD_cons_zero, hloc, Nat.add_zero]

/-- The positional loop bound to the first terminal parameter stops there. -/
theorem positionalLoop_terminal {ω : Type} (env : Env ω) (source : String)
    (params : List String) (pps : List ByPos) (k : Nat) (pp : ByPos) (r : Run ω)
    (hk : pps[k]? = some pp) (hpp : pp.isTerminal = true)
    (hfirst : ∀ j, j < k → (pps.getD j { name := "" }).isTerminal = false)
    (hlen : pps.length ≤ params.length) :
    ∃ loc1 : Loc, positionalLoop env source params pps 0 (Loc.New source) r
      = some (loc1, (boundRun env source pps params 0 (k + 1) r).setRemainder
          (params.drop (k + 1)), true) := by
  have hklt : k < pps.length := by
    rcases Nat.lt_or_ge k pps.length with h | h
    · exact h
    · rw [List.getElem?_eq_none h] at hk; cases hk
  obtain ⟨loc1, h1, h2, h3⟩ := positionalLoop_steps env source params k pps 0 (Loc.New source) r
    (by omega) (by omega) hfirst rfl rfl
  have hdrop : pps.drop k = pp :: pps.drop (k + 1) := by
    have := List.drop_eq_getElem_cons hklt
    rw [this]
    congr 1
    rw [List.getElem?_eq_getElem hklt] at hk
    exact Option.some.inj hk
  have hi2 : k < params.length := by omega
  have hget : params[0 + k]? = some (params.getD k "") := by
    rw [List.getD_eq_getElem?_getD, Nat.zero_add, List.getElem?_eq_getElem hi2]; rfl
  have hgd : pps.getD k { name := "" } = pp := by
    rw [List.getD_eq_getElem?_getD, hk]; rfl
  refine ⟨(loc1.Incr).SetContent (params.getD k ""), ?_⟩
  rw [h3, hdrop, positionalLoop, hget]
  simp only [hpp, if_true]
  rw [boundRun_succ]
  have hloc : (loc1.Incr).SetContent (params.getD k "") = posLoc source params (0 + k) := by
    simp [Loc.SetContent, Loc.Incr, posLoc, h1, h2]
  simp only [posEffect, posCall, hloc, hgd, Nat.zero_add]

/-- C1: with N declared positional parameters, none of them terminal, and at
least N tokens, `getParamsFromStringSlice` returns, the calls it has made when
the named loop starts are the earlier ones followed by exactly one call for
each `i < N`, in increasing order of `i`, that passes the token at index `i`
(located at sequence number `i + 1`) to the `i`-th declared positional
parameter, and the named loop starts at the token with index N. -/
theorem getParams_binds_positionals {ω : Type} (env : Env ω) (source : String)
    (params : List String) (r : Run ω)
    (hterm : ∀ pp ∈ r.ps.byPos, pp.isTerminal = false)
    (hlen : r.ps.byPos.length ≤ params.length) :
    ∃ (loc1 : Loc) (r1 : Run ω),
      getParamsFromStringSlice env source params r
        = some (namedLoop env source (params.drop r.ps.byPos.length) loc1 r1)
      ∧ loc1.source = source ∧ loc1.idx = r.ps.byPos.length
      ∧ r1 = boundRun env source r.ps.byPos params 0 r.ps.byPos.length r
      ∧ r1.calls = r.calls ++ (List.range r.ps.byPos.length).map (fun i =>
          Call.byPos (r.ps.byPos.getD i { name := "" }) source
            { source := source, idx := i + 1, content := params.getD i "" } (params.getD i ""))
      ∧ r1.ps.byPos = r.ps.byPos ∧ r1.ps.nameToParam = r.ps.nameToParam
      ∧ r1.ps.terminalParam = r.ps.terminalParam
      ∧ r1.ps.remainingParams = r.ps.remainingParams := by
  have hcalls : (boundRun env source r.ps.byPos params 0 r.ps.byPos.length r).calls
      = r.calls ++ (List.range r.ps.byPos.length).map (fun i =>
          Call.byPos (r.ps.byPos.getD i { name := "" }) source
            { source := source, idx := i + 1, content := params.getD i "" }
            (params.getD i "")) := by
    simp only [boundRun]
    congr 1
    apply List.map_congr_left
    intro k _
    simp [posCall, posLoc]
  by_cases hN : r.ps.byPos.length > 0
  · have hterm2 : ∀ k, k < r.ps.byPos.length →
        (r.ps.byPos.getD k { name := "" }).isTerminal = false := by
      intro k hk
      apply hterm
      rw [List.getD_eq_getElem?_getD, List.getElem?_eq_getElem hk]
      exact List.getElem_mem hk
    obtain ⟨loc1, h1, h2, h3⟩ := positionalLoop_steps env source params r.ps.byPos.length
      r.ps.byPos 0 (Loc.New source) r (le_refl _) (by omega) hterm2 rfl rfl
    refine ⟨loc1, boundRun env source r.ps.byPos params 0 r.ps.byPos.length r,
      ?_, h1, by omega, rfl, hcalls, rfl, rfl, rfl, rfl⟩
    have hmc : ¬ ((r.ps.byPos.length : Int) - (params.length : Int) > 0) := by omega
    simp only [getParamsFromStringSlice, hN, if_true, hmc, if_false]
    rw [h3, List.drop_length, positionalLoop]
  · have h0 : r.ps.byPos.length = 0 := by omega
    refine ⟨Loc.New source, boundRun env source r.ps.byPos params 0 r.ps.byPos.length r,
      ?_, rfl, by rw [h0]; rfl, rfl, hcalls, rfl, rfl, rfl, rfl⟩
    simp only [getParamsFromStringSlice, hN, if_false]
    rw [h0, boundRun_zero]

/-- Witness of C1: two positional parameters and three tokens. -/
theorem getParams_binds_positionals_witness :
    ∃ (loc1 : Loc) (r1 : Run Unit),
      getParamsFromStringSlice quietEnv "cmd" ["a", "b", "-v"]
          { ps := { byPos := [{ name := "src" }, { name := "dst" }] }, world := () }
        = some (namedLoop quietEnv "cmd" (["a", "b", "-v"].drop 2) loc1 r1)
      ∧ loc1.source = "cmd" ∧ loc1.idx = 2
      ∧ r1 = boundRun quietEnv "cmd" [{ name := "src" }, { name := "dst" }] ["a", "b", "-v"] 0 2
          { ps := { byPos := [{ name := "src" }, { name := "dst" }] }, world := () }
      ∧ r1.calls = [] ++ (List.range 2).map (fun i =>
          Call.byPos (([{ name := "src" }, { name := "dst" }] : List ByPos).getD i { name := "" })
            "cmd" { source := "cmd", idx := i + 1, content := ["a", "b", "-v"].getD i "" }
            (["a", "b", "-v"].getD i ""))
      ∧ r1.ps.byPos = [{ name := "src" }, { name := "dst" }] ∧ r1.ps.nameToParam = []
      ∧ r1.ps.terminalParam = "--"
      ∧ r1.ps.remainingParams = [] :=
  getParams_binds_positionals quietEnv "cmd" ["a", "b", "-v"]
    { ps := { byPos := [{ name := "src" }, { name := "dst" }] }, world := () }
    (by decide) (by decide)

/-- C2: with N > 0 declared positional parameters and fewer than N tokens,
`getParamsFromStringSlice` returns after appending exactly one error under the
empty key and changes nothing else: no outside call is made (no token reaches
a setter), the world is unchanged, no other error key changes, and the
remainder and the registry are unchanged. -/
theorem getParams_missing_positionals {ω : Type} (env : Env ω) (source : String)
    (params : List String) (r : Run ω)
    (hN : 0 < r.ps.byPos.length) (hlt : params.length < r.ps.byPos.length) :
    ∃ r1 : Run ω,
      getParamsFromStringSlice env source params r = some r1
      ∧ r1.ps.errors "" = r.ps.errors "" ++
          [missingParamsErr r.ps ((r.ps.byPos.length : Int) - (params.length : Int))]
      ∧ (∀ k : String, k ≠ "" → r1.ps.errors k = r.ps.errors k)
      ∧ r1.calls = r.calls ∧ r1.world = r.world
      ∧ r1.ps.remainingParams = r.ps.remainingParams
      ∧ r1.ps.byPos = r.ps.byPos ∧ r1.ps.nameToParam = r.ps.nameToParam
      ∧ r1.ps.terminalParam = r.ps.terminalParam := by
  have hmc : (r.ps.byPos.length : Int) - (params.length : Int) > 0 := by omega
  generalize hm : (r.ps.byPos.length : Int) - (params.length : Int) = mc at hmc ⊢
  refine ⟨{ r with ps := reportMissingParams r.ps mc }, ?_, ?_, ?_, rfl, rfl, rfl, rfl, rfl, rfl⟩
  · simp only [getParamsFromStringSlice, gt_iff_lt, hN, if_true, hm]
    rw [if_pos hmc]
  · simp [reportMissingParams, ErrMap.append]
  · intro k hk
    simp [reportMissingParams, ErrMap.append, hk]

/-- Witness of C2: two positional parameters and one token. -/
theorem getParams_missing_positionals_witness :
    ∃ r1 : Run Unit,
      getParamsFromStringSlice quietEnv "cmd" ["a"]
          { ps := { byPos := [{ name := "src" }, { name := "dst" }] }, world := () } = some r1
      ∧ r1.ps.errors "" = [] ++
          [missingParamsErr { byPos := [{ name := "src" }, { name := "dst" }] }
            (((2 : Nat) : Int) - ((1 : Nat) : Int))]
      ∧ (∀ k : String, k ≠ "" → r1.ps.errors k = [])
      ∧ r1.calls = [] ∧ r1.world = ()
      ∧ r1.ps.remainingParams = []
      ∧ r1.ps.byPos = [{ name := "src" }, { name := "dst" }] ∧ r1.ps.nameToParam = []
      ∧ r1.ps.terminalParam = "--" :=
  getParams_missing_positionals quietEnv "cmd" ["a"]
    { ps := { byPos := [{ name := "src" }, { name := "dst" }] }, world := () }
    (by decide) (by decide)

/-- C3: when the token list is long enough for the positional parameters and
the parameter at index k is the first terminal one, `getParamsFromStringSlice`
returns with the remainder equal to the tokens after index k; the only outside
calls it makes are the k + 1 positional calls for the tokens 0 to k, and the
world and the error map are exactly what these k + 1 calls leave: no later
token is bound, looked up or reported. -/
theorem getParams_terminal_positional {ω : Type} (env : Env ω) (source : String)
    (params : List String) (r : Run ω) (k : Nat) (pp : ByPos)
    (hk : r.ps.byPos[k]? = some pp) (hpp : pp.isTerminal = true)
    (hfirst : ∀ j, j < k → (r.ps.byPos.getD j { name := "" }).isTerminal = false)
    (hlen : r.ps.byPos.length ≤ params.length) :
    ∃ r1 : Run ω,
      getParamsFromStringSlice env source params r = some r1
      ∧ r1.ps.Remainder = params.drop (k + 1)
      ∧ r1 = (boundRun env source r.ps.byPos params 0 (k + 1) r).setRemainder
          (params.drop (k + 1))
      ∧ r1.calls = r.calls ++ (List.range (k + 1)).map (fun i =>
          Call.byPos (r.ps.byPos.getD i { name := "" }) source
            { source := source, idx := i + 1, content := params.getD i "" } (params.getD i ""))
      ∧ (r1.world, r1.ps.errors) = (List.range (k + 1)).foldl (fun st i =>
          env.processParamByPos (r.ps.byPos.getD i { name := "" }) source
            { source := source, idx := i + 1, content := params.getD i "" } (params.getD i "") st)
          (r.world, r.ps.errors) := by
  have hklt : k < r.ps.byPos.length := by
    rcases Nat.lt_or_ge k r.ps.byPos.length with h | h
    · exact h
    · rw [List.getElem?_eq_none h] at hk; cases hk
  obtain ⟨loc1, h⟩ := positionalLoop_terminal env source params r.ps.byPos k pp r hk hpp
    hfirst hlen
  refine ⟨(boundRun env source r.ps.byPos params 0 (k + 1) r).setRemainder
    (params.drop (k + 1)), ?_, rfl, rfl, ?_, ?_⟩
  · have hN : r.ps.byPos.length > 0 := by omega
    have hmc : ¬ ((r.ps.byPos.length : Int) - (params.length : Int) > 0) := by omega
    simp only [getParamsFromStringSlice, hN, if_true, hmc, if_false]
    rw [h]
  · simp only [boundRun, Run.setRemainder]
    congr 1
    apply List.map_congr_left
    intro i _
    simp [posCall, posLoc]
  · simp only [boundRun, Run.setRemainder]
    have : (fun (st : ω × ErrMap) (k : Nat) => posEffect env source r.ps.byPos params 0 k st)
        = (fun st i => env.processParamByPos (r.ps.byPos.getD i { name := "" }) source
            { source := source, idx := i + 1, content := params.getD i "" }
            (params.getD i "") st) := by
      funext st i
      simp [posEffect, posLoc]
    rw [this]

/-- Witness of C3: the first of two positional parameters is terminal. -/
theorem getParams_terminal_positional_witness :
    ∃ r1 : Run Unit,
      getParamsFromStringSlice quietEnv "cmd" ["a", "b", "-v", "c"]
          { ps := { byPos := [{ name := "src", isTerminal := true }, { name := "dst" }] },
            world := () } = some r1
      ∧ r1.ps.Remainder = ["a", "b", "-v", "c"].drop (0 + 1)
      ∧ r1 = (boundRun quietEnv "cmd" [{ name := "src", isTerminal := true }, { name := "dst" }]
          ["a", "b", "-v", "c"] 0 (0 + 1)
          { ps := { byPos := [{ name := "src", isTerminal := true }, { name := "dst" }] },
            world := () }).setRemainder (["a", "b", "-v", "c"].drop (0 + 1))
      ∧ r1.calls = [] ++ (List.range (0 + 1)).map (fun i =>
          Call.byPos (([{ name := "src", isTerminal := true }, { name := "dst" }] :
            List ByPos).getD i { name := "" }) "cmd"
            { source := "cmd", idx := i + 1, content := ["a", "b", "-v", "c"].getD i "" }
            (["a", "b", "-v", "c"].getD i ""))
      ∧ (r1.world, r1.ps.errors) = (List.range (0 + 1)).foldl (fun st i =>
          quietEnv.processParamByPos
            (([{ name := "src", isTerminal := true }, { name := "dst" }] :
              List ByPos).getD i { name := "" }) "cmd"
            { source := "cmd", idx := i + 1, content := ["a", "b", "-v", "c"].getD i "" }
            (["a", "b", "-v", "c"].getD i "") st)
          ((), fun _ => []) :=
  getParams_terminal_positional quietEnv "cmd" ["a", "b", "-v", "c"]
    { ps := { byPos := [{ name := "src", isTerminal := true }, { name := "dst" }] },
      world := () } 0 { name := "src", isTerminal := true }
    (by decide) (by decide) (by decide) (by decide)

/-! ## The named phase: one iteration -/

/-- At the terminal token the loop sets the remainder and returns. -/
theorem namedLoop_sentinel {ω : Type} (env : Env ω) (source : String) (rest : List String)
    (loc : Loc) (r : Run ω) :
    namedLoop env source (r.ps.terminalParam :: rest) loc r = r.setRemainder rest := by
  simp [namedLoop]

/-- A token without a leading dash is reported under its own name part. -/
theorem namedLoop_syntax_error {ω : Type} (env : Env ω) (source : String) (pStr : String)
    (rest : List String) (loc : Loc) (r : Run ω) (nm err : String)
    (hs : pStr ≠ r.ps.terminalParam)
    (htrim : trimParam ((SplitN2 pStr '=').headD "") = (nm, some err)) :
    namedLoop env source (pStr :: rest) loc r
      = namedLoop env source rest ((loc.Incr).SetContent pStr)
          (r.addErr nm (Err.located ((loc.Incr).SetContent pStr) err)) := by
  rw [namedLoop]
  simp only [hs, if_false, htrim]

/-- A name that is not registered is handed to `recordUnexpectedParam`. -/
theorem namedLoop_unexpected {ω : Type} (env : Env ω) (source : String) (pStr : String)
    (rest : List String) (loc : Loc) (r : Run ω) (nm : String)
    (hs : pStr ≠ r.ps.terminalParam)
    (htrim : trimParam ((SplitN2 pStr '=').headD "") = (nm, none))
    (hlook : r.ps.nameToParam.lookup nm = none) :
    namedLoop env source (pStr :: rest) loc r
      = namedLoop env source rest ((loc.Incr).SetContent pStr)
          (r.call (env.recordUnexpectedParam nm ((loc.Incr).SetContent pStr))
            (Call.unexpected nm ((loc.Incr).SetContent pStr))) := by
  rw [namedLoop]
  simp only [hs, if_false, htrim, hlook]

/-- A registered name that takes no following token is dispatched with the
parts of its own token. -/
theorem namedLoop_dispatch {ω : Type} (env : Env ω) (source : String) (pStr : String)
    (rest : List String) (loc : Loc) (r : Run ω) (nm : String) (p : ByName)
    (hs : pStr ≠ r.ps.terminalParam)
    (htrim : trimParam ((SplitN2 pStr '=').headD "") = (nm, none))
    (hlook : r.ps.nameToParam.lookup nm = some p)
    (hno : ¬ (p.valueReq = ValueReq.Mandatory ∧ (SplitN2 pStr '=').length = 1)) :
    namedLoop env source (pStr :: rest) loc r
      = namedLoop env source rest ((loc.Incr).SetContent pStr)
          (r.call (env.processParamByName p source ((loc.Incr).SetContent pStr)
              (SplitN2 pStr '='))
            (Call.byName p source ((loc.Incr).SetContent pStr) (SplitN2 pStr '='))) := by
  rw [namedLoop]
  simp only [hs, if_false, htrim, hlook, hno]

/-- A registered name that needs a value and has none inline takes the next
token as its value. -/
theorem namedLoop_lookahead {ω : Type} (env : Env ω) (source : String) (pStr v : String)
    (rest2 : List String) (loc : Loc) (r : Run ω) (nm : String) (p : ByName)
    (hs : pStr ≠ r.ps.terminalParam)
    (htrim : trimParam ((SplitN2 pStr '=').headD "") = (nm, none))
    (hlook : r.ps.nameToParam.lookup nm = some p)
    (hyes : p.valueReq = ValueReq.Mandatory ∧ (SplitN2 pStr '=').length = 1) :
    namedLoop env source (pStr :: v :: rest2) loc r
      = namedLoop env source rest2
          ((((loc.Incr).SetContent pStr).Incr).SetContent (pStr ++ " " ++ v))
          (r.call (env.processParamByName p source
              ((((loc.Incr).SetContent pStr).Incr).SetContent (pStr ++ " " ++ v))
              (SplitN2 pStr '=' ++ [v]))
            (Call.byName p source
              ((((loc.Incr).SetContent pStr).Incr).SetContent (pStr ++ " " ++ v))
              (SplitN2 pStr '=' ++ [v]))) := by
  rw [namedLoop]
  simp only [hs, if_false, htrim, hlook, hyes, and_self, if_true]

/-- A registered name that needs a value, has none inline and is the last
token is dispatched without a value. -/
theorem namedLoop_lookahead_last {ω : Type} (env : Env ω) (source : String) (pStr : String)
    (loc : Loc) (r : Run ω) (nm : String) (p : ByName)
    (hs : pStr ≠ r.ps.terminalParam)
    (htrim : trimParam ((SplitN2 pStr '=').headD "") = (nm, none))
    (hlook : r.ps.nameToParam.lookup nm = some p)
    (hyes : p.valueReq = ValueReq.Mandatory ∧ (SplitN2 pStr '=').length = 1) :
    namedLoop env source [pStr] loc r
      = r.call (env.processParamByName p source ((loc.Incr).SetContent pStr) (SplitN2 pStr '='))
          (Call.byName p source ((loc.Incr).SetContent pStr) (SplitN2 pStr '=')) := by
  rw [namedLoop]
  simp only [hs, if_false, htrim, hlook, hyes, and_self, if_true]

theorem Run.call_registry {ω : Type} (r : Run ω) (f : ω × ErrMap → ω × ErrMap) (c : Call) :
    (r.call f c).ps.nameToParam = r.ps.nameToParam
    ∧ (r.call f c).ps.terminalParam = r.ps.terminalParam := ⟨rfl, rfl⟩

theorem Run.addErr_registry {ω : Type} (r : Run ω) (k : String) (e : Err) :
    (r.addErr k e).ps.nameToParam = r.ps.nameToParam
    ∧ (r.addErr k e).ps.terminalParam = r.ps.terminalParam := ⟨rfl, rfl⟩

theorem consumedWhole_cons (reg : List (String × ByName)) (term t : String)
    (rest : List String) :
    consumedWhole reg term (t :: rest)
      = if t = term then false
        else if takesNext reg t then
          match rest with
          | [] => false
          | _ :: rest2 => consumedWhole reg term rest2
        else consumedWhole reg term rest := by
  cases rest <;> rfl

/-- The named loop on tokens consumed by whole iterations followed by more
tokens: it does what it does on the consumed tokens and goes on with the
others, the sequence number advanced by the number of tokens consumed; the
registry is as before. -/
theorem namedLoop_append {ω : Type} (env : Env ω) (source : String) (more : List String) :
    ∀ (n : Nat) (consumed : List String) (loc : Loc) (r : Run ω), consumed.length ≤ n →
      consumedWhole r.ps.nameToParam r.ps.terminalParam consumed = true →
      ∃ loc1 : Loc, loc1.idx = loc.idx + consumed.length ∧ loc1.source = loc.source
        ∧ namedLoop env source (consumed ++ more) loc r
            = namedLoop env source more loc1 (namedLoop env source consumed loc r)
        ∧ (namedLoop env source consumed loc r).ps.nameToParam = r.ps.nameToParam
        ∧ (namedLoop env source consumed loc r).ps.terminalParam = r.ps.terminalParam := by
  intro n
  induction n with
  | zero =>
    intro consumed loc r hn _
    have : consumed = [] := List.length_eq_zero.mp (by omega)
    subst this
    exact ⟨loc, rfl, rfl, rfl, rfl, rfl⟩
  | succ n ih =>
    intro consumed loc r hn hc
    cases consumed with
    | nil => exact ⟨loc, rfl, rfl, rfl, rfl, rfl⟩
    | cons t rest =>
      rw [consumedWhole_cons] at hc
      by_cases hs : t = r.ps.terminalParam
      · simp [hs] at hc
      · simp only [hs, if_false] at hc
        have hlen : rest.length ≤ n := by simpa using hn
        rcases htrim : trimParam ((SplitN2 t '=').headD "") with ⟨nm, _ | err⟩
        · cases hlook : r.ps.nameToParam.lookup nm with
          | none =>
            have htn : takesNext r.ps.nameToParam t = false := by
              simp only [takesNext, htrim, hlook]
            simp only [htn, Bool.false_eq_true, if_false] at hc
            obtain ⟨loc1, h1, h2, h3, h4, h5⟩ := ih rest ((loc.Incr).SetContent t)
              (r.call (env.recordUnexpectedParam nm ((loc.Incr).SetContent t))
                (Call.unexpected nm ((loc.Incr).SetContent t))) hlen hc
            refine ⟨loc1, ?_, ?_, ?_, ?_, ?_⟩
            · rw [h1]; simp [Loc.SetContent, Loc.Incr]; omega
            · rw [h2]; rfl
            · rw [List.cons_append,
                namedLoop_unexpected env source t (rest ++ more) loc r nm hs htrim hlook,
                namedLoop_unexpected env source t rest loc r nm hs htrim hlook]
              exact h3
            · rw [namedLoop_unexpected env source t rest loc r nm hs htrim hlook]; exact h4
            · rw [namedLoop_unexpected env source t rest loc r nm hs htrim hlook]; exact h5
          | some p =>
            by_cases hyes : p.valueReq = ValueReq.Mandatory ∧ (SplitN2 t '=').length = 1
            · have htn : takesNext r.ps.nameToParam t = true := by
                simp only [takesNext, htrim, hlook]
                exact decide_eq_true hyes
              simp only [htn, if_true] at hc
              cases rest with
              | nil => simp at hc
              | cons v rest2 =>
                simp only at hc
                have hlen2 : rest2.length ≤ n := by
                  simp only [List.length_cons] at hlen; omega
                obtain ⟨loc1, h1, h2, h3, h4, h5⟩ := ih rest2
                  ((((loc.Incr).SetContent t).Incr).SetContent (t ++ " " ++ v))
                  (r.call (env.processParamByName p source
                      ((((loc.Incr).SetContent t).Incr).SetContent (t ++ " " ++ v))
                      (SplitN2 t '=' ++ [v]))
                    (Call.byName p source
                      ((((loc.Incr).SetContent t).Incr).SetContent (t ++ " " ++ v))
                      (SplitN2 t '=' ++ [v]))) hlen2 hc
                refine ⟨loc1, ?_, ?_, ?_, ?_, ?_⟩
                · rw [h1]; simp [Loc.SetContent, Loc.Incr]; omega
                · rw [h2]; rfl
                · rw [List.cons_append, List.cons_append,
                    namedLoop_lookahead env source t v (rest2 ++ more) loc r nm p hs htrim
                      hlook hyes,
                    namedLoop_lookahead env source t v rest2 loc r nm p hs htrim hlook hyes]
                  exact h3
                · rw [namedLoop_lookahead env source t v rest2 loc r nm p hs htrim hlook hyes]
                  exact h4
                · rw [namedLoop_lookahead env source t v rest2 loc r nm p hs htrim hlook hyes]
                  exact h5
            · have htn : takesNext r.ps.nameToParam t = false := by
                simp only [takesNext, htrim, hlook]
                exact decide_eq_false hyes
              simp only [htn, Bool.false_eq_true, if_false] at hc
              obtain ⟨loc1, h1, h2, h3, h4, h5⟩ := ih rest ((loc.Incr).SetContent t)
                (r.call (env.processParamByName p source ((loc.Incr).SetContent t)
                    (SplitN2 t '='))
                  (Call.byName p source ((loc.Incr).SetContent t) (SplitN2 t '='))) hlen hc
              refine ⟨loc1, ?_, ?_, ?_, ?_, ?_⟩
              · rw [h1]; simp [Loc.SetContent, Loc.Incr]; omega
              · rw [h2]; rfl
              · rw [List.cons_append,
                  namedLoop_dispatch env source t (rest ++ more) loc r nm p hs htrim hlook hyes,
                  namedLoop_dispatch env source t rest loc r nm p hs htrim hlook hyes]
                exact h3
              · rw [namedLoop_dispatch env source t rest loc r nm p hs htrim hlook hyes]
                exact h4
              · rw [namedLoop_dispatch env source t rest loc r nm p hs htrim hlook hyes]
                exact h5
        · have htn : takesNext r.ps.nameToParam t = false := by
            simp only [takesNext, htrim]
          simp only [htn, Bool.false_eq_true, if_false] at hc
          obtain ⟨loc1, h1, h2, h3, h4, h5⟩ := ih rest ((loc.Incr).SetContent t)
            (r.addErr nm (Err.located ((loc.Incr).SetContent t) err)) hlen hc
          refine ⟨loc1, ?_, ?_, ?_, ?_, ?_⟩
          · rw [h1]; simp [Loc.SetContent, Loc.Incr]; omega
          · rw [h2]; rfl
          · rw [List.cons_append,
              namedLoop_syntax_error env source t (rest ++ more) loc r nm err hs htrim,
              namedLoop_syntax_error env source t rest loc r nm err hs htrim]
            exact h3
          · rw [namedLoop_syntax_error env source t rest loc r nm err hs htrim]; exact h4
          · rw [namedLoop_syntax_error env source t rest loc r nm err hs htrim]; exact h5

/-- C4: when the named loop, after consuming the tokens `consumed` by whole
iterations, examines a token equal to the terminal token `ps.terminalParam`,
it returns in the state the consumed tokens have led to, with the remainder
set to the tokens after the terminal token: the token list is the consumed
tokens, the terminal token and `Remainder()`, and no later token is processed
(the calls, the world and the errors are those of the consumed tokens
alone). -/
theorem namedLoop_terminal_token {ω : Type} (env : Env ω) (source : String)
    (consumed rest : List String) (loc : Loc) (r : Run ω)
    (hc : consumedWhole r.ps.nameToParam r.ps.terminalParam consumed = true) :
    namedLoop env source (consumed ++ r.ps.terminalParam :: rest) loc r
      = (namedLoop env source consumed loc r).setRemainder rest
    ∧ (namedLoop env source (consumed ++ r.ps.terminalParam :: rest) loc r).ps.Remainder = rest
    ∧ consumed ++ r.ps.terminalParam :: rest
        = consumed ++ [r.ps.terminalParam]
          ++ (namedLoop env source (consumed ++ r.ps.terminalParam :: rest) loc r).ps.Remainder
    ∧ (namedLoop env source (consumed ++ r.ps.terminalParam :: rest) loc r).calls
        = (namedLoop env source consumed loc r).calls
    ∧ (namedLoop env source (consumed ++ r.ps.terminalParam :: rest) loc r).world
        = (namedLoop env source consumed loc r).world
    ∧ (namedLoop env source (consumed ++ r.ps.terminalParam :: rest) loc r).ps.errors
        = (namedLoop env source consumed loc r).ps.errors := by
  obtain ⟨loc1, _, _, h3, _, h5⟩ := namedLoop_append env source (r.ps.terminalParam :: rest)
    consumed.length consumed loc r (le_refl _) hc
  have key : namedLoop env source (consumed ++ r.ps.terminalParam :: rest) loc r
      = (namedLoop env source consumed loc r).setRemainder rest := by
    rw [h3]
    have := namedLoop_sentinel env source rest loc1 (namedLoop env source consumed loc r)
    rw [h5] at this
    exact this
  rw [key]
  simp [Run.setRemainder, ParamSet.Remainder]

/-- Witness of C4: the first `--` is the value of `-count`, the second one is
examined as a parameter and ends the parsing. -/
theorem namedLoop_terminal_token_witness :
    (namedLoop quietEnv "cmd" (["-count", "--", "-v"] ++ "--" :: ["x", "-y"]) (Loc.New "cmd")
        { ps := { nameToParam := [("count", { name := "count", valueReq := ValueReq.Mandatory })] },
          world := () }).ps.Remainder = ["x", "-y"] :=
  (namedLoop_terminal_token quietEnv "cmd" ["-count", "--", "-v"] ["x", "-y"] (Loc.New "cmd")
    { ps := { nameToParam := [("count", { name := "count", valueReq := ValueReq.Mandatory })] },
      world := () } (by decide)).2.1

/-- C5: a named token without `=` that resolves to the parameter `p`: if `p`
requires a value and a token `v` follows, `p` is dispatched with the two parts
`[pStr, v]` and the loop goes on after `v` (so `v` is not parsed as a
parameter); if `p` requires a value and the token is the last one, `p` is
still dispatched, with the one part `[pStr]`. A parameter that does not
require a value is dispatched with the parts of its own token, whether or not
it has an inline value, and the loop goes on at the very next token. -/
theorem namedLoop_mandatory_value {ω : Type} (env : Env ω) (source : String) (pStr : String)
    (loc : Loc) (r : Run ω) (nm : String) (p : ByName)
    (hs : pStr ≠ r.ps.terminalParam)
    (htrim : trimParam ((SplitN2 pStr '=').headD "") = (nm, none))
    (hlook : r.ps.nameToParam.lookup nm = some p) :
    (p.valueReq = ValueReq.Mandatory → '=' ∉ pStr.data →
      (∀ (v : String) (rest2 : List String),
        namedLoop env source (pStr :: v :: rest2) loc r
          = namedLoop env source rest2
              { source := loc.source, idx := loc.idx + 2, content := pStr ++ " " ++ v }
              (r.call (env.processParamByName p source
                  { source := loc.source, idx := loc.idx + 2, content := pStr ++ " " ++ v }
                  [pStr, v])
                (Call.byName p source
                  { source := loc.source, idx := loc.idx + 2, content := pStr ++ " " ++ v }
                  [pStr, v])))
      ∧ namedLoop env source [pStr] loc r
          = r.call (env.processParamByName p source
                { source := loc.source, idx := loc.idx + 1, content := pStr } [pStr])
              (Call.byName p source
                { source := loc.source, idx := loc.idx + 1, content := pStr } [pStr]))
    ∧ (p.valueReq ≠ ValueReq.Mandatory → ∀ rest : List String,
        namedLoop env source (pStr :: rest) loc r
          = namedLoop env source rest
              { source := loc.source, idx := loc.idx + 1, content := pStr }
              (r.call (env.processParamByName p source
                  { source := loc.source, idx := loc.idx + 1, content := pStr }
                  (SplitN2 pStr '='))
                (Call.byName p source
                  { source := loc.source, idx := loc.idx + 1, content := pStr }
                  (SplitN2 pStr '=')))) := by
  refine ⟨fun hm hne => ?_, fun hm rest => ?_⟩
  · have hsp : SplitN2 pStr '=' = [pStr] := SplitN2_of_not_mem pStr '=' hne
    have hyes : p.valueReq = ValueReq.Mandatory ∧ (SplitN2 pStr '=').length = 1 :=
      ⟨hm, by rw [hsp]; rfl⟩
    refine ⟨fun v rest2 => ?_, ?_⟩
    · rw [namedLoop_lookahead env source pStr v rest2 loc r nm p hs htrim hlook hyes, hsp]
      rfl
    · rw [namedLoop_lookahead_last env source pStr loc r nm p hs htrim hlook hyes, hsp]
      rfl
  · rw [namedLoop_dispatch env source pStr rest loc r nm p hs htrim hlook (fun h => hm h.1)]
    rfl

/-- Witness of C5: `-count 5` with `count` requiring a value. -/
theorem namedLoop_mandatory_value_witness :
    namedLoop quietEnv "cmd" ["-count", "5", "-v"] (Loc.New "cmd")
        { ps := { nameToParam := [("count", { name := "count", valueReq := ValueReq.Mandatory })] },
          world := () }
      = namedLoop quietEnv "cmd" ["-v"]
          { source := "cmd", idx := 2, content := "-count" ++ " " ++ "5" }
          (Run.call { ps := { nameToParam :=
                [("count", { name := "count", valueReq := ValueReq.Mandatory })] }, world := () }
            (quietEnv.processParamByName { name := "count", valueReq := ValueReq.Mandatory } "cmd"
              { source := "cmd", idx := 2, content := "-count" ++ " " ++ "5" } ["-count", "5"])
            (Call.byName { name := "count", valueReq := ValueReq.Mandatory } "cmd"
              { source := "cmd", idx := 2, content := "-count" ++ " " ++ "5" } ["-count", "5"])) :=
  ((namedLoop_mandatory_value quietEnv "cmd" "-count" (Loc.New "cmd")
    { ps := { nameToParam := [("count", { name := "count", valueReq := ValueReq.Mandatory })] },
      world := () } "count" { name := "count", valueReq := ValueReq.Mandatory }
    (by decide) (by decide) (by decide)).1 (by decide) (by decide)).1 "5" ["-v"]

/-- C6: `trimParam p` fails exactly when `p` does not start with a dash; when
`p` starts with two dashes the result is `p` without its first two characters,
when it starts with one dash only the result is `p` without its first
character, and on failure the result is `p` unchanged, with the error. -/
theorem trimParam_spec (p : String) :
    ((trimParam p).2.isSome = true ↔ p.data.head? ≠ some '-')
    ∧ (∀ cs : List Char, p.data = '-' :: '-' :: cs → trimParam p = (⟨cs⟩, none))
    ∧ (∀ cs : List Char, p.data = '-' :: cs → cs.head? ≠ some '-' → trimParam p = (⟨cs⟩, none))
    ∧ (p.data.head? ≠ some '-' → trimParam p = (p, some (trimParamErrText p))) := by
  refine ⟨?_, fun cs h => trimParam_double_dash p cs h,
    fun cs h h2 => trimParam_single_dash p cs h h2, fun h => trimParam_no_dash p h⟩
  constructor
  · intro h hd
    cases hp : p.data with
    | nil => rw [hp] at hd; simp at hd
    | cons c cs =>
      rw [hp] at hd
      have hc : c = '-' := by simpa using hd
      subst hc
      by_cases h2 : cs.head? = some '-'
      · cases hcs : cs with
        | nil => rw [hcs] at h2; simp at h2
        | cons c2 cs2 =>
          rw [hcs] at h2
          have hc2 : c2 = '-' := by simpa using h2
          subst hc2
          rw [trimParam_double_dash p cs2 (by rw [hp, hcs])] at h
          simp at h
      · rw [trimParam_single_dash p cs hp h2] at h
        simp at h
  · intro h
    rw [trimParam_no_dash p h]
    rfl

/-- C7: for a token `pStr` of the named loop other than the terminal token:
if `pStr` is `name`, the first `=`, and `val`, the name looked up is `name`
with its marker stripped and the value dispatched is `val` as it stands
(further `=` included); if `pStr` has no `=` the name looked up is `pStr` with
its marker stripped and a parameter that takes no following token is
dispatched with the one part `pStr`; the token is split in two parts exactly
when it contains `=`. -/
theorem namedLoop_name_and_inline_value {ω : Type} (env : Env ω) (source : String)
    (pStr : String) (rest : List String) (loc : Loc) (r : Run ω)
    (hs : pStr ≠ r.ps.terminalParam) :
    (∀ (name val : List Char), pStr.data = name ++ '=' :: val → '=' ∉ name →
      SplitN2 pStr '=' = [⟨name⟩, ⟨val⟩] ∧
      ∀ nm : String, trimParam ⟨name⟩ = (nm, none) →
        (∀ p : ByName, r.ps.nameToParam.lookup nm = some p →
          namedLoop env source (pStr :: rest) loc r
            = namedLoop env source rest ((loc.Incr).SetContent pStr)
                (r.call (env.processParamByName p source ((loc.Incr).SetContent pStr)
                    [⟨name⟩, ⟨val⟩])
                  (Call.byName p source ((loc.Incr).SetContent pStr) [⟨name⟩, ⟨val⟩])))
        ∧ (r.ps.nameToParam.lookup nm = none →
          namedLoop env source (pStr :: rest) loc r
            = namedLoop env source rest ((loc.Incr).SetContent pStr)
                (r.call (env.recordUnexpectedParam nm ((loc.Incr).SetContent pStr))
                  (Call.unexpected nm ((loc.Incr).SetContent pStr)))))
    ∧ ('=' ∉ pStr.data →
      SplitN2 pStr '=' = [pStr] ∧
      ∀ nm : String, trimParam pStr = (nm, none) →
        (∀ p : ByName, r.ps.nameToParam.lookup nm = some p → p.valueReq ≠ ValueReq.Mandatory →
          namedLoop env source (pStr :: rest) loc r
            = namedLoop env source rest ((loc.Incr).SetContent pStr)
                (r.call (env.processParamByName p source ((loc.Incr).SetContent pStr) [pStr])
                  (Call.byName p source ((loc.Incr).SetContent pStr) [pStr])))
        ∧ (r.ps.nameToParam.lookup nm = none →
          namedLoop env source (pStr :: rest) loc r
            = namedLoop env source rest ((loc.Incr).SetContent pStr)
                (r.call (env.recordUnexpectedParam nm ((loc.Incr).SetContent pStr))
                  (Call.unexpected nm ((loc.Incr).SetContent pStr)))))
    ∧ ((SplitN2 pStr '=').length = 2 ↔ '=' ∈ pStr.data) := by
  refine ⟨fun name val hd hn => ?_, fun hne => ?_, ?_⟩
  · have hsp : SplitN2 pStr '=' = [⟨name⟩, ⟨val⟩] := SplitN2_of_split pStr '=' name val hd hn
    refine ⟨hsp, fun nm htrim => ⟨fun p hlook => ?_, fun hlook => ?_⟩⟩
    · have htrim2 : trimParam ((SplitN2 pStr '=').headD "") = (nm, none) := by
        rw [hsp]; exact htrim
      rw [namedLoop_dispatch env source pStr rest loc r nm p hs htrim2 hlook
        (fun h => by rw [hsp] at h; simp at h), hsp]
    · have htrim2 : trimParam ((SplitN2 pStr '=').headD "") = (nm, none) := by
        rw [hsp]; exact htrim
      exact namedLoop_unexpected env source pStr rest loc r nm hs htrim2 hlook
  · have hsp : SplitN2 pStr '=' = [pStr] := SplitN2_of_not_mem pStr '=' hne
    refine ⟨hsp, fun nm htrim => ⟨fun p hlook hm => ?_, fun hlook => ?_⟩⟩
    · have htrim2 : trimParam ((SplitN2 pStr '=').headD "") = (nm, none) := by
        rw [hsp]; exact htrim
      rw [namedLoop_dispatch env source pStr rest loc r nm p hs htrim2 hlook
        (fun h => hm h.1), hsp]
    · have htrim2 : trimParam ((SplitN2 pStr '=').headD "") = (nm, none) := by
        rw [hsp]; exact htrim
      exact namedLoop_unexpected env source pStr rest loc r nm hs htrim2 hlook
  · rcases split_cases '=' pStr.data with h | ⟨name, val, e, hn⟩
    · simp [SplitN2_of_not_mem pStr '=' h, h]
    · rw [SplitN2_of_split pStr '=' name val e hn, e]
      simp

/-- Witness of C7: the token `--count=a=b ` is looked up as `count` and
dispatched with the value `a=b ` as it stands. -/
theorem namedLoop_name_and_inline_value_witness :
    namedLoop quietEnv "cmd" ["--count=a=b ", "-v"] (Loc.New "cmd")
        { ps := { nameToParam := [("count", { name := "count", valueReq := ValueReq.Mandatory })] },
          world := () }
      = namedLoop quietEnv "cmd" ["-v"] (((Loc.New "cmd").Incr).SetContent "--count=a=b ")
          (Run.call { ps := { nameToParam :=
                [("count", { name := "count", valueReq := ValueReq.Mandatory })] }, world := () }
            (quietEnv.processParamByName { name := "count", valueReq := ValueReq.Mandatory } "cmd"
              (((Loc.New "cmd").Incr).SetContent "--count=a=b ") [⟨"--count".data⟩, ⟨"a=b ".data⟩])
            (Call.byName { name := "count", valueReq := ValueReq.Mandatory } "cmd"
              (((Loc.New "cmd").Incr).SetContent "--count=a=b ")
              [⟨"--count".data⟩, ⟨"a=b ".data⟩])) :=
  ((((namedLoop_name_and_inline_value quietEnv "cmd" "--count=a=b " ["-v"] (Loc.New "cmd")
    { ps := { nameToParam := [("count", { name := "count", valueReq := ValueReq.Mandatory })] },
      world := () } (by decide)).1 "--count".data "a=b ".data (by decide) (by decide)).2
    "count" (by decide)).1 { name := "count", valueReq := ValueReq.Mandatory } (by decide))

/-! ## The edit distance: the recursion computes the least number of edits -/

theorem editDistance_nil_right (xs : List Char) : editDistance xs [] = xs.length := by
  induction xs with
  | nil => rfl
  | cons x xs ih =>
    show editDistance xs [] + 1 = (x :: xs).length
    rw [ih]; rfl

theorem editDistance_cons_cons (x y : Char) (xs ys : List Char) :
    editDistance (x :: xs) (y :: ys)
      = min (editDistance xs (y :: ys) + 1)
          (min (editDistance (x :: xs) ys + 1) (editDistance xs ys + if x = y then 0 else 1)) :=
  rfl

theorem editDistance_delete_le (x : Char) (xs ys : List Char) :
    editDistance (x :: xs) ys ≤ editDistance xs ys + 1 := by
  cases ys with
  | nil => rw [editDistance_nil_right, editDistance_nil_right]; simp
  | cons y ys => rw [editDistance_cons_cons]; exact min_le_left _ _

theorem editDistance_insert_le (y : Char) (xs ys : List Char) :
    editDistance xs (y :: ys) ≤ editDistance xs ys + 1 := by
  cases xs with
  | nil => show (y :: ys).length ≤ ys.length + 1; simp
  | cons x xs =>
    rw [editDistance_cons_cons]
    exact le_trans (min_le_right _ _) (min_le_left _ _)

theorem editsTo_nil_left (ys : List Char) : EditsTo [] ys ys.length := by
  induction ys with
  | nil => exact EditsTo.done
  | cons y ys ih => exact EditsTo.insert y ih

theorem editsTo_nil_right (xs : List Char) : EditsTo xs [] xs.length := by
  induction xs with
  | nil => exact EditsTo.done
  | cons x xs ih => exact EditsTo.delete x ih

/-- The recursion is reached by some sequence of edits. -/
theorem editsTo_editDistance : ∀ xs ys : List Char, EditsTo xs ys (editDistance xs ys) := by
  intro xs
  induction xs with
  | nil => intro ys; exact editsTo_nil_left ys
  | cons x xs ihx =>
    intro ys
    induction ys with
    | nil => rw [editDistance_nil_right]; exact editsTo_nil_right _
    | cons y ys ihy =>
      rw [editDistance_cons_cons]
      rcases min_choice (editDistance xs (y :: ys) + 1)
        (min (editDistance (x :: xs) ys + 1) (editDistance xs ys + if x = y then 0 else 1))
        with h | h
      · rw [h]; exact EditsTo.delete x (ihx (y :: ys))
      · rw [h]
        rcases min_choice (editDistance (x :: xs) ys + 1)
          (editDistance xs ys + if x = y then 0 else 1) with h2 | h2
        · rw [h2]; exact EditsTo.insert y ihy
        · rw [h2]
          by_cases hxy : x = y
          · subst hxy
            simp only [if_true, Nat.add_zero]
            exact EditsTo.keep x (ihx ys)
          · simp only [hxy, if_false]
            exact EditsTo.substitute x y (ihx ys)

/-- No sequence of edits is shorter than the recursion's value. -/
theorem editDistance_le_of_editsTo {xs ys : List Char} {n : Nat} (h : EditsTo xs ys n) :
    editDistance xs ys ≤ n := by
  induction h with
  | done => exact le_refl _
  | keep c _ ih =>
    rw [editDistance_cons_cons]
    refine le_trans (le_trans (min_le_right _ _) (min_le_right _ _)) ?_
    simpa using ih
  | substitute x y _ ih =>
    rw [editDistance_cons_cons]
    refine le_trans (le_trans (min_le_right _ _) (min_le_right _ _)) ?_
    split <;> omega
  | delete x _ ih => exact le_trans (editDistance_delete_le x _ _) (by omega)
  | insert y _ ih => exact le_trans (editDistance_insert_le y _ _) (by omega)

theorem EditsTo.symm {xs ys : List Char} {n : Nat} (h : EditsTo xs ys n) : EditsTo ys xs n := by
  induction h with
  | done => exact EditsTo.done
  | keep c _ ih => exact EditsTo.keep c ih
  | substitute x y _ ih => exact EditsTo.substitute y x ih
  | delete x _ ih => exact EditsTo.insert x ih
  | insert y _ ih => exact EditsTo.delete y ih

/-- The edit distance is symmetric. -/
theorem editDistance_comm (xs ys : List Char) : editDistance xs ys = editDistance ys xs :=
  le_antisymm (editDistance_le_of_editsTo (editsTo_editDistance ys xs).symm)
    (editDistance_le_of_editsTo (editsTo_editDistance xs ys).symm)

theorem EditsTo.snoc_keep (c : Char) {xs ys : List Char} {n : Nat} (h : EditsTo xs ys n) :
    EditsTo (xs ++ [c]) (ys ++ [c]) n := by
  induction h with
  | done => exact EditsTo.keep c EditsTo.done
  | keep d _ ih => exact EditsTo.keep d ih
  | substitute x y _ ih => exact EditsTo.substitute x y ih
  | delete x _ ih => exact EditsTo.delete x ih
  | insert y _ ih => exact EditsTo.insert y ih

theorem EditsTo.snoc_substitute (a b : Char) {xs ys : List Char} {n : Nat}
    (h : EditsTo xs ys n) : EditsTo (xs ++ [a]) (ys ++ [b]) (n + 1) := by
  induction h with
  | done => exact EditsTo.substitute a b EditsTo.done
  | keep d _ ih => exact EditsTo.keep d ih
  | substitute x y _ ih => exact EditsTo.substitute x y ih
  | delete x _ ih => exact EditsTo.delete x ih
  | insert y _ ih => exact EditsTo.insert y ih

theorem EditsTo.snoc_delete (a : Char) {xs ys : List Char} {n : Nat}
    (h : EditsTo xs ys n) : EditsTo (xs ++ [a]) ys (n + 1) := by
  induction h with
  | done => exact EditsTo.delete a EditsTo.done
  | keep d _ ih => exact EditsTo.keep d ih
  | substitute x y _ ih => exact EditsTo.substitute x y ih
  | delete x _ ih => exact EditsTo.delete x ih
  | insert y _ ih => exact EditsTo.insert y ih

theorem EditsTo.snoc_insert (b : Char) {xs ys : List Char} {n : Nat}
    (h : EditsTo xs ys n) : EditsTo xs (ys ++ [b]) (n + 1) := by
  induction h with
  | done => exact EditsTo.insert b EditsTo.done
  | keep d _ ih => exact EditsTo.keep d ih
  | substitute x y _ ih => exact EditsTo.substitute x y ih
  | delete x _ ih => exact EditsTo.delete x ih
  | insert y _ ih => exact EditsTo.insert y ih

theorem EditsTo.reverse {xs ys : List Char} {n : Nat} (h : EditsTo xs ys n) :
    EditsTo xs.reverse ys.reverse n := by
  induction h with
  | done => exact EditsTo.done
  | keep c _ ih => simp only [List.reverse_cons]; exact ih.snoc_keep c
  | substitute x y _ ih => simp only [List.reverse_cons]; exact ih.snoc_substitute x y
  | delete x _ ih => simp only [List.reverse_cons]; exact ih.snoc_delete x
  | insert y _ ih => simp only [List.reverse_cons]; exact ih.snoc_insert y

theorem editDistance_reverse (xs ys : List Char) :
    editDistance xs.reverse ys.reverse = editDistance xs ys := by
  apply le_antisymm
  · exact editDistance_le_of_editsTo (editsTo_editDistance xs ys).reverse
  · have := editDistance_le_of_editsTo (editsTo_editDistance xs.reverse ys.reverse).reverse
    simpa using this

/-- The recurrence on the last runes, the one the matrix is filled by. -/
theorem editDistance_snoc_snoc (x y : Char) (xs ys : List Char) :
    editDistance (xs ++ [x]) (ys ++ [y])
      = min (editDistance xs (ys ++ [y]) + 1)
          (min (editDistance (xs ++ [x]) ys + 1) (editDistance xs ys + if x = y then 0 else 1)) := by
  have h1 : editDistance (xs ++ [x]) (ys ++ [y])
      = editDistance (x :: xs.reverse) (y :: ys.reverse) := by
    rw [← editDistance_reverse]; simp
  have h2 : editDistance xs (ys ++ [y]) = editDistance xs.reverse (y :: ys.reverse) := by
    rw [← editDistance_reverse]; simp
  have h3 : editDistance (xs ++ [x]) ys = editDistance (x :: xs.reverse) ys.reverse := by
    rw [← editDistance_reverse]; simp
  have h4 : editDistance xs ys = editDistance xs.reverse ys.reverse :=
    (editDistance_reverse xs ys).symm
  rw [h1, h2, h3, h4, editDistance_cons_cons]

/-! ## The matrix -/

theorem Matrix.get_of_set {d d2 : Matrix} {i j v : Nat} (h : d.set i j v = some d2)
    (i2 j2 : Nat) :
    d2.get i2 j2 = if i2 = i ∧ j2 = j then some v else d.get i2 j2 := by
  simp only [Matrix.set] at h
  cases hrow : d[i]? with
  | none => simp [hrow] at h
  | some row =>
    simp only [hrow] at h
    by_cases hj : j < row.length
    · simp only [hj, if_true, Option.some.injEq] at h
      subst h
      have hi : i < d.length := by
        rcases List.getElem?_eq_some.mp hrow with ⟨hi, _⟩
        exact hi
      simp only [Matrix.get, List.getElem?_set]
      by_cases h1 : i = i2
      · subst h1
        simp only [hi, if_true, true_and, List.getElem?_set]
        by_cases h2 : j = j2
        · subst h2; simp [hj]
        · simp [h2, Ne.symm h2, hrow]
      · simp [h1, Ne.symm h1]
    · simp [hj] at h

theorem Matrix.get_isSome_of_set {d d2 : Matrix} {i j v : Nat} (h : d.set i j v = some d2) :
    (d.get i j).isSome = true := by
  simp only [Matrix.set] at h
  cases hrow : d[i]? with
  | none => simp [hrow] at h
  | some row =>
    simp only [hrow] at h
    by_cases hj : j < row.length
    · simp [Matrix.get, hrow, List.getElem?_eq_getElem hj]
    · simp [hj] at h

theorem Matrix.set_of_get_isSome {d : Matrix} {i j : Nat} (v : Nat)
    (h : (d.get i j).isSome = true) : ∃ d2, d.set i j v = some d2 := by
  simp only [Matrix.get] at h
  cases hrow : d[i]? with
  | none => simp [hrow] at h
  | some row =>
    simp only [hrow] at h
    have hj : j < row.length := by
      by_contra hc
      rw [List.getElem?_eq_none (by omega)] at h
      simp at h
    exact ⟨List.set d i (List.set row j v), by simp [Matrix.set, hrow, hj]⟩

theorem Matrix.set_of_get_none {d : Matrix} {i j : Nat} (v : Nat)
    (h : d.get i j = none) : d.set i j v = none := by
  cases hs : d.set i j v with
  | none => rfl
  | some d2 =>
    have := Matrix.get_isSome_of_set hs
    rw [h] at this
    simp at this

theorem Matrix.Shape.set {d d2 : Matrix} {m n i j v : Nat} (hd : d.Shape m n)
    (h : d.set i j v = some d2) : d2.Shape m n := by
  intro i2 j2
  rw [Matrix.get_of_set h]
  by_cases he : i2 = i ∧ j2 = j
  · rw [if_pos he]
    rcases he with ⟨rfl, rfl⟩
    have := (hd i2 j2).mp (Matrix.get_isSome_of_set h)
    simp [this]
  · rw [if_neg he]
    exact hd i2 j2

theorem Matrix.Shape.get_none {d : Matrix} {m n i j : Nat} (hd : d.Shape m n)
    (h : ¬ (i ≤ m ∧ j ≤ n)) : d.get i j = none := by
  cases hg : d.get i j with
  | none => rfl
  | some v =>
    have := (hd i j).mp (by rw [hg]; rfl)
    exact absurd this h

theorem initRows_get (m n i j : Nat) :
    Matrix.get ((List.range (m + 1)).map (fun i => List.set (List.replicate (n + 1) 0) 0 i)) i j
      = if i ≤ m ∧ j ≤ n then some (if j = 0 then i else 0) else none := by
  simp only [Matrix.get, List.getElem?_map]
  by_cases hi : i ≤ m
  · rw [List.getElem?_range (by omega)]
    simp only [Option.map_some', List.getElem?_set, List.length_replicate]
    by_cases hj0 : j = 0
    · subst hj0; simp [hi]
    · have : ¬ (0 = j) := fun e => hj0 e.symm
      simp only [this, if_false, hi, true_and, hj0, List.getElem?_replicate]
      by_cases hj : j ≤ n
      · simp [hj, Nat.lt_succ_of_le hj]
      · have : ¬ (j < n + 1) := by omega
        simp [hj, this]
  · have : (List.range (m + 1))[i]? = none := by
      rw [List.getElem?_eq_none]; simp; omega
    simp [this, hi]

/-- The initialising loops do not panic and fill row 0 and column 0. -/
theorem initMatrix_spec (m n : Nat) :
    ∃ d, initMatrix m n = some d ∧ d.Shape m n
      ∧ (∀ i, i ≤ m → d.get i 0 = some i) ∧ (∀ j, j ≤ n → d.get 0 j = some j) := by
  have key : ∀ k, k ≤ n → ∃ d : Matrix,
      (List.range' 1 k).foldlM (fun (d : Matrix) i => d.set 0 i i)
        ((List.range (m + 1)).map (fun i => List.set (List.replicate (n + 1) 0) 0 i)) = some d
      ∧ d.Shape m n ∧ (∀ i, i ≤ m → d.get i 0 = some i) ∧ (∀ j, j ≤ k → d.get 0 j = some j) := by
    intro k
    induction k with
    | zero =>
      intro _
      refine ⟨_, rfl, ?_, ?_, ?_⟩
      · intro i j
        rw [initRows_get]
        by_cases h : i ≤ m ∧ j ≤ n <;> simp [h]
      · intro i hi
        rw [initRows_get]; simp [hi]
      · intro j hj
        have : j = 0 := by omega
        subst this
        rw [initRows_get]; simp
    | succ k ih =>
      intro hk
      obtain ⟨d, h1, h2, h3, h4⟩ := ih (by omega)
      obtain ⟨d2, hd2⟩ := Matrix.set_of_get_isSome (d := d) (i := 0) (j := 1 + k) (1 + k)
        ((h2 0 (1 + k)).mpr ⟨by omega, by omega⟩)
      refine ⟨d2, ?_, h2.set hd2, ?_, ?_⟩
      · rw [List.range'_1_concat, List.foldlM_append, h1]
        simp [hd2]
      · intro i hi
        rw [Matrix.get_of_set hd2]
        have : ¬ (i = 0 ∧ 0 = 1 + k) := by omega
        rw [if_neg this]
        exact h3 i hi
      · intro j hj
        rw [Matrix.get_of_set hd2]
        by_cases hjk : j = 1 + k
        · subst hjk; simp
        · have : ¬ (0 = 0 ∧ j = 1 + k) := fun h => hjk h.2
          rw [if_neg this]
          exact h4 j (by omega)
  obtain ⟨d, h1, h2, h3, h4⟩ := key n (le_refl n)
  exact ⟨d, h1, h2, h3, h4⟩

/-! ## The loops of `Levenshtein` when byte offsets are rune indices -/

theorem take_succ_eq_snoc (l : List Char) (i : Nat) (h : i < l.length) :
    l.take (i + 1) = l.take i ++ [l[i]] := by
  rw [List.take_succ, List.getElem?_eq_getElem h]; rfl

theorem subsCost_eq (x y : Char) : (if (x != y) = true then 1 else 0) = if x = y then 0 else 1 := by
  by_cases h : x = y <;> simp [h]

/-- One pass of the inner loop fills column `J + 1`. -/
theorem levInner_fills (a b : List Char) (J : Nat) (hJ : J < b.length) :
    ∀ (n i0 : Nat) (d : Matrix), i0 + n = a.length →
      d.Shape a.length b.length → Filled a b d J i0 →
      ∃ d2, levInner b[J] J (List.enumFrom i0 (a.drop i0)) d = some d2
        ∧ d2.Shape a.length b.length ∧ Filled a b d2 J a.length := by
  intro n
  induction n with
  | zero =>
    intro i0 d hi hs hf
    have : i0 = a.length := by omega
    subst this
    exact ⟨d, by simp [levInner], hs, hf⟩
  | succ n ih =>
    intro i0 d hi hs hf
    have hi0 : i0 < a.length := by omega
    have hdel := hf i0 (J + 1) (by omega) (by omega) (by omega)
    have hins := hf (i0 + 1) J (by omega) (by omega) (by omega)
    have hsub := hf i0 J (by omega) (by omega) (by omega)
    obtain ⟨d1, hd1⟩ := Matrix.set_of_get_isSome (d := d) (i := i0 + 1) (j := J + 1)
      (MinOfInt (editDistance (a.take i0) (b.take (J + 1)) + 1)
        (editDistance (a.take (i0 + 1)) (b.take J) + 1)
        (editDistance (a.take i0) (b.take J) + if (a[i0] != b[J]) = true then 1 else 0))
      ((hs (i0 + 1) (J + 1)).mpr ⟨by omega, by omega⟩)
    have hf1 : Filled a b d1 J (i0 + 1) := by
      intro i j hia hjb hP
      rw [Matrix.get_of_set hd1]
      by_cases he : i = i0 + 1 ∧ j = J + 1
      · rw [if_pos he]
        rcases he with ⟨rfl, rfl⟩
        rw [take_succ_eq_snoc a i0 hi0, take_succ_eq_snoc b J hJ, editDistance_snoc_snoc,
          ← take_succ_eq_snoc a i0 hi0, ← take_succ_eq_snoc b J hJ, subsCost_eq]
        rfl
      · rw [if_neg he]
        exact hf i j hia hjb (by omega)
    obtain ⟨d2, h2, hs2, hf2⟩ := ih (i0 + 1) d1 (by omega) (hs.set hd1) hf1
    refine ⟨d2, ?_, hs2, hf2⟩
    rw [List.drop_eq_getElem_cons hi0, List.enumFrom_cons, levInner, hdel, hins, hsub]
    simp only [hd1]
    exact h2

/-- The outer loop fills the whole matrix. -/
theorem levOuter_fills (a b : List Char) :
    ∀ (n J : Nat) (d : Matrix), J + n = b.length →
      d.Shape a.length b.length → Filled a b d J 0 →
      ∃ d2, levOuter (List.enumFrom 0 a) (List.enumFrom J (b.drop J)) d = some d2
        ∧ d2.Shape a.length b.length ∧ Filled a b d2 b.length 0 := by
  intro n
  induction n with
  | zero =>
    intro J d hJ hs hf
    have : J = b.length := by omega
    subst this
    exact ⟨d, by simp [levOuter], hs, hf⟩
  | succ n ih =>
    intro J d hJ hs hf
    have hJb : J < b.length := by omega
    obtain ⟨d1, h1, hs1, hf1⟩ := levInner_fills a b J hJb a.length 0 d (by omega) hs hf
    have hf1b : Filled a b d1 (J + 1) 0 := by
      intro i j hia hjb hP
      exact hf1 i j hia hjb (by omega)
    obtain ⟨d2, h2, hs2, hf2⟩ := ih (J + 1) d1 (by omega) hs1 hf1b
    refine ⟨d2, ?_, hs2, hf2⟩
    rw [List.drop_eq_getElem_cons hJb, List.enumFrom_cons, levOuter]
    rw [List.drop_zero] at h1
    simp only [h1]
    exact h2

/-- When in both strings the byte offsets of the runes are the rune indices,
`Levenshtein` returns the edit distance of the rune sequences. -/
theorem Levenshtein_of_offsets (a b : String) (ha : OffsetsAreIndices a.data)
    (hb : OffsetsAreIndices b.data) :
    Levenshtein a b = some (editDistance a.data b.data) := by
  obtain ⟨d, hd, hs, hcol, hrow⟩ := initMatrix_spec a.data.length b.data.length
  have hf : Filled a.data b.data d 0 0 := by
    intro i j hia hjb hP
    by_cases hi : i = 0
    · subst hi
      rw [hrow j hjb]
      show some j = some (List.take j b.data).length
      rw [List.length_take]; congr 1; omega
    · have hj : j = 0 := by omega
      subst hj
      rw [hcol i hia, List.take_zero, editDistance_nil_right, List.length_take]
      congr 1; omega
  obtain ⟨d2, h2, _, hf2⟩ := levOuter_fills a.data b.data b.data.length 0 d (by omega) hs hf
  rw [List.drop_zero] at h2
  have hfin := hf2 a.data.length b.data.length (le_refl _) (le_refl _) (by omega)
  rw [List.take_length, List.take_length] at hfin
  unfold OffsetsAreIndices at ha hb
  simp only [Levenshtein, RuneCountInString, rangeString, hd, ha, hb, h2]
  exact hfin

/-! ## The loops of `Levenshtein` when a byte offset exceeds the rune count -/

theorem rangeFrom_last_offset : ∀ (cs : List Char) (off : Nat), cs ≠ [] →
    ∃ p ∈ rangeFrom off cs, off + cs.length ≤ p.1 + 1 := by
  intro cs
  induction cs with
  | nil => intro off h; exact absurd rfl h
  | cons c cs ih =>
    intro off _
    by_cases hcs : cs = []
    · subst hcs
      exact ⟨(off, c), by simp [rangeFrom], by simp⟩
    · obtain ⟨p, hp, hle⟩ := ih (off + c.utf8Size) hcs
      have := c.utf8Size_pos
      refine ⟨p, by simp [rangeFrom, hp], ?_⟩
      simp only [List.length_cons]
      omega

/-- Either the byte offsets are the rune indices, or some rune starts at a
byte offset that is at least the rune count. -/
theorem rangeFrom_cases : ∀ (cs : List Char) (off : Nat),
    rangeFrom off cs = List.enumFrom off cs ∨ ∃ p ∈ rangeFrom off cs, off + cs.length ≤ p.1 := by
  intro cs
  induction cs with
  | nil => intro off; left; rfl
  | cons c cs ih =>
    intro off
    by_cases hcs : cs = []
    · subst hcs; left; rfl
    · by_cases hw : c.utf8Size = 1
      · rcases ih (off + 1) with h | ⟨p, hp, hle⟩
        · left
          simp only [rangeFrom, hw, h, List.enumFrom_cons]
        · right
          refine ⟨p, by simp [rangeFrom, hw, hp], ?_⟩
          simp only [List.length_cons]
          omega
      · right
        obtain ⟨p, hp, hle⟩ := rangeFrom_last_offset cs (off + c.utf8Size) hcs
        have := c.utf8Size_pos
        refine ⟨p, by simp [rangeFrom, hp], ?_⟩
        simp only [List.length_cons]
        omega

theorem levInner_shape (bRune : Char) (j m n : Nat) :
    ∀ (l : List (Nat × Char)) (d d2 : Matrix), d.Shape m n →
      levInner bRune j l d = some d2 → d2.Shape m n := by
  intro l
  induction l with
  | nil =>
    intro d d2 hs h
    simp only [levInner, Option.some.injEq] at h
    subst h; exact hs
  | cons p l ih =>
    intro d d2 hs h
    obtain ⟨i, aRune⟩ := p
    rw [levInner] at h
    split at h
    · split at h
      · rename_i d1 hd1
        exact ih d1 d2 (hs.set hd1) h
      · cases h
    · cases h

/-- A row index out of range makes the inner loop panic. -/
theorem levInner_row_none (bRune : Char) (j m n : Nat) :
    ∀ (l : List (Nat × Char)) (d : Matrix), d.Shape m n →
      (∃ p ∈ l, m ≤ p.1) → levInner bRune j l d = none := by
  intro l
  induction l with
  | nil => intro d _ ⟨p, hp, _⟩; simp at hp
  | cons q l ih =>
    intro d hs ⟨p, hp, hle⟩
    obtain ⟨i, aRune⟩ := q
    rw [levInner]
    split
    · rename_i del ins sub h1 h2 h3
      rcases List.mem_cons.mp hp with he | hm
      · subst he
        have := hs.get_none (i := i + 1) (j := j) (by simp only [not_and]; omega)
        rw [this] at h2
        cases h2
      · split
        · rename_i d1 hd1
          exact ih d1 (hs.set hd1) ⟨p, hm, hle⟩
        · rfl
    · rfl

/-- A column index out of range makes the inner loop panic at its first rune. -/
theorem levInner_col_none (bRune : Char) (j m n : Nat) (l : List (Nat × Char)) (d : Matrix)
    (hs : d.Shape m n) (hj : n ≤ j) (hl : l ≠ []) : levInner bRune j l d = none := by
  cases l with
  | nil => exact absurd rfl hl
  | cons q l =>
    obtain ⟨i, aRune⟩ := q
    rw [levInner]
    split
    · rename_i del ins sub h1 h2 h3
      have := hs.get_none (i := i) (j := j + 1) (by simp only [not_and]; omega)
      rw [this] at h1
      cases h1
    · rfl

theorem levOuter_nil_left : ∀ (l : List (Nat × Char)) (d : Matrix), levOuter [] l d = some d := by
  intro l
  induction l with
  | nil => intro d; rfl
  | cons q l ih =>
    intro d
    obtain ⟨j, bRune⟩ := q
    simp only [levOuter, levInner]
    exact ih d

theorem levOuter_col_none (a : List (Nat × Char)) (m n : Nat) (ha : a ≠ []) :
    ∀ (l : List (Nat × Char)) (d : Matrix), d.Shape m n →
      (∃ p ∈ l, n ≤ p.1) → levOuter a l d = none := by
  intro l
  induction l with
  | nil => intro d _ ⟨p, hp, _⟩; simp at hp
  | cons q l ih =>
    intro d hs ⟨p, hp, hle⟩
    obtain ⟨j, bRune⟩ := q
    rw [levOuter]
    cases hin : levInner bRune j a d with
    | none => rfl
    | some d1 =>
      simp only
      rcases List.mem_cons.mp hp with he | hm
      · subst he
        rw [levInner_col_none bRune j m n a d hs hle ha] at hin
        cases hin
      · exact ih d1 (levInner_shape bRune j m n a d d1 hs hin) ⟨p, hm, hle⟩

theorem rangeFrom_eq_nil {cs : List Char} {off : Nat} : rangeFrom off cs = [] ↔ cs = [] := by
  cases cs <;> simp [rangeFrom]

/-- What `Levenshtein` does on every pair of strings: it returns the edit
distance of the rune sequences when one string is empty or when in both
strings every rune starts at the byte offset equal to its index, and it panics
in every other case. -/
theorem Levenshtein_eq (a b : String) :
    Levenshtein a b
      = if a.data = [] ∨ b.data = [] ∨ (OffsetsAreIndices a.data ∧ OffsetsAreIndices b.data)
        then some (editDistance a.data b.data) else none := by
  obtain ⟨d, hd, hs, hcol, hrow⟩ := initMatrix_spec a.data.length b.data.length
  by_cases ha : a.data = []
  · simp only [ha, true_or, if_true]
    rw [ha] at hd
    simp only [Levenshtein, RuneCountInString, rangeString, ha, hd, rangeFrom, levOuter_nil_left]
    exact hrow _ (le_refl _)
  · by_cases hb : b.data = []
    · simp only [hb, true_or, or_true, if_true]
      rw [hb] at hd
      simp only [Levenshtein, RuneCountInString, rangeString, hb, hd, rangeFrom, levOuter]
      rw [editDistance_nil_right]
      exact hcol _ (le_refl _)
    · by_cases hg : OffsetsAreIndices a.data ∧ OffsetsAreIndices b.data
      · simp only [hg, and_self, or_true, if_true]
        exact Levenshtein_of_offsets a b hg.1 hg.2
      · have hc : ¬ (a.data = [] ∨ b.data = [] ∨
            (OffsetsAreIndices a.data ∧ OffsetsAreIndices b.data)) := by
          rintro (h | h | h)
          · exact ha h
          · exact hb h
          · exact hg h
        rw [if_neg hc]
        have hra : rangeFrom 0 a.data ≠ [] := fun h => ha (rangeFrom_eq_nil.mp h)
        have hrb : rangeFrom 0 b.data ≠ [] := fun h => hb (rangeFrom_eq_nil.mp h)
        have hout : levOuter (rangeFrom 0 a.data) (rangeFrom 0 b.data) d = none := by
          by_cases hga : OffsetsAreIndices a.data
          · have hgb : ¬ OffsetsAreIndices b.data := fun h => hg ⟨hga, h⟩
            rcases rangeFrom_cases b.data 0 with h | ⟨p, hp, hle⟩
            · exact absurd h hgb
            · exact levOuter_col_none _ a.data.length b.data.length hra _ d hs
                ⟨p, hp, by omega⟩
          · rcases rangeFrom_cases a.data 0 with h | ⟨p, hp, hle⟩
            · exact absurd h hga
            · cases hl : rangeFrom 0 b.data with
              | nil => exact absurd hl hrb
              | cons q l =>
                obtain ⟨j, bRune⟩ := q
                rw [levOuter, levInner_row_none bRune j a.data.length b.data.length _ d hs
                  ⟨p, hp, by omega⟩]
        simp only [Levenshtein, RuneCountInString, rangeString, hd, hout]

/-! ## `findClosestMatch`: the loop keeps the minimum and the names tied at it -/

/-- The distance `Levenshtein` returns, where it returns one. -/
theorem closestLoop_spec (badParam : String) (f : String → Nat) :
    ∀ (rest seen : List String) (minDist : Int) (cm : List String),
      (∀ p ∈ rest, Levenshtein badParam p = some (f p)) →
      (seen = [] → minDist = -1 ∧ cm = []) →
      (seen ≠ [] → ∃ m : Nat, minDist = (m : Int) ∧ (∃ p ∈ seen, f p = m)
        ∧ (∀ p ∈ seen, m ≤ f p) ∧ cm = seen.filter (fun p => f p = m)) →
      ∃ (m : Int) (ties : List String),
        closestLoop badParam rest (minDist, cm) = some (m, ties)
        ∧ (seen ++ rest = [] → m = -1 ∧ ties = [])
        ∧ (seen ++ rest ≠ [] → ∃ k : Nat, m = (k : Int) ∧ (∃ p ∈ seen ++ rest, f p = k)
            ∧ (∀ p ∈ seen ++ rest, k ≤ f p)
            ∧ ties = (seen ++ rest).filter (fun p => f p = k)) := by
  intro rest
  induction rest with
  | nil =>
    intro seen minDist cm _ h0 h1
    refine ⟨minDist, cm, rfl, ?_, ?_⟩
    · intro h; exact h0 (by simpa using h)
    · rw [List.append_nil]; exact h1
  | cons p rest ih =>
    intro seen minDist cm hall h0 h1
    have hp : Levenshtein badParam p = some (f p) := hall p (List.mem_cons_self _ _)
    have hrest : ∀ q ∈ rest, Levenshtein badParam q = some (f q) :=
      fun q hq => hall q (List.mem_cons_of_mem _ hq)
    have happ : seen ++ p :: rest = (seen ++ [p]) ++ rest := by simp
    have hne : seen ++ [p] ≠ [] := by simp
    rw [happ]
    by_cases hseen : seen = []
    · obtain ⟨hm, hc⟩ := h0 hseen
      subst hm hc hseen
      rw [closestLoop]
      simp only [if_true, hp]
      exact ih ([] ++ [p]) (f p : Int) ([] ++ [p]) hrest (fun h => absurd h hne)
        (fun _ => ⟨f p, rfl, ⟨p, by simp, rfl⟩, by simp, by simp⟩)
    · obtain ⟨m, hm, ⟨p0, hp0, hfp0⟩, hmin, hcm⟩ := h1 hseen
      have hneg : ¬ (minDist = -1) := by omega
      rw [closestLoop]
      simp only [hneg, if_false, hp]
      by_cases hlt : (f p : Int) < minDist
      · simp only [hlt, if_true]
        have hcmne : cm ≠ [] := by
          rw [hcm]
          intro hnil
          have : p0 ∈ seen.filter (fun p => f p = m) := by
            simp [List.mem_filter, hp0, hfp0]
          rw [hnil] at this
          simp at this
        cases hcmc : cm with
        | nil => exact absurd hcmc hcmne
        | cons c cs =>
          simp only
          refine ih (seen ++ [p]) (f p : Int) [p] hrest (fun h => absurd h hne)
            (fun _ => ⟨f p, rfl, ⟨p, by simp, rfl⟩, ?_, ?_⟩)
          · intro q hq
            rcases List.mem_append.mp hq with h | h
            · have := hmin q h
              omega
            · simp at h; subst h; exact le_refl _
          · rw [List.filter_append]
            have : seen.filter (fun q => decide (f q = f p)) = [] := by
              rw [List.filter_eq_nil_iff]
              intro q hq
              have := hmin q hq
              simp only [decide_eq_true_eq]
              omega
            rw [this]
            simp
      · simp only [hlt, if_false]
        by_cases heq : (f p : Int) = minDist
        · simp only [heq, if_true]
          refine ih (seen ++ [p]) minDist (cm ++ [p]) hrest (fun h => absurd h hne)
            (fun _ => ⟨m, hm, ⟨p0, by simp [hp0], hfp0⟩, ?_, ?_⟩)
          · intro q hq
            rcases List.mem_append.mp hq with h | h
            · exact hmin q h
            · simp at h; subst h; omega
          · rw [List.filter_append, hcm]
            have : f p = m := by omega
            simp [this]
        · simp only [heq, if_false]
          refine ih (seen ++ [p]) minDist cm hrest (fun h => absurd h hne)
            (fun _ => ⟨m, hm, ⟨p0, by simp [hp0], hfp0⟩, ?_, ?_⟩)
          · intro q hq
            rcases List.mem_append.mp hq with h | h
            · exact hmin q h
            · simp at h; subst h; omega
          · rw [List.filter_append, hcm]
            have : ¬ (f p = m) := by omega
            simp [this]

theorem joinMatches_sep : ∀ (l : List String) (acc : String),
    (joinMatches l (acc, " or ")).1 = String.intercalate.go acc " or " l := by
  intro l
  induction l with
  | nil => intro acc; rfl
  | cons m l ih =>
    intro acc
    simp only [joinMatches, String.intercalate.go]
    rw [ih, String.append_assoc]

theorem joinMatches_eq_intercalate (l : List String) :
    (joinMatches l ("", "")).1 = " or ".intercalate l := by
  cases l with
  | nil => rfl
  | cons m l =>
    simp only [joinMatches, String.intercalate]
    rw [joinMatches_sep]
    simp

/-- Whenever every distance computation returns, `findClosestMatch` returns
the least distance and the names at that distance, in the order visited,
joined with " or ". -/
theorem findClosestMatch_of_distances (ps : ParamSet) (badParam : String)
    (hne : ps.nameToParam ≠ [])
    (hall : ∀ p ∈ ps.nameToParam.map Prod.fst, (Levenshtein badParam p).isSome = true) :
    ∃ k : Nat,
      findClosestMatch ps badParam
        = some (" or ".intercalate ((ps.nameToParam.map Prod.fst).filter
            (fun p => Levenshtein badParam p = some k)), (k : Int))
      ∧ (∃ p ∈ ps.nameToParam.map Prod.fst, Levenshtein badParam p = some k)
      ∧ (∀ p ∈ ps.nameToParam.map Prod.fst, ∀ n, Levenshtein badParam p = some n → k ≤ n) := by
  have hf : ∀ p ∈ ps.nameToParam.map Prod.fst,
      Levenshtein badParam p = some ((Levenshtein badParam p).getD 0) := by
    intro p hp
    have := hall p hp
    cases h : Levenshtein badParam p with
    | none => rw [h] at this; simp at this
    | some n => rfl
  obtain ⟨m, ties, h1, _, h3⟩ := closestLoop_spec badParam
    (fun p => (Levenshtein badParam p).getD 0) (ps.nameToParam.map Prod.fst) [] (-1) []
    hf (fun _ => ⟨rfl, rfl⟩) (fun h => absurd rfl h)
  have hne2 : [] ++ ps.nameToParam.map Prod.fst ≠ [] := by simpa using hne
  obtain ⟨k, hk, ⟨p0, hp0, hfp0⟩, hmin, hties⟩ := h3 hne2
  simp only [List.nil_append] at hp0 hmin hties
  refine ⟨k, ?_, ⟨p0, hp0, ?_⟩, ?_⟩
  · simp only [findClosestMatch, h1]
    rw [joinMatches_eq_intercalate, hk, hties]
    congr 3
    apply List.filter_congr
    intro p hp
    rw [hf p hp]
    simp
  · rw [hf p0 hp0, hfp0]
  · intro p hp n hn
    have := hmin p hp
    simp only [hn, Option.getD_some] at this
    exact this

/-- C8: `findClosestMatch` is to return, for every registry with a name and
every string, the least `Levenshtein` distance and the names tied at it; on
the names `verbose` and `count`, in either visiting order, and the string
`vérbose` it panics instead of returning, while on `verbos` it returns
`verbose` at distance 1. -/
theorem findClosestMatch_panics_on_multibyte :
    findClosestMatch
        { nameToParam := [("verbose", { name := "verbose" }), ("count", { name := "count" })] }
        "vérbose" = none
    ∧ findClosestMatch
        { nameToParam := [("count", { name := "count" }), ("verbose", { name := "verbose" })] }
        "vérbose" = none
    ∧ findClosestMatch
        { nameToParam := [("verbose", { name := "verbose" }), ("count", { name := "count" })] }
        "verbos" = some ("verbose", 1)
    ∧ findClosestMatch
        { nameToParam := [("count", { name := "count" }), ("verbose", { name := "verbose" })] }
        "verbos" = some ("verbose", 1) := by
  decide

/-- C9: `Levenshtein` is to return the edit distance of the rune sequences for
every pair of strings; on `éa` and `x`, whose rune sequences are at edit
distance 2, it panics instead of returning (the two-byte rune `é` makes the
byte offset of `a` exceed the rune count), while the two examples
Kitten/Sitting and Saturday/Sunday give 3. -/
theorem Levenshtein_panics_on_multibyte :
    Levenshtein "éa" "x" = none
    ∧ editDistance "éa".data "x".data = 2
    ∧ rangeString "éa" = [(0, 'é'), (2, 'a')]
    ∧ RuneCountInString "éa" = 2
    ∧ Levenshtein "Kitten" "Sitting" = some 3
    ∧ Levenshtein "Saturday" "Sunday" = some 3 := by
  decide

/-- The calls `Levenshtein(a, b)` and `Levenshtein(b, a)` have the same
outcome: the same distance when they return, and a panic of both otherwise. -/
theorem Levenshtein_outcome_symm (a b : String) : Levenshtein a b = Levenshtein b a := by
  rw [Levenshtein_eq a b, Levenshtein_eq b a, editDistance_comm a.data b.data]
  have : (a.data = [] ∨ b.data = [] ∨ (OffsetsAreIndices a.data ∧ OffsetsAreIndices b.data))
      ↔ (b.data = [] ∨ a.data = [] ∨ (OffsetsAreIndices b.data ∧ OffsetsAreIndices a.data)) := by
    constructor
    · rintro (h | h | ⟨h1, h2⟩)
      · exact Or.inr (Or.inl h)
      · exact Or.inl h
      · exact Or.inr (Or.inr ⟨h2, h1⟩)
    · rintro (h | h | ⟨h1, h2⟩)
      · exact Or.inr (Or.inl h)
      · exact Or.inl h
      · exact Or.inr (Or.inr ⟨h2, h1⟩)
  by_cases h : a.data = [] ∨ b.data = [] ∨ (OffsetsAreIndices a.data ∧ OffsetsAreIndices b.data)
  · rw [if_pos h, if_pos (this.mp h)]
  · rw [if_neg h, if_neg (fun h2 => h (this.mpr h2))]

/-- C10: `Levenshtein` is to return the same distance for `(a, b)` and for
`(b, a)`, for all strings; on `éa` and `x` neither call returns a distance:
both panic, where the distance of the rune sequences is 2 in either order. On
`ab` and `x` both calls return 2. -/
theorem Levenshtein_symm_panics_on_multibyte :
    Levenshtein "éa" "x" = none
    ∧ Levenshtein "x" "éa" = none
    ∧ editDistance "éa".data "x".data = 2
    ∧ editDistance "x".data "éa".data = 2
    ∧ Levenshtein "ab" "x" = some 2
    ∧ Levenshtein "x" "ab" = some 2 := by
  decide

/-! ## `Hamming` -/

theorem bne_comm_char (x y : Char) : (x != y) = (y != x) := by
  by_cases h : x = y
  · subst h; rfl
  · have h2 : ¬ y = x := fun e => h e.symm
    rw [bne_iff_ne.mpr h, bne_iff_ne.mpr h2]

theorem mismatchCount_nil_left (b : List Char) : mismatchCount [] b = 0 := by
  simp [mismatchCount]

theorem mismatchCount_cons_cons (x y : Char) (xs ys : List Char) :
    mismatchCount (x :: xs) (y :: ys) = mismatchCount xs ys + if x != y then 1 else 0 := by
  have hmin : min (x :: xs).length (y :: ys).length = min xs.length ys.length + 1 := by
    simp only [List.length_cons]; omega
  simp only [mismatchCount, hmin, List.range_succ_eq_map, List.countP_cons, List.countP_map]
  congr 1
  · apply List.countP_congr
    intro i _
    simp only [Function.comp, Nat.succ_eq_add_one, List.getElem?_cons_succ]
  · simp only [List.getElem?_cons_zero]
    by_cases h : x = y
    · subst h; simp
    · have h2 : some x ≠ some y := fun e => h (Option.some.inj e)
      rw [bne_iff_ne.mpr h, bne_iff_ne.mpr h2]

theorem mismatchCount_comm (a b : List Char) : mismatchCount a b = mismatchCount b a := by
  simp only [mismatchCount, Nat.min_comm a.length b.length]
  apply List.countP_congr
  intro i _
  by_cases h : a[i]? = b[i]?
  · simp [h]
  · have h2 : ¬ b[i]? = a[i]? := fun e => h e.symm
    simp [h, h2]

theorem hammingDistance_comm (a b : List Char) : hammingDistance a b = hammingDistance b a := by
  simp only [hammingDistance, mismatchCount_comm a b, Nat.max_comm a.length b.length,
    Nat.min_comm a.length b.length]

theorem mismatchCount_self (a : List Char) : mismatchCount a a = 0 := by
  simp [mismatchCount]

/-- At the byte offset that ends the runes `pre` the slice is what follows
them. -/
theorem byteSlice_boundary : ∀ (pre suf : List Char),
    byteSlice (pre ++ suf) ((pre.map Char.utf8Size).sum) = some suf := by
  intro pre
  induction pre with
  | nil =>
    intro suf
    cases suf <;> simp [byteSlice]
  | cons c pre ih =>
    intro suf
    have hpos := c.utf8Size_pos
    have hne : ¬ (c.utf8Size + (pre.map Char.utf8Size).sum = 0) := by omega
    have hle : c.utf8Size ≤ c.utf8Size + (pre.map Char.utf8Size).sum := by omega
    simp only [List.cons_append, List.map_cons, List.sum_cons, byteSlice, hne, if_false, hle,
      if_true, Nat.add_sub_cancel_left]
    exact ih suf

/-- The loop of `Hamming` never panics when `b` has at least as many runes
left as `a`, and adds the number of differing positions. -/
theorem hammingLoop_spec : ∀ (as pre suf : List Char) (d : Int),
    as.length ≤ suf.length →
    hammingLoop (pre ++ suf) as ((pre.map Char.utf8Size).sum) d
      = some (d + (mismatchCount as suf : Int)) := by
  intro as
  induction as with
  | nil =>
    intro pre suf d _
    simp [hammingLoop, mismatchCount_nil_left]
  | cons x xs ih =>
    intro pre suf d hlen
    cases suf with
    | nil => simp at hlen
    | cons y ys =>
      have hlen2 : xs.length ≤ ys.length := by simpa using hlen
      have hsum : (pre.map Char.utf8Size).sum + y.utf8Size
          = ((pre ++ [y]).map Char.utf8Size).sum := by
        simp
      have happ : pre ++ y :: ys = (pre ++ [y]) ++ ys := by simp
      rw [hammingLoop, byteSlice_boundary pre (y :: ys)]
      simp only [DecodeRuneInString]
      rw [hsum, happ, ih (pre ++ [y]) ys _ hlen2, mismatchCount_cons_cons]
      by_cases h : x = y
      · subst h; simp
      · have h2 : ¬ y = x := fun e => h e.symm
        simp [h, h2]
        omega

/-- What `Hamming` returns on every pair of strings. -/
theorem Hamming_eq (a b : String) :
    Hamming a b = some (hammingDistance a.data b.data : Int) := by
  simp only [Hamming, RuneCountInString, hammingDistance]
  by_cases hlt : ((b.data.length : Int) - (a.data.length : Int)) < 0
  · have hlen : b.data.length < a.data.length := by omega
    have := hammingLoop_spec b.data [] a.data
      (((b.data.length : Int) - (a.data.length : Int)) * -1) (by omega)
    simp only [List.nil_append, List.map_nil, List.sum_nil] at this
    rw [if_pos hlt, this, mismatchCount_comm a.data b.data]
    congr 1
    have h1 : max a.data.length b.data.length = a.data.length := by omega
    have h2 : min a.data.length b.data.length = b.data.length := by omega
    rw [h1, h2]
    push_cast
    omega
  · have hlen : a.data.length ≤ b.data.length := by omega
    have := hammingLoop_spec a.data [] b.data
      ((b.data.length : Int) - (a.data.length : Int)) hlen
    simp only [List.nil_append, List.map_nil, List.sum_nil] at this
    rw [if_neg hlt, this]
    congr 1
    have h1 : max a.data.length b.data.length = b.data.length := by omega
    have h2 : min a.data.length b.data.length = a.data.length := by omega
    rw [h1, h2]
    push_cast
    omega

/-! ## `Levenshtein` of a string and itself -/

theorem editsTo_self (xs : List Char) : EditsTo xs xs 0 := by
  induction xs with
  | nil => exact EditsTo.done
  | cons x xs ih => exact EditsTo.keep x ih

theorem editDistance_self (xs : List Char) : editDistance xs xs = 0 :=
  Nat.le_zero.mp (editDistance_le_of_editsTo (editsTo_self xs))

/-- On a string whose runes start at the byte offsets equal to their indices
the distance to itself is 0; on every other string the call panics. -/
theorem Levenshtein_self_eq (s : String) :
    Levenshtein s s = if OffsetsAreIndices s.data then some 0 else none := by
  rw [Levenshtein_eq, editDistance_self]
  by_cases h : OffsetsAreIndices s.data
  · simp [h]
  · have hne : s.data ≠ [] := by
      intro he
      apply h
      rw [he]
      rfl
    simp [h, hne]

/-- C11: `Levenshtein(s, s)` is to be 0 for every string `s`; on `éa`, whose
distance to itself is 0, the call panics instead of returning, while on the
empty string and on `a` it returns 0. -/
theorem Levenshtein_self_panics_on_multibyte :
    Levenshtein "éa" "éa" = none
    ∧ editDistance "éa".data "éa".data = 0
    ∧ Levenshtein "" "" = some 0
    ∧ Levenshtein "a" "a" = some 0 := by
  decide

/-- C12: for all strings `a` and `b`, `Hamming(a, b)` returns the absolute
difference of the rune counts plus the number of positions below the shorter
rune count at which the runes differ; so for strings of equal rune count it
returns the number of differing positions, `Hamming(s, s)` is 0, and
`Hamming("a§abc", "a¶a")` is 3. -/
theorem Hamming_spec (a b : String) :
    Hamming a b
      = some (((max (RuneCountInString a) (RuneCountInString b)
            - min (RuneCountInString a) (RuneCountInString b)
          + ((List.range (min (RuneCountInString a) (RuneCountInString b))).countP
              (fun i => a.data[i]? != b.data[i]?)) : Nat) : Int))
    ∧ (RuneCountInString a = RuneCountInString b →
        Hamming a b = some ((mismatchCount a.data b.data : Nat) : Int))
    ∧ Hamming a a = some 0
    ∧ Hamming "a§abc" "a¶a" = some 3 := by
  refine ⟨Hamming_eq a b, ?_, ?_, by decide⟩
  · intro h
    rw [Hamming_eq]
    simp only [RuneCountInString] at h
    simp [hammingDistance, h]
  · rw [Hamming_eq]
    simp [hammingDistance, mismatchCount_self]

/-- C13: `Hamming` is symmetric: for all strings `a` and `b`, of equal or
different rune counts, `Hamming(a, b)` and `Hamming(b, a)` return the same
distance. -/
theorem Hamming_symm (a b : String) :
    Hamming a b = Hamming b a
    ∧ Hamming a b = some ((hammingDistance a.data b.data : Nat) : Int) := by
  refine ⟨?_, Hamming_eq a b⟩
  rw [Hamming_eq a b, Hamming_eq b a, hammingDistance_comm]

/-! ## The line parsers of the config files -/

theorem trimParts_one (a n : String) : trimParts [a] n = [n] := by
  simp [trimParts]

theorem trimParts_two (a b n : String) : trimParts [a, b] n = [n, TrimSpace b] := by
  simp [trimParts]

/-- The first part the line parsers pass on is the parameter name. -/
theorem trimParts_head (line n : String) :
    (trimParts (SplitN2 line '=') n).headD "" = n := by
  rcases split_cases '=' line.data with h | ⟨spec, val, e, hn⟩
  · rw [SplitN2_of_not_mem line '=' h, trimParts_one]; rfl
  · rw [SplitN2_of_split line '=' spec val e hn, trimParts_two]; rfl

theorem splitParamName_of_slash (s : String) (scope name : List Char)
    (h : s.data = scope ++ '/' :: name) (hn : '/' ∉ scope) :
    splitParamName s = (TrimSpace ⟨scope⟩, TrimSpace ⟨name⟩) := by
  simp only [splitParamName, SplitN2_of_split s '/' scope name h hn]

theorem splitParamName_of_no_slash (s : String) (h : '/' ∉ s.data) :
    splitParamName s = ("", TrimSpace s) := by
  simp only [splitParamName, SplitN2_of_not_mem s '/' h]
  rfl

/-- White space around a text does not change what `TrimSpace` returns. -/
theorem TrimSpace_pad (ws1 s ws2 : List Char) (h1 : ∀ c ∈ ws1, isSpace c = true)
    (h2 : ∀ c ∈ ws2, isSpace c = true) :
    TrimSpace ⟨ws1 ++ s ++ ws2⟩ = TrimSpace ⟨s⟩ := by
  simp only [TrimSpace, List.append_assoc]
  rw [List.dropWhile_append_of_pos h1, List.dropWhile_append]
  have h2r : ∀ c ∈ ws2.reverse, isSpace c = true := fun c hc => h2 c (List.mem_reverse.mp hc)
  by_cases he : (List.dropWhile isSpace s).isEmpty = true
  · rw [if_pos he]
    have hnil : List.dropWhile isSpace s = [] := List.isEmpty_iff.mp he
    have hws : List.dropWhile isSpace ws2 = [] := by
      rw [List.dropWhile_eq_nil_iff]; exact h2
    rw [hnil, hws]
  · rw [if_neg he, List.reverse_append, List.dropWhile_append_of_pos h2r]

theorem paramLineParser_ParseLine_eq {ω : Type} (fenv : FileEnv ω) (line : String) (loc : Loc)
    (r : Run ω) :
    paramLineParser.ParseLine fenv line loc r
      = if (splitParamName ((SplitN2 line '=').headD "")).1 ≠ "" then
          if (splitParamName ((SplitN2 line '=').headD "")).1 = r.ps.progBaseName then
            (r.call (fenv.setValueFromFile
                (trimParts (SplitN2 line '=') (splitParamName ((SplitN2 line '=').headD "")).2)
                loc paramExistenceRule.paramMustExist)
              (Call.setValueFromFile
                (trimParts (SplitN2 line '=') (splitParamName ((SplitN2 line '=').headD "")).2)
                loc paramExistenceRule.paramMustExist), none)
          else
            (r.call (fenv.markAsUnused (splitParamName ((SplitN2 line '=').headD "")).2 loc)
              (Call.markAsUnused (splitParamName ((SplitN2 line '=').headD "")).2 loc), none)
        else
          (r.call (fenv.setValueFromFile
              (trimParts (SplitN2 line '=') (splitParamName ((SplitN2 line '=').headD "")).2)
              loc paramExistenceRule.paramNeedNotExist)
            (Call.setValueFromFile
              (trimParts (SplitN2 line '=') (splitParamName ((SplitN2 line '=').headD "")).2)
              loc paramExistenceRule.paramNeedNotExist), none) :=
  rfl

theorem groupParamLineParser_ParseLine_eq {ω : Type} (fenv : FileEnv ω) (gName line : String)
    (loc : Loc) (r : Run ω) :
    groupParamLineParser.ParseLine fenv gName line loc r
      = if (splitParamName ((SplitN2 line '=').headD "")).1 ≠ "" ∧
            (splitParamName ((SplitN2 line '=').headD "")).1 ≠ r.ps.progBaseName then
          (r.call (fenv.markAsUnused (splitParamName ((SplitN2 line '=').headD "")).2 loc)
            (Call.markAsUnused (splitParamName ((SplitN2 line '=').headD "")).2 loc), none)
        else
          (r.call (fenv.setValueFromGroupFile
              (trimParts (SplitN2 line '=') (splitParamName ((SplitN2 line '=').headD "")).2)
              loc gName)
            (Call.setValueFromGroupFile
              (trimParts (SplitN2 line '=') (splitParamName ((SplitN2 line '=').headD "")).2)
              loc gName), none) :=
  rfl

/-- C14: for a line of a global config file whose program scope is present
and differs from the program's base name, `paramLineParser.ParseLine` returns
nil and all it does is the one call of `markAsUnused` for the parameter name:
`setValueFromFile` is not called (nothing reaches a setter), the world is as
that call leaves it, and the errors are unchanged unless `markAsUnused`
itself records one; the registry is not consulted. -/
theorem paramLineParser_other_program {ω : Type} (fenv : FileEnv ω) (line : String)
    (loc : Loc) (r : Run ω)
    (hscope : (splitParamName ((SplitN2 line '=').headD "")).1 ≠ "")
    (hother : (splitParamName ((SplitN2 line '=').headD "")).1 ≠ r.ps.progBaseName) :
    paramLineParser.ParseLine fenv line loc r
      = (r.call (fenv.markAsUnused (splitParamName ((SplitN2 line '=').headD "")).2 loc)
          (Call.markAsUnused (splitParamName ((SplitN2 line '=').headD "")).2 loc), none)
    ∧ (paramLineParser.ParseLine fenv line loc r).2 = none
    ∧ (paramLineParser.ParseLine fenv line loc r).1.calls
        = r.calls ++ [Call.markAsUnused (splitParamName ((SplitN2 line '=').headD "")).2 loc]
    ∧ (paramLineParser.ParseLine fenv line loc r).1.world
        = (fenv.markAsUnused (splitParamName ((SplitN2 line '=').headD "")).2 loc
            (r.world, r.ps.errors)).1
    ∧ ((∀ s, (fenv.markAsUnused (splitParamName ((SplitN2 line '=').headD "")).2 loc s).2 = s.2) →
        (paramLineParser.ParseLine fenv line loc r).1.ps.errors = r.ps.errors)
    ∧ (paramLineParser.ParseLine fenv line loc r).1.ps.nameToParam = r.ps.nameToParam := by
  have key : paramLineParser.ParseLine fenv line loc r
      = (r.call (fenv.markAsUnused (splitParamName ((SplitN2 line '=').headD "")).2 loc)
          (Call.markAsUnused (splitParamName ((SplitN2 line '=').headD "")).2 loc), none) := by
    rw [paramLineParser_ParseLine_eq, if_pos hscope, if_neg hother]
  rw [key]
  refine ⟨rfl, rfl, rfl, rfl, ?_, rfl⟩
  intro h
  simp only [Run.call]
  exact h _

/-- Witness of C14: the line `otherprog/x=1` read by the program `myprog`. -/
theorem paramLineParser_other_program_witness :
    (paramLineParser.ParseLine (specFileEnv quietEnv (fun _ _ w => w) [("x", { name := "x" })])
        "otherprog/x=1" (Loc.New "cfg")
        { ps := { progBaseName := "myprog", nameToParam := [("x", { name := "x" })] },
          world := () }).1.calls
      = [] ++ [Call.markAsUnused
          (splitParamName ((SplitN2 "otherprog/x=1" '=').headD "")).2 (Loc.New "cfg")] :=
  (paramLineParser_other_program (specFileEnv quietEnv (fun _ _ w => w) [("x", { name := "x" })])
    "otherprog/x=1" (Loc.New "cfg")
    { ps := { progBaseName := "myprog", nameToParam := [("x", { name := "x" })] },
      world := () } (by decide) (by decide)).2.2.1

/-- C15: for a line of a global config file with program name `progName` and
parameter name `paramName`: when the program scope equals the program's base
name, `paramLineParser.ParseLine` calls `setValueFromFile` with the rule
`paramMustExist`, and when there is no program scope it calls it with the
rule `paramNeedNotExist`; with `setValueFromFile` as the specification
describes it, a name that is not registered gets one unrecognized-parameter
error under its name in the first case and no error, with the world
unchanged, in the second. -/
theorem paramLineParser_existence_rules {ω : Type} (fenv : FileEnv ω) (env : Env ω)
    (mark : String → Loc → ω → ω) (line : String) (loc : Loc) (r : Run ω)
    (progName paramName : String)
    (hsplit : splitParamName ((SplitN2 line '=').headD "") = (progName, paramName)) :
    (progName ≠ "" → progName = r.ps.progBaseName →
      paramLineParser.ParseLine fenv line loc r
        = (r.call (fenv.setValueFromFile (trimParts (SplitN2 line '=') paramName) loc
              paramExistenceRule.paramMustExist)
            (Call.setValueFromFile (trimParts (SplitN2 line '=') paramName) loc
              paramExistenceRule.paramMustExist), none))
    ∧ (progName = "" →
      paramLineParser.ParseLine fenv line loc r
        = (r.call (fenv.setValueFromFile (trimParts (SplitN2 line '=') paramName) loc
              paramExistenceRule.paramNeedNotExist)
            (Call.setValueFromFile (trimParts (SplitN2 line '=') paramName) loc
              paramExistenceRule.paramNeedNotExist), none))
    ∧ (r.ps.nameToParam.lookup paramName = none →
        (progName ≠ "" → progName = r.ps.progBaseName →
          (paramLineParser.ParseLine (specFileEnv env mark r.ps.nameToParam) line loc r).1.ps.errors
              paramName
            = r.ps.errors paramName ++ [Err.located loc notAParamText]
          ∧ (∀ k, k ≠ paramName →
              (paramLineParser.ParseLine (specFileEnv env mark r.ps.nameToParam)
                line loc r).1.ps.errors k = r.ps.errors k)
          ∧ (paramLineParser.ParseLine (specFileEnv env mark r.ps.nameToParam) line loc r).2
              = none)
        ∧ (progName = "" →
          (paramLineParser.ParseLine (specFileEnv env mark r.ps.nameToParam) line loc r).1.ps.errors
            = r.ps.errors
          ∧ (paramLineParser.ParseLine (specFileEnv env mark r.ps.nameToParam) line loc r).1.world
            = r.world
          ∧ (paramLineParser.ParseLine (specFileEnv env mark r.ps.nameToParam) line loc r).2
              = none)) := by
  have h1 : (splitParamName ((SplitN2 line '=').headD "")).1 = progName := by rw [hsplit]
  have h2 : (splitParamName ((SplitN2 line '=').headD "")).2 = paramName := by rw [hsplit]
  have hmust : ∀ fe : FileEnv ω, progName ≠ "" → progName = r.ps.progBaseName →
      paramLineParser.ParseLine fe line loc r
        = (r.call (fe.setValueFromFile (trimParts (SplitN2 line '=') paramName) loc
              paramExistenceRule.paramMustExist)
            (Call.setValueFromFile (trimParts (SplitN2 line '=') paramName) loc
              paramExistenceRule.paramMustExist), none) := by
    intro fe hne heq
    rw [paramLineParser_ParseLine_eq, h1, h2, if_pos hne, if_pos heq]
  have hneed : ∀ fe : FileEnv ω, progName = "" →
      paramLineParser.ParseLine fe line loc r
        = (r.call (fe.setValueFromFile (trimParts (SplitN2 line '=') paramName) loc
              paramExistenceRule.paramNeedNotExist)
            (Call.setValueFromFile (trimParts (SplitN2 line '=') paramName) loc
              paramExistenceRule.paramNeedNotExist), none) := by
    intro fe he
    rw [paramLineParser_ParseLine_eq, h1, h2, if_neg (fun h => h he)]
  refine ⟨hmust fenv, hneed fenv, fun hlook => ⟨fun hne heq => ?_, fun he => ?_⟩⟩
  · rw [hmust _ hne heq]
    simp only [Run.call, specFileEnv, setValueFromFile, trimParts_head, hlook, ErrMap.append]
    refine ⟨by simp, fun k hk => by simp [hk], trivial⟩
  · rw [hneed _ he]
    simp only [Run.call, specFileEnv, setValueFromFile, trimParts_head, hlook]
    exact ⟨trivial, trivial, trivial⟩

/-- Witness of C15: the line `myprog/x=1` read by the program `myprog`, with
`x` not registered. -/
theorem paramLineParser_existence_rules_witness :
    (paramLineParser.ParseLine (specFileEnv quietEnv (fun _ _ w => w) []) "myprog/x=1"
        (Loc.New "cfg") { ps := { progBaseName := "myprog" }, world := () }).1.ps.errors "x"
      = [] ++ [Err.located (Loc.New "cfg") notAParamText] :=
  ((((paramLineParser_existence_rules (specFileEnv quietEnv (fun _ _ w => w) []) quietEnv
    (fun _ _ w => w) "myprog/x=1" (Loc.New "cfg")
    { ps := { progBaseName := "myprog" }, world := () } "myprog" "x" (by decide)).2.2
    (by decide)).1 (by decide) (by decide)).1)

/-- C16 as stated fails: the line `otherprog/nosuch=1` of a group config file
read by the program `myprog`, with `nosuch` not registered, records no error
for `nosuch`; the line is only marked unused. -/
theorem groupParamLineParser_other_program_no_error :
    (groupParamLineParser.ParseLine (specFileEnv quietEnv (fun _ _ w => w) []) "grp1"
        "otherprog/nosuch=1" (Loc.New "cfg")
        { ps := { progBaseName := "myprog" }, world := () }).1.ps.errors "nosuch" = []
    ∧ (groupParamLineParser.ParseLine (specFileEnv quietEnv (fun _ _ w => w) []) "grp1"
        "otherprog/nosuch=1" (Loc.New "cfg")
        { ps := { progBaseName := "myprog" }, world := () }).1.calls
        = [Call.markAsUnused "nosuch" (Loc.New "cfg")]
    ∧ List.lookup "nosuch" ([] : List (String × ByName)) = none := by
  decide

/-- C16, amended: for a line of a group config file whose parameter name is
not registered, `groupParamLineParser.ParseLine` records one
unrecognized-parameter error under that name when the line has no program
scope and when its scope equals the program's base name; when its scope is
another program's the line is only marked unused and
`setValueFromGroupFile` is not called. -/
theorem groupParamLineParser_unregistered {ω : Type} (fenv : FileEnv ω) (env : Env ω)
    (mark : String → Loc → ω → ω) (gName line : String) (loc : Loc) (r : Run ω)
    (progName paramName : String)
    (hsplit : splitParamName ((SplitN2 line '=').headD "") = (progName, paramName))
    (hlook : r.ps.nameToParam.lookup paramName = none) :
    ((progName = "" ∨ progName = r.ps.progBaseName) →
      (groupParamLineParser.ParseLine (specFileEnv env mark r.ps.nameToParam) gName line
          loc r).1.ps.errors paramName
        = r.ps.errors paramName ++ [Err.located loc notAParamText]
      ∧ (∀ k, k ≠ paramName →
          (groupParamLineParser.ParseLine (specFileEnv env mark r.ps.nameToParam) gName line
            loc r).1.ps.errors k = r.ps.errors k)
      ∧ groupParamLineParser.ParseLine fenv gName line loc r
          = (r.call (fenv.setValueFromGroupFile (trimParts (SplitN2 line '=') paramName) loc gName)
              (Call.setValueFromGroupFile (trimParts (SplitN2 line '=') paramName) loc gName),
            none))
    ∧ (progName ≠ "" → progName ≠ r.ps.progBaseName →
      groupParamLineParser.ParseLine fenv gName line loc r
        = (r.call (fenv.markAsUnused paramName loc) (Call.markAsUnused paramName loc), none)) := by
  have h1 : (splitParamName ((SplitN2 line '=').headD "")).1 = progName := by rw [hsplit]
  have h2 : (splitParamName ((SplitN2 line '=').headD "")).2 = paramName := by rw [hsplit]
  constructor
  · intro hscope
    have hno : ¬ (progName ≠ "" ∧ progName ≠ r.ps.progBaseName) := by
      rintro ⟨ha, hb⟩
      rcases hscope with h | h
      · exact ha h
      · exact hb h
    have hcall : ∀ fe : FileEnv ω, groupParamLineParser.ParseLine fe gName line loc r
        = (r.call (fe.setValueFromGroupFile (trimParts (SplitN2 line '=') paramName) loc gName)
            (Call.setValueFromGroupFile (trimParts (SplitN2 line '=') paramName) loc gName),
          none) := by
      intro fe
      rw [groupParamLineParser_ParseLine_eq, h1, h2, if_neg hno]
    refine ⟨?_, ?_, hcall fenv⟩
    · rw [hcall]
      simp only [Run.call, specFileEnv, setValueFromGroupFile, trimParts_head, hlook,
        ErrMap.append]
      simp
    · intro k hk
      rw [hcall]
      simp only [Run.call, specFileEnv, setValueFromGroupFile, trimParts_head, hlook,
        ErrMap.append]
      simp [hk]
  · intro ha hb
    rw [groupParamLineParser_ParseLine_eq, h1, h2, if_pos ⟨ha, hb⟩]

/-- Witness of C16, amended: the line `nosuch=1` of a group config file. -/
theorem groupParamLineParser_unregistered_witness :
    (groupParamLineParser.ParseLine (specFileEnv quietEnv (fun _ _ w => w) []) "grp1"
        "nosuch=1" (Loc.New "cfg")
        { ps := { progBaseName := "myprog" }, world := () }).1.ps.errors "nosuch"
      = [] ++ [Err.located (Loc.New "cfg") notAParamText] :=
  ((groupParamLineParser_unregistered (specFileEnv quietEnv (fun _ _ w => w) []) quietEnv
    (fun _ _ w => w) "grp1" "nosuch=1" (Loc.New "cfg")
    { ps := { progBaseName := "myprog" }, world := () } "" "nosuch" (by decide) (by decide)).1
    (Or.inl rfl)).1

/-- Both line parsers on a line that is not skipped, in terms of its parts. -/
theorem ParseLine_of_parts {ω : Type} (fenv : FileEnv ω) (gName line : String) (loc : Loc)
    (r : Run ω) (progName paramName : String)
    (hsplit : splitParamName ((SplitN2 line '=').headD "") = (progName, paramName))
    (hscope : progName = "" ∨ progName = r.ps.progBaseName) :
    paramLineParser.ParseLine fenv line loc r
      = (r.call (fenv.setValueFromFile (trimParts (SplitN2 line '=') paramName) loc
            (if progName = "" then paramExistenceRule.paramNeedNotExist
              else paramExistenceRule.paramMustExist))
          (Call.setValueFromFile (trimParts (SplitN2 line '=') paramName) loc
            (if progName = "" then paramExistenceRule.paramNeedNotExist
              else paramExistenceRule.paramMustExist)), none)
    ∧ groupParamLineParser.ParseLine fenv gName line loc r
      = (r.call (fenv.setValueFromGroupFile (trimParts (SplitN2 line '=') paramName) loc gName)
          (Call.setValueFromGroupFile (trimParts (SplitN2 line '=') paramName) loc gName),
        none) := by
  have h1 : (splitParamName ((SplitN2 line '=').headD "")).1 = progName := by rw [hsplit]
  have h2 : (splitParamName ((SplitN2 line '=').headD "")).2 = paramName := by rw [hsplit]
  have hno : ¬ (progName ≠ "" ∧ progName ≠ r.ps.progBaseName) := by
    rintro ⟨ha, hb⟩
    rcases hscope with h | h
    · exact ha h
    · exact hb h
  constructor
  · rw [paramLineParser_ParseLine_eq, h1, h2]
    by_cases he : progName = ""
    · rw [if_neg (fun h => h he), if_pos he]
    · have hb : progName = r.ps.progBaseName := by
        rcases hscope with h | h
        · exact absurd h he
        · exact h
      rw [if_pos he, if_pos hb, if_neg he]
  · rw [groupParamLineParser_ParseLine_eq, h1, h2, if_neg hno]

theorem checkErrors_of_suppressed (ps : ParamSet) (errors : List Err) (cf : ConfigFileDetails)
    (h : errors = [] ∨ (cf.CfConstraint = filecheck.Exists.Optional ∧
      ∃ e, errors = [e] ∧ isOpenErr e = true)) :
    checkErrors ps errors cf = ps := by
  rcases h with h | ⟨hc, e, he, ho⟩
  · subst h; rfl
  · subst he
    simp [checkErrors, ho, hc]

theorem checkErrors_of_not_suppressed (ps : ParamSet) (errors : List Err)
    (cf : ConfigFileDetails)
    (h : ¬ (errors = [] ∨ (cf.CfConstraint = filecheck.Exists.Optional ∧
      ∃ e, errors = [e] ∧ isOpenErr e = true))) :
    checkErrors ps errors cf
      = { ps with errors := ps.errors.append ("config file: " ++ cf.Name) errors } := by
  have hne : errors ≠ [] := fun e => h (Or.inl e)
  have hlen : errors.length > 0 := List.length_pos.mpr hne
  have hcond : ¬ (errors.length = 1 ∧ isOpenErr (errors.headD (Err.plain "")) = true ∧
      cf.CfConstraint = filecheck.Exists.Optional) := by
    rintro ⟨h1, h2, h3⟩
    apply h
    right
    refine ⟨h3, ?_⟩
    match errors, h1, h2 with
    | [e], _, h2 => exact ⟨e, rfl, h2⟩
  simp only [checkErrors, hlen, if_true, hcond, if_false]

theorem isOpenErr_iff (e : Err) :
    isOpenErr e = true ↔ ∃ path msg : String, e = Err.pathError "open" path msg := by
  cases e with
  | plain m => simp [isOpenErr]
  | located l m => simp [isOpenErr]
  | pathError op path msg =>
    simp only [isOpenErr, beq_iff_eq, Err.pathError.injEq]
    constructor
    · intro h
      exact ⟨path, msg, h, rfl, rfl⟩
    · rintro ⟨_, _, h, _, _⟩
      exact h

/-- C18: `checkErrors` leaves the error map unchanged exactly when the list of
reported errors is empty or the descriptor is Optional and the list is a
single open failure, an `*os.PathError` of the operation `open`; in every
other case (a MustExist descriptor with an open failure included, and an
Optional descriptor with a single error of another kind) it appends all the
reported errors, in order, under the key `"config file: " + cf.Name` and
changes no other key; so an open failure of a MustExist file gives one error
under its file key and that of an Optional file gives none. -/
theorem checkErrors_spec (ps : ParamSet) (errors : List Err) (cf : ConfigFileDetails) :
    ((checkErrors ps errors cf).errors = ps.errors ↔
      (errors = [] ∨ (cf.CfConstraint = filecheck.Exists.Optional ∧
        ∃ path msg : String, errors = [Err.pathError "open" path msg])))
    ∧ (¬ (errors = [] ∨ (cf.CfConstraint = filecheck.Exists.Optional ∧
        ∃ path msg : String, errors = [Err.pathError "open" path msg])) →
      (checkErrors ps errors cf).errors ("config file: " ++ cf.Name)
          = ps.errors ("config file: " ++ cf.Name) ++ errors
      ∧ ∀ k, k ≠ "config file: " ++ cf.Name → (checkErrors ps errors cf).errors k = ps.errors k)
    ∧ (∀ path msg name : String,
        (checkErrors ps [Err.pathError "open" path msg]
            { Name := name, CfConstraint := filecheck.Exists.MustExist }).errors
            ("config file: " ++ name)
          = ps.errors ("config file: " ++ name) ++ [Err.pathError "open" path msg]
        ∧ checkErrors ps [Err.pathError "open" path msg]
            { Name := name, CfConstraint := filecheck.Exists.Optional } = ps)
    ∧ (∀ (loc : Loc) (op path msg name : String), op ≠ "open" →
        (checkErrors ps [Err.plain msg]
            { Name := name, CfConstraint := filecheck.Exists.Optional }).errors
            ("config file: " ++ name)
          = ps.errors ("config file: " ++ name) ++ [Err.plain msg]
        ∧ (checkErrors ps [Err.located loc msg]
            { Name := name, CfConstraint := filecheck.Exists.Optional }).errors
            ("config file: " ++ name)
          = ps.errors ("config file: " ++ name) ++ [Err.located loc msg]
        ∧ (checkErrors ps [Err.pathError op path msg]
            { Name := name, CfConstraint := filecheck.Exists.Optional }).errors
            ("config file: " ++ name)
          = ps.errors ("config file: " ++ name) ++ [Err.pathError op path msg]) := by
  have hiff : (errors = [] ∨ (cf.CfConstraint = filecheck.Exists.Optional ∧
        ∃ path msg : String, errors = [Err.pathError "open" path msg]))
      ↔ (errors = [] ∨ (cf.CfConstraint = filecheck.Exists.Optional ∧
        ∃ e, errors = [e] ∧ isOpenErr e = true)) := by
    constructor
    · rintro (h | ⟨hc, path, msg, he⟩)
      · exact Or.inl h
      · exact Or.inr ⟨hc, _, he, (isOpenErr_iff _).mpr ⟨path, msg, rfl⟩⟩
    · rintro (h | ⟨hc, e, he, ho⟩)
      · exact Or.inl h
      · obtain ⟨path, msg, hp⟩ := (isOpenErr_iff e).mp ho
        exact Or.inr ⟨hc, path, msg, by rw [he, hp]⟩
  have happ : ∀ (e : Err) (name : String), isOpenErr e = false →
      (checkErrors ps [e] { Name := name, CfConstraint := filecheck.Exists.Optional }).errors
          ("config file: " ++ name)
        = ps.errors ("config file: " ++ name) ++ [e] := by
    intro e name he
    rw [checkErrors_of_not_suppressed]
    · simp [ErrMap.append]
    · rintro (h | ⟨_, e2, h2, ho⟩)
      · cases h
      · simp only [List.cons.injEq, and_true] at h2
        rw [← h2, he] at ho
        cases ho
  refine ⟨⟨fun heq => ?_, fun hs => by rw [checkErrors_of_suppressed ps errors cf (hiff.mp hs)]⟩,
    fun hns => ?_, fun path msg name => ⟨?_, ?_⟩, fun loc op path msg name hop => ⟨?_, ?_, ?_⟩⟩
  · by_contra hns
    rw [checkErrors_of_not_suppressed ps errors cf (fun h => hns (hiff.mpr h))] at heq
    have := congrFun heq ("config file: " ++ cf.Name)
    simp only [ErrMap.append, if_true] at this
    have hnil : errors = [] := by simpa using this
    exact hns (Or.inl hnil)
  · rw [checkErrors_of_not_suppressed ps errors cf (fun h => hns (hiff.mpr h))]
    refine ⟨by simp [ErrMap.append], fun k hk => by simp [ErrMap.append, hk]⟩
  · rw [checkErrors_of_not_suppressed]
    · simp [ErrMap.append]
    · simp
  · exact checkErrors_of_suppressed _ _ _ (Or.inr ⟨rfl, _, rfl, rfl⟩)
  · exact happ _ name rfl
  · exact happ _ name rfl
  · exact happ _ name (by simp [isOpenErr, hop])

/-! ## The registration of config files -/

theorem groupFilesGet_set_self (m : List (String × List ConfigFileDetails)) (k : String)
    (v : List ConfigFileDetails) : groupFilesGet (groupFilesSet m k v) k = v := by
  induction m with
  | nil => simp [groupFilesSet, groupFilesGet, List.lookup]
  | cons p m ih =>
    obtain ⟨k2, v2⟩ := p
    by_cases h : k2 = k
    · simp [groupFilesSet, groupFilesGet, h, List.lookup]
    · have hb : (k == k2) = false := by
        simpa using fun e : k = k2 => h e.symm
      simp only [groupFilesSet, h, if_false, groupFilesGet, List.lookup, hb]
      exact ih

theorem groupFilesGet_set_other (m : List (String × List ConfigFileDetails)) (k k3 : String)
    (v : List ConfigFileDetails) (hk : k3 ≠ k) :
    groupFilesGet (groupFilesSet m k v) k3 = groupFilesGet m k3 := by
  induction m with
  | nil =>
    have hb : (k3 == k) = false := by simpa using hk
    simp [groupFilesSet, groupFilesGet, List.lookup, hb]
  | cons p m ih =>
    obtain ⟨k2, v2⟩ := p
    by_cases h : k2 = k
    · subst h
      have hb : (k3 == k2) = false := by simpa using hk
      simp [groupFilesSet, groupFilesGet, List.lookup, hb]
    · simp only [groupFilesSet, h, if_false, groupFilesGet, List.lookup]
      cases hb : (k3 == k2) with
      | true => rfl
      | false => exact ih

/-- C19: each of `SetConfigFile`, `AddConfigFile`, `SetGroupConfigFile` and
`AddGroupConfigFile` panics exactly when the existence constraint is
`MustNotExist`, whatever the file and group names, and at the panic the
global and the per-group descriptor lists are as they were. -/
theorem config_file_registration_panics (ps : ParamSet) (gName fName : String)
    (c : filecheck.Exists) :
    ((SetConfigFile ps fName c).isPanic = true ↔ c = filecheck.Exists.MustNotExist)
    ∧ ((AddConfigFile ps fName c).isPanic = true ↔ c = filecheck.Exists.MustNotExist)
    ∧ ((SetGroupConfigFile ps gName fName c).isPanic = true ↔ c = filecheck.Exists.MustNotExist)
    ∧ ((AddGroupConfigFile ps gName fName c).isPanic = true ↔ c = filecheck.Exists.MustNotExist)
    ∧ ((SetConfigFile ps fName c).isPanic = true →
        (SetConfigFile ps fName c).state.configFiles = ps.configFiles
        ∧ (SetConfigFile ps fName c).state.groupCfgFiles = ps.groupCfgFiles)
    ∧ ((AddConfigFile ps fName c).isPanic = true →
        (AddConfigFile ps fName c).state.configFiles = ps.configFiles
        ∧ (AddConfigFile ps fName c).state.groupCfgFiles = ps.groupCfgFiles)
    ∧ ((SetGroupConfigFile ps gName fName c).isPanic = true →
        (SetGroupConfigFile ps gName fName c).state.configFiles = ps.configFiles
        ∧ (SetGroupConfigFile ps gName fName c).state.groupCfgFiles = ps.groupCfgFiles)
    ∧ ((AddGroupConfigFile ps gName fName c).isPanic = true →
        (AddGroupConfigFile ps gName fName c).state.configFiles = ps.configFiles
        ∧ (AddGroupConfigFile ps gName fName c).state.groupCfgFiles = ps.groupCfgFiles) := by
  by_cases h : c = filecheck.Exists.MustNotExist
  · simp [SetConfigFile, AddConfigFile, SetGroupConfigFile, AddGroupConfigFile, h,
      Outcome.isPanic, Outcome.state]
  · simp [SetConfigFile, AddConfigFile, SetGroupConfigFile, AddGroupConfigFile, h,
      Outcome.isPanic]

/-! ## `getParamsFromConfigFile` -/

theorem checkErrors_files (ps : ParamSet) (errors : List Err) (cf : ConfigFileDetails) :
    (checkErrors ps errors cf).configFiles = ps.configFiles
    ∧ (checkErrors ps errors cf).groupCfgFiles = ps.groupCfgFiles := by
  unfold checkErrors
  split
  · split <;> exact ⟨rfl, rfl⟩
  · exact ⟨rfl, rfl⟩

theorem readFiles_spec {ω : Type} (fr : FileReader ω) (desc : String) (gName : Option String) :
    ∀ (cfs : List ConfigFileDetails) (r : Run ω),
      (readFiles fr desc gName cfs r).calls
        = r.calls ++ cfs.map (fun cf => Call.parseFile desc gName cf.Name)
      ∧ (readFiles fr desc gName cfs r).ps.configFiles = r.ps.configFiles
      ∧ (readFiles fr desc gName cfs r).ps.groupCfgFiles = r.ps.groupCfgFiles := by
  intro cfs
  induction cfs with
  | nil => intro r; simp [readFiles]
  | cons cf cfs ih =>
    intro r
    simp only [readFiles]
    obtain ⟨h1, h2, h3⟩ := ih
      { ps := checkErrors { r.ps with
            errors := (fr.Parse desc gName cf.Name (r.world, r.ps.errors)).1.2 }
          (fr.Parse desc gName cf.Name (r.world, r.ps.errors)).2 cf,
        world := (fr.Parse desc gName cf.Name (r.world, r.ps.errors)).1.1,
        calls := r.calls ++ [Call.parseFile desc gName cf.Name] }
    refine ⟨?_, ?_, ?_⟩
    · rw [h1]; simp
    · rw [h2]; exact (checkErrors_files _ _ _).1
    · rw [h3]; exact (checkErrors_files _ _ _).2

theorem readGroupFiles_spec {ω : Type} (fr : FileReader ω) :
    ∀ (groups : List (String × List ConfigFileDetails)) (r : Run ω),
      (readGroupFiles fr groups r).calls
        = r.calls ++ (groups.map (fun g => g.2.map (fun cf =>
            Call.parseFile "group-specific parameter config file" (some g.1) cf.Name))).flatten
      ∧ (readGroupFiles fr groups r).ps.configFiles = r.ps.configFiles
      ∧ (readGroupFiles fr groups r).ps.groupCfgFiles = r.ps.groupCfgFiles := by
  intro groups
  induction groups with
  | nil => intro r; simp [readGroupFiles]
  | cons g groups ih =>
    intro r
    obtain ⟨gName, cfs⟩ := g
    simp only [readGroupFiles]
    obtain ⟨h1, h2, h3⟩ := ih
      (readFiles fr "group-specific parameter config file" (some gName) cfs r)
    obtain ⟨k1, k2, k3⟩ := readFiles_spec fr "group-specific parameter config file"
      (some gName) cfs r
    refine ⟨?_, ?_, ?_⟩
    · rw [h1, k1]; simp
    · rw [h2, k2]
    · rw [h3, k3]

/-- C20: the calls of `Parse` that `getParamsFromConfigFile` makes are, in
this order: for each group in the order the map is visited, the files of the
group one after the other in the order of its list, each with the parser of
that group; then the global files in the order of their list, with the global
parser. The descriptor lists are not changed by the reading, and
`AddConfigFile` and `AddGroupConfigFile` put a file at the end of its list, so
the order of a list is the order in which its files were added. -/
theorem getParamsFromConfigFile_order {ω : Type} (fr : FileReader ω) (r : Run ω) :
    (getParamsFromConfigFile fr r).calls
      = r.calls
        ++ (r.ps.groupCfgFiles.map (fun g => g.2.map (fun cf =>
            Call.parseFile "group-specific parameter config file" (some g.1) cf.Name))).flatten
        ++ r.ps.configFiles.map (fun cf =>
            Call.parseFile "parameter config file" none cf.Name)
    ∧ (getParamsFromConfigFile fr r).ps.configFiles = r.ps.configFiles
    ∧ (getParamsFromConfigFile fr r).ps.groupCfgFiles = r.ps.groupCfgFiles
    ∧ (∀ (ps : ParamSet) (fName : String) (c : filecheck.Exists),
        c ≠ filecheck.Exists.MustNotExist →
        ConfigFiles (AddConfigFile ps fName c).state
          = ConfigFiles ps ++ [{ Name := fName, CfConstraint := c }])
    ∧ (∀ (ps : ParamSet) (gName fName : String) (c : filecheck.Exists),
        c ≠ filecheck.Exists.MustNotExist →
        ConfigFilesForGroup (AddGroupConfigFile ps gName fName c).state gName
          = ConfigFilesForGroup ps gName ++ [{ Name := fName, CfConstraint := c }]) := by
  obtain ⟨h1, h2, h3⟩ := readGroupFiles_spec fr r.ps.groupCfgFiles r
  obtain ⟨k1, k2, k3⟩ := readFiles_spec fr "parameter config file" none
    (readGroupFiles fr r.ps.groupCfgFiles r).ps.configFiles
    (readGroupFiles fr r.ps.groupCfgFiles r)
  refine ⟨?_, ?_, ?_, ?_, ?_⟩
  · simp only [getParamsFromConfigFile]
    rw [k1, h1, h2]
  · simp only [getParamsFromConfigFile]
    rw [k2, h2]
  · simp only [getParamsFromConfigFile]
    rw [k3, h3]
  · intro ps fName c hc
    simp [AddConfigFile, hc, Outcome.state, ConfigFiles]
  · intro ps gName fName c hc
    simp only [AddGroupConfigFile, hc, if_false, Outcome.state, ConfigFilesForGroup]
    exact groupFilesGet_set_self _ _ _

/-! ## The checks of the package `check` -/

/-- C28: `DurationBetween(low, high)` panics exactly when `low >= high`;
otherwise it returns a check that accepts a duration `d` (returns nil) if and
only if `low <= d <= high`, whose error ends in " - too short" when `d < low`
and in " - too long" when `d > high`. -/
theorem DurationBetween_spec (durStr : Int → String) (low high : Int) :
    ((∃ msg, DurationBetween durStr low high = Except.error msg) ↔ low ≥ high)
    ∧ (low < high → ∃ chk : DurationCheck, DurationBetween durStr low high = Except.ok chk
        ∧ ∀ d : Int, (chk d = none ↔ (low ≤ d ∧ d ≤ high))
          ∧ (d < low → chk d = some ("the value (" ++ durStr d ++ ") must be between " ++
              durStr low ++ " and " ++ durStr high ++ " - too short"))
          ∧ (d > high → chk d = some ("the value (" ++ durStr d ++ ") must be between " ++
              durStr low ++ " and " ++ durStr high ++ " - too long"))) := by
  constructor
  · constructor
    · rintro ⟨msg, h⟩
      by_contra hc
      simp [DurationBetween, hc] at h
    · intro h
      exact ⟨_, by unfold DurationBetween; rw [if_pos h]⟩
  · intro hlt
    have hng : ¬ (low ≥ high) := by omega
    refine ⟨_, by unfold DurationBetween; rw [if_neg hng], fun d => ⟨?_, ?_, ?_⟩⟩
    · by_cases h1 : d < low
      · simp only [h1, if_true]
        constructor
        · intro h; cases h
        · intro h; omega
      · by_cases h2 : d > high
        · simp only [h1, if_false, h2, if_true]
          constructor
          · intro h; cases h
          · intro h; omega
        · simp only [h1, if_false, h2]
          constructor
          · intro _; omega
          · intro _; trivial
    · intro h1
      simp only [h1, if_true]
    · intro h2
      have h1 : ¬ (d < low) := by omega
      simp only [h1, if_false, h2, if_true]

theorem stringOrLoop_eq_none_iff (s : String) : ∀ (chks : List StringCheck)
    (acc : String × String),
    stringOrLoop s chks acc = none ↔ ∃ cf ∈ chks, cf s = none := by
  intro chks
  induction chks with
  | nil => intro acc; simp [stringOrLoop]
  | cons cf rest ih =>
    intro acc
    obtain ⟨c, sep⟩ := acc
    simp only [stringOrLoop]
    cases h : cf s with
    | none => simp [h]
    | some err =>
      simp only [ih, List.mem_cons, exists_eq_or_imp, h]
      simp

/-- The check `StringOr` returns nil exactly when one of the checks does. -/
theorem StringOr_eq_none_iff (chks : List StringCheck) (s : String) :
    StringOr chks s = none ↔ ∃ cf ∈ chks, cf s = none := by
  rw [← stringOrLoop_eq_none_iff s chks ("", "(")]
  simp only [StringOr]
  cases stringOrLoop s chks ("", "(") <;> simp

theorem intercalate_go_append (p sep : String) : ∀ (l : List String) (a : String),
    String.intercalate.go (p ++ a) sep l = p ++ String.intercalate.go a sep l := by
  intro l
  induction l with
  | nil => intro a; rfl
  | cons x l ih =>
    intro a
    simp only [String.intercalate.go]
    rw [String.append_assoc p a sep, String.append_assoc p (a ++ sep) x, ih]

theorem stringOrLoop_all_fail (s : String) : ∀ (chks : List StringCheck) (errs : List String)
    (acc : String), chks.map (fun cf => cf s) = errs.map some →
    stringOrLoop s chks (acc, " OR ") = some (String.intercalate.go acc " OR " errs) := by
  intro chks
  induction chks with
  | nil =>
    intro errs acc h
    cases errs with
    | nil => rfl
    | cons e es => simp at h
  | cons cf rest ih =>
    intro errs acc h
    cases errs with
    | nil => simp at h
    | cons e es =>
      simp only [List.map_cons, List.cons.injEq] at h
      obtain ⟨h1, h2⟩ := h
      simp only [stringOrLoop, h1, String.intercalate.go]
      rw [ih es _ h2, String.append_assoc]

/-- When every check of a list that is not empty fails, the check `StringOr`
returns the texts of their errors, in order, separated by " OR " and enclosed
in parentheses. -/
theorem StringOr_all_fail (chks : List StringCheck) (s : String) (errs : List String)
    (hne : chks ≠ []) (h : chks.map (fun cf => cf s) = errs.map some) :
    StringOr chks s = some ("(" ++ " OR ".intercalate errs ++ ")") := by
  cases chks with
  | nil => exact absurd rfl hne
  | cons cf rest =>
    cases errs with
    | nil => simp at h
    | cons e es =>
      simp only [List.map_cons, List.cons.injEq] at h
      obtain ⟨h1, h2⟩ := h
      simp only [StringOr, stringOrLoop, h1]
      rw [stringOrLoop_all_fail s rest es _ h2]
      simp only [String.intercalate]
      have e1 : ("" : String) ++ ("(" ++ e) = "(" ++ e := by simp
      rw [e1, intercalate_go_append]

/-- C29: the check `StringOr` is to enclose the error texts in parentheses for
every list of checks; for the empty list, where no check returns nil, the
text it returns is `)` without an opening parenthesis. On the two lists of the
tests it returns nil, and the two texts separated by " OR " in parentheses. -/
theorem StringOr_empty_list_text :
    StringOr [] "ab" = some ")"
    ∧ StringOr [StringLenGT 2, StringLenGT 3, StringLenLT 3] "a" = none
    ∧ StringOr [StringLenGT 3, StringLenLT 1] "ab"
        = some ("(" ++ "the length of the value (2) must be greater than 3" ++ " OR " ++
            "the length of the value (2) must be less than 1" ++ ")") := by
  decide

/-- C30: the check `StringAnd` returns nil if and only if every check returns
nil, and otherwise returns the error of the first check, in argument order,
that fails. -/
theorem StringAnd_spec (chkFuncs : List StringCheck) (s : String) :
    (StringAnd chkFuncs s = none ↔ ∀ cf ∈ chkFuncs, cf s = none)
    ∧ (∀ (pre post : List StringCheck) (cf : StringCheck) (err : String),
        chkFuncs = pre ++ cf :: post → (∀ c ∈ pre, c s = none) → cf s = some err →
        StringAnd chkFuncs s = some err) := by
  constructor
  · induction chkFuncs with
    | nil => simp [StringAnd]
    | cons cf rest ih =>
      simp only [StringAnd, List.mem_cons, forall_eq_or_imp]
      cases h : cf s with
      | none => simpa using ih
      | some err => simp
  · intro pre
    induction pre generalizing chkFuncs with
    | nil =>
      intro post cf err hc _ hcf
      subst hc
      simp only [List.nil_append, StringAnd, hcf]
    | cons c pre ih =>
      intro post cf err hc hpre hcf
      subst hc
      have hc0 : c s = none := hpre c (List.mem_cons_self _ _)
      simp only [List.cons_append, StringAnd, hc0]
      exact ih (pre ++ cf :: post) post cf err rfl
        (fun c2 h2 => hpre c2 (List.mem_cons_of_mem _ h2)) hcf

/-! ## Sequences of registrations of config files -/

theorem applyOps_append (ops1 : List CfgOp) : ∀ (ps : ParamSet) (ops2 : List CfgOp),
    applyOps ps (ops1 ++ ops2) = (applyOps ps ops1).bind (fun p => applyOps p ops2) := by
  induction ops1 with
  | nil => intro ps ops2; rfl
  | cons op ops1 ih =>
    intro ps ops2
    simp only [List.cons_append, applyOps]
    cases op.apply ps with
    | done ps2 => exact ih ps2 ops2
    | panicked msg s => rfl

/-- One valid call: it does not panic, and what it does to the global list and
to the list of each group. -/
theorem CfgOp.apply_valid (ps : ParamSet) (op : CfgOp)
    (hv : op.constraint ≠ filecheck.Exists.MustNotExist) :
    ∃ ps2, op.apply ps = Outcome.done ps2
      ∧ (op.isGlobalSet = false → ConfigFiles ps2 = ConfigFiles ps ++ globalAdds [op])
      ∧ (op.isGlobalSet = true →
          ∃ fName c, op = CfgOp.SetConfigFile fName c
            ∧ ConfigFiles ps2 = [{ Name := fName, CfConstraint := c }])
      ∧ (∀ g, op.isGroupSet g = false →
          ConfigFilesForGroup ps2 g = ConfigFilesForGroup ps g ++ groupAdds g [op])
      ∧ (∀ g, op.isGroupSet g = true →
          ∃ fName c, op = CfgOp.SetGroupConfigFile g fName c
            ∧ ConfigFilesForGroup ps2 g = [{ Name := fName, CfConstraint := c }]) := by
  cases op with
  | SetConfigFile fName c =>
    have hc : c ≠ filecheck.Exists.MustNotExist := hv
    refine ⟨_, by simp only [CfgOp.apply, Golem.SetConfigFile, hc, if_false]; rfl, ?_, ?_, ?_, ?_⟩
    · intro h; simp [CfgOp.isGlobalSet] at h
    · intro _; exact ⟨fName, c, rfl, rfl⟩
    · intro g _; simp [ConfigFilesForGroup, groupAdds]
    · intro g h; simp [CfgOp.isGroupSet] at h
  | AddConfigFile fName c =>
    have hc : c ≠ filecheck.Exists.MustNotExist := hv
    refine ⟨_, by simp only [CfgOp.apply, Golem.AddConfigFile, hc, if_false]; rfl, ?_, ?_, ?_, ?_⟩
    · intro _; simp [ConfigFiles, globalAdds]
    · intro h; simp [CfgOp.isGlobalSet] at h
    · intro g _; simp [ConfigFilesForGroup, groupAdds]
    · intro g h; simp [CfgOp.isGroupSet] at h
  | SetGroupConfigFile gName fName c =>
    have hc : c ≠ filecheck.Exists.MustNotExist := hv
    refine ⟨_, by simp only [CfgOp.apply, Golem.SetGroupConfigFile, hc, if_false]; rfl,
      ?_, ?_, ?_, ?_⟩
    · intro _; simp [ConfigFiles, globalAdds]
    · intro h; simp [CfgOp.isGlobalSet] at h
    · intro g h
      have hg : ¬ gName = g := by simpa [CfgOp.isGroupSet] using h
      simp only [ConfigFilesForGroup, groupAdds, List.append_nil]
      exact groupFilesGet_set_other _ _ _ _ (fun e => hg e.symm)
    · intro g h
      have hg : gName = g := by simpa [CfgOp.isGroupSet] using h
      subst hg
      exact ⟨fName, c, rfl, groupFilesGet_set_self _ _ _⟩
  | AddGroupConfigFile gName fName c =>
    have hc : c ≠ filecheck.Exists.MustNotExist := hv
    refine ⟨_, by simp only [CfgOp.apply, Golem.AddGroupConfigFile, hc, if_false]; rfl,
      ?_, ?_, ?_, ?_⟩
    · intro _; simp [ConfigFiles, globalAdds]
    · intro h; simp [CfgOp.isGlobalSet] at h
    · intro g _
      simp only [ConfigFilesForGroup, groupAdds]
      by_cases hg : gName = g
      · subst hg
        simp [groupFilesGet_set_self]
      · simp only [hg, if_false, List.append_nil]
        exact groupFilesGet_set_other _ _ _ _ (fun e => hg e.symm)
    · intro g h; simp [CfgOp.isGroupSet] at h

theorem globalAdds_cons (op : CfgOp) (ops : List CfgOp) :
    globalAdds (op :: ops) = globalAdds [op] ++ globalAdds ops := by
  cases op <;> simp [globalAdds]

theorem groupAdds_cons (g : String) (op : CfgOp) (ops : List CfgOp) :
    groupAdds g (op :: ops) = groupAdds g [op] ++ groupAdds g ops := by
  cases op <;> simp [groupAdds]
  split <;> simp

/-- Valid calls without a `SetConfigFile` among them add to the global list. -/
theorem applyOps_global_adds : ∀ (ops : List CfgOp) (ps : ParamSet),
    (∀ op ∈ ops, op.constraint ≠ filecheck.Exists.MustNotExist) →
    (∀ op ∈ ops, op.isGlobalSet = false) →
    ∃ ps2, applyOps ps ops = some ps2 ∧ ConfigFiles ps2 = ConfigFiles ps ++ globalAdds ops := by
  intro ops
  induction ops with
  | nil => intro ps _ _; exact ⟨ps, rfl, by simp [globalAdds]⟩
  | cons op ops ih =>
    intro ps hv hn
    obtain ⟨ps1, h1, h2, _, _, _⟩ := CfgOp.apply_valid ps op (hv op (List.mem_cons_self _ _))
    obtain ⟨ps2, k1, k2⟩ := ih ps1 (fun o ho => hv o (List.mem_cons_of_mem _ ho))
      (fun o ho => hn o (List.mem_cons_of_mem _ ho))
    refine ⟨ps2, by simp only [applyOps, h1]; exact k1, ?_⟩
    have hf : op.isGlobalSet = false := hn op (List.mem_cons_self _ _)
    rw [k2, h2 hf, globalAdds_cons op ops, List.append_assoc]

/-- Valid calls without a `SetGroupConfigFile` for the group among them add to
the list of the group. -/
theorem applyOps_group_adds (g : String) : ∀ (ops : List CfgOp) (ps : ParamSet),
    (∀ op ∈ ops, op.constraint ≠ filecheck.Exists.MustNotExist) →
    (∀ op ∈ ops, op.isGroupSet g = false) →
    ∃ ps2, applyOps ps ops = some ps2
      ∧ ConfigFilesForGroup ps2 g = ConfigFilesForGroup ps g ++ groupAdds g ops := by
  intro ops
  induction ops with
  | nil => intro ps _ _; exact ⟨ps, rfl, by simp [groupAdds]⟩
  | cons op ops ih =>
    intro ps hv hn
    obtain ⟨ps1, h1, _, _, h2, _⟩ := CfgOp.apply_valid ps op (hv op (List.mem_cons_self _ _))
    obtain ⟨ps2, k1, k2⟩ := ih ps1 (fun o ho => hv o (List.mem_cons_of_mem _ ho))
      (fun o ho => hn o (List.mem_cons_of_mem _ ho))
    refine ⟨ps2, by simp only [applyOps, h1]; exact k1, ?_⟩
    have hf : op.isGroupSet g = false := hn op (List.mem_cons_self _ _)
    rw [k2, h2 g hf, groupAdds_cons g op ops, List.append_assoc]

theorem applyOps_valid : ∀ (ops : List CfgOp) (ps : ParamSet),
    (∀ op ∈ ops, op.constraint ≠ filecheck.Exists.MustNotExist) →
    ∃ ps2, applyOps ps ops = some ps2 := by
  intro ops
  induction ops with
  | nil => intro ps _; exact ⟨ps, rfl⟩
  | cons op ops ih =>
    intro ps hv
    obtain ⟨ps1, h1, _⟩ := CfgOp.apply_valid ps op (hv op (List.mem_cons_self _ _))
    obtain ⟨ps2, k1⟩ := ih ps1 (fun o ho => hv o (List.mem_cons_of_mem _ ho))
    exact ⟨ps2, by simp only [applyOps, h1]; exact k1⟩

/-- C21: a sequence of calls of `SetConfigFile`, `AddConfigFile`,
`SetGroupConfigFile` and `AddGroupConfigFile` with valid constraints does not
panic, and afterwards `ConfigFiles()` is the descriptor of the last
`SetConfigFile` followed by those of the later `AddConfigFile` calls, in call
order, or the list held before followed by all the `AddConfigFile`
descriptors when there is no `SetConfigFile`; the same holds for
`ConfigFilesForGroup(g)` with the calls for the group `g`, so calls for a
group change neither the global list nor the list of another group; and
`ConfigFilesForGroup` of a group with no entry is the empty list. -/
theorem config_files_after_calls (ps : ParamSet) (ops : List CfgOp)
    (hv : ∀ op ∈ ops, op.constraint ≠ filecheck.Exists.MustNotExist) :
    ∃ ps2, applyOps ps ops = some ps2
      ∧ ((∀ op ∈ ops, op.isGlobalSet = false) →
          ConfigFiles ps2 = ConfigFiles ps ++ globalAdds ops)
      ∧ (∀ (pre post : List CfgOp) (fName : String) (c : filecheck.Exists),
          ops = pre ++ CfgOp.SetConfigFile fName c :: post →
          (∀ op ∈ post, op.isGlobalSet = false) →
          ConfigFiles ps2 = { Name := fName, CfConstraint := c } :: globalAdds post)
      ∧ (∀ g : String, (∀ op ∈ ops, op.isGroupSet g = false) →
          ConfigFilesForGroup ps2 g = ConfigFilesForGroup ps g ++ groupAdds g ops)
      ∧ (∀ (g : String) (pre post : List CfgOp) (fName : String) (c : filecheck.Exists),
          ops = pre ++ CfgOp.SetGroupConfigFile g fName c :: post →
          (∀ op ∈ post, op.isGroupSet g = false) →
          ConfigFilesForGroup ps2 g = { Name := fName, CfConstraint := c } :: groupAdds g post)
      ∧ (∀ g : String, ps.groupCfgFiles.lookup g = none → ConfigFilesForGroup ps g = [])
      ∧ (∀ g : String, ConfigFilesForGroup {} g = []) := by
  obtain ⟨ps2, hps2⟩ := applyOps_valid ops ps hv
  refine ⟨ps2, hps2, ?_, ?_, ?_, ?_, ?_, ?_⟩
  · intro hn
    obtain ⟨ps3, h1, h2⟩ := applyOps_global_adds ops ps hv hn
    rw [hps2] at h1
    cases h1
    exact h2
  · intro pre post fName c hops hn
    subst hops
    have hvpre : ∀ op ∈ pre, op.constraint ≠ filecheck.Exists.MustNotExist :=
      fun o ho => hv o (List.mem_append_left _ ho)
    have hvset : (CfgOp.SetConfigFile fName c).constraint ≠ filecheck.Exists.MustNotExist :=
      hv _ (List.mem_append_right _ (List.mem_cons_self _ _))
    have hvpost : ∀ op ∈ post, op.constraint ≠ filecheck.Exists.MustNotExist :=
      fun o ho => hv o (List.mem_append_right _ (List.mem_cons_of_mem _ ho))
    obtain ⟨psa, ha⟩ := applyOps_valid pre ps hvpre
    obtain ⟨psb, hb1, _, hb3, _, _⟩ := CfgOp.apply_valid psa _ hvset
    obtain ⟨f2, c2, he, hb⟩ := hb3 rfl
    cases he
    obtain ⟨psc, hc1, hc2⟩ := applyOps_global_adds post psb hvpost hn
    rw [applyOps_append, ha] at hps2
    simp only [Option.bind, applyOps, hb1, hc1] at hps2
    cases hps2
    rw [hc2, hb]
    rfl
  · intro g hn
    obtain ⟨ps3, h1, h2⟩ := applyOps_group_adds g ops ps hv hn
    rw [hps2] at h1
    cases h1
    exact h2
  · intro g pre post fName c hops hn
    subst hops
    have hvpre : ∀ op ∈ pre, op.constraint ≠ filecheck.Exists.MustNotExist :=
      fun o ho => hv o (List.mem_append_left _ ho)
    have hvset : (CfgOp.SetGroupConfigFile g fName c).constraint
        ≠ filecheck.Exists.MustNotExist :=
      hv _ (List.mem_append_right _ (List.mem_cons_self _ _))
    have hvpost : ∀ op ∈ post, op.constraint ≠ filecheck.Exists.MustNotExist :=
      fun o ho => hv o (List.mem_append_right _ (List.mem_cons_of_mem _ ho))
    obtain ⟨psa, ha⟩ := applyOps_valid pre ps hvpre
    obtain ⟨psb, hb1, _, _, _, hb5⟩ := CfgOp.apply_valid psa _ hvset
    obtain ⟨f2, c2, he, hb⟩ := hb5 g (by simp [CfgOp.isGroupSet])
    cases he
    obtain ⟨psc, hc1, hc2⟩ := applyOps_group_adds g post psb hvpost hn
    rw [applyOps_append, ha] at hps2
    simp only [Option.bind, applyOps, hb1, hc1] at hps2
    cases hps2
    rw [hc2, hb]
    rfl
  · intro g hg
    simp [ConfigFilesForGroup, groupFilesGet, hg]
  · intro g
    rfl

/-- Witness of C21: the calls of the test of the config files, with a call for
a group among them. -/
theorem config_files_after_calls_witness :
    ∃ ps2, applyOps {} [CfgOp.SetConfigFile "a" filecheck.Exists.MustExist,
        CfgOp.AddConfigFile "b" filecheck.Exists.MustExist,
        CfgOp.AddGroupConfigFile "g" "x" filecheck.Exists.Optional,
        CfgOp.AddConfigFile "c" filecheck.Exists.Optional] = some ps2
      ∧ ConfigFiles ps2 = { Name := "a", CfConstraint := filecheck.Exists.MustExist }
          :: globalAdds [CfgOp.AddConfigFile "b" filecheck.Exists.MustExist,
              CfgOp.AddGroupConfigFile "g" "x" filecheck.Exists.Optional,
              CfgOp.AddConfigFile "c" filecheck.Exists.Optional] := by
  obtain ⟨ps2, h1, _, h3, _⟩ := config_files_after_calls {}
    [CfgOp.SetConfigFile "a" filecheck.Exists.MustExist,
      CfgOp.AddConfigFile "b" filecheck.Exists.MustExist,
      CfgOp.AddGroupConfigFile "g" "x" filecheck.Exists.Optional,
      CfgOp.AddConfigFile "c" filecheck.Exists.Optional] (by decide)
  exact ⟨ps2, h1, h3 [] _ "a" filecheck.Exists.MustExist rfl (by decide)⟩

/-! ## The text of the error for missing positional parameters -/

theorem byPosNames_sep : ∀ (bps : List ByPos) (acc : String),
    (byPosNames bps (acc, ">, <")).1 ++ ">"
      = String.intercalate.go (acc ++ ">") ", " (bps.map (fun bp => "<" ++ bp.name ++ ">")) := by
  intro bps
  induction bps with
  | nil => intro acc; rfl
  | cons bp bps ih =>
    intro acc
    simp only [byPosNames, List.map_cons, String.intercalate.go]
    rw [ih]
    congr 1
    have h : (">, <" : String) = ">" ++ (", " ++ "<") := by decide
    rw [h]
    simp only [String.append_assoc]

theorem byPosNames_eq_intercalate (bps : List ByPos) (hne : bps ≠ []) (intro : String) :
    (byPosNames bps (intro, "<")).1 ++ ">"
      = intro ++ ", ".intercalate (bps.map (fun bp => "<" ++ bp.name ++ ">")) := by
  cases bps with
  | nil => exact absurd rfl hne
  | cons bp bps =>
    simp only [byPosNames, List.map_cons, String.intercalate]
    rw [byPosNames_sep, String.append_assoc intro "<" bp.name,
      String.append_assoc intro ("<" ++ bp.name) ">", intercalate_go_append]

theorem byPosMiniHelp_eq (ps : ParamSet) (hne : ps.byPos ≠ []) :
    byPosMiniHelp ps
      = "The first"
        ++ ((if ps.byPos.length = 1 then " parameter should be: "
            else " " ++ toString ps.byPos.length ++ " parameters should be: ")
          ++ ", ".intercalate (ps.byPos.map (fun bp => "<" ++ bp.name ++ ">"))) := by
  unfold byPosMiniHelp
  match hps : ps.byPos with
  | [] => exact absurd hps hne
  | [bp] =>
    simp only [List.length_singleton, if_true, List.map_cons, List.map_nil, String.intercalate,
      String.intercalate.go]
    have h : (" parameter should be: <" : String) = " parameter should be: " ++ "<" := by decide
    rw [h]
    simp only [String.append_assoc]
  | bp :: bp2 :: bps =>
    have hlen : ¬ (bp :: bp2 :: bps).length = 1 := by simp
    simp only [hlen, if_false]
    rw [byPosNames_eq_intercalate _ (by simp), String.append_assoc]

/-- C25: the error of `reportMissingParams`, appended under the empty key, has
the singular phrasing exactly when `missingCount` is 1 and otherwise the
plural phrasing carrying `missingCount`; in both cases the text goes on with
the names of all the positional parameters, in declared order, each once and
in angle brackets, separated by ", ". -/
theorem missingParamsErr_text (ps : ParamSet) (missingCount : Int) (hne : ps.byPos ≠ []) :
    (reportMissingParams ps missingCount).errors ""
        = ps.errors "" ++ [missingParamsErr ps missingCount]
      ∧ missingParamsErr ps missingCount
        = Err.plain
          ((if missingCount = 1 then
              "A parameter is missing, one more positional parameter is needed. "
            else
              "Some parameters are missing, " ++ toString missingCount
                ++ " more positional parameters are needed. ")
            ++ ("The first"
              ++ ((if ps.byPos.length = 1 then " parameter should be: "
                  else " " ++ toString ps.byPos.length ++ " parameters should be: ")
                ++ ", ".intercalate (ps.byPos.map (fun bp => "<" ++ bp.name ++ ">"))))) := by
  refine ⟨by simp [reportMissingParams, ErrMap.append], ?_⟩
  unfold missingParamsErr
  rw [byPosMiniHelp_eq ps hne]
  by_cases h1 : missingCount = 1
  · simp only [h1, if_true]
    have h : ("A parameter is missing," ++ " one more positional parameter is needed. " : String)
        = "A parameter is missing, one more positional parameter is needed. " := by decide
    rw [h]
  · simp only [h1, if_false]
    have h : ("Some parameters are missing," ++ " " : String)
        = "Some parameters are missing, " := by decide
    rw [h]

/-- Witness of C25: two positional parameters and one token given. -/
theorem missingParamsErr_text_witness :
    missingParamsErr { byPos := [{ name := "from" }, { name := "to" }] } 1
      = Err.plain ("A parameter is missing, one more positional parameter is needed. "
          ++ "The first 2 parameters should be: <from>, <to>")
    ∧ missingParamsErr { byPos := [{ name := "from" }, { name := "to" }] } 2
      = Err.plain ("Some parameters are missing, 2 more positional parameters are needed. "
          ++ "The first 2 parameters should be: <from>, <to>") :=
  ⟨((missingParamsErr_text { byPos := [{ name := "from" }, { name := "to" }] } 1
      (by decide)).2).trans (by decide),
   ((missingParamsErr_text { byPos := [{ name := "from" }, { name := "to" }] } 2
      (by decide)).2).trans (by decide)⟩

/-! ## The changes of the command-line pass, one by one -/

theorem drop_cons_getElem? (params : List String) (n : Nat) (t : String) (rest : List String)
    (h : params.drop n = t :: rest) : params[n]? = some t ∧ params.drop (n + 1) = rest := by
  constructor
  · have h0 : (params.drop n)[0]? = params[n + 0]? := List.getElem?_drop params n 0
    rw [h] at h0
    simpa using h0.symm
  · have := List.drop_drop 1 n params
    rw [h] at this
    simpa [Nat.add_comm] using this.symm

/-- The named loop on the tokens from the index `loc.idx` on is a sequence of
changes. -/
theorem namedLoop_trace {ω : Type} (env : Env ω) (source : String) (params : List String) :
    ∀ (n : Nat) (toks : List String) (loc : Loc) (r : Run ω), toks.length ≤ n →
      params.drop loc.idx = toks →
      ∃ m, Relation.ReflTransGen (PassStep env source params) (loc.idx, r)
        (m, namedLoop env source toks loc r) := by
  intro n
  induction n with
  | zero =>
    intro toks loc r hn _
    have : toks = [] := List.length_eq_zero.mp (by omega)
    subst this
    exact ⟨loc.idx, Relation.ReflTransGen.refl⟩
  | succ n ih =>
    intro toks loc r hn hd
    cases toks with
    | nil => exact ⟨loc.idx, Relation.ReflTransGen.refl⟩
    | cons t rest =>
      obtain ⟨hget, hrest⟩ := drop_cons_getElem? params loc.idx t rest hd
      have hlen : rest.length ≤ n := by simpa using hn
      by_cases hs : t = r.ps.terminalParam
      · subst hs
        rw [namedLoop_sentinel]
        exact ⟨loc.idx, Relation.ReflTransGen.single
          (PassStep.remainder loc.idx loc.idx r rest (le_refl _))⟩
      · rcases htrim : trimParam ((SplitN2 t '=').headD "") with ⟨nm, _ | err⟩
        · cases hlook : r.ps.nameToParam.lookup nm with
          | none =>
            rw [namedLoop_unexpected env source t rest loc r nm hs htrim hlook]
            obtain ⟨m, hm⟩ := ih rest ((loc.Incr).SetContent t)
              (r.call (env.recordUnexpectedParam nm ((loc.Incr).SetContent t))
                (Call.unexpected nm ((loc.Incr).SetContent t))) hlen hrest
            exact ⟨m, Relation.ReflTransGen.head
              (PassStep.unexpected loc.idx r t nm ((loc.Incr).SetContent t) hget rfl rfl) hm⟩
          | some p =>
            by_cases hyes : p.valueReq = ValueReq.Mandatory ∧ (SplitN2 t '=').length = 1
            · cases rest with
              | nil =>
                rw [namedLoop_lookahead_last env source t loc r nm p hs htrim hlook hyes]
                exact ⟨loc.idx + 1, Relation.ReflTransGen.single
                  (PassStep.byName loc.idx r t p ((loc.Incr).SetContent t) hget rfl rfl)⟩
              | cons v rest2 =>
                obtain ⟨hget2, hrest2⟩ := drop_cons_getElem? params (loc.idx + 1) v rest2 hrest
                have hlen2 : rest2.length ≤ n := by
                  simp only [List.length_cons] at hlen; omega
                rw [namedLoop_lookahead env source t v rest2 loc r nm p hs htrim hlook hyes]
                obtain ⟨m, hm⟩ := ih rest2
                  ((((loc.Incr).SetContent t).Incr).SetContent (t ++ " " ++ v))
                  (r.call (env.processParamByName p source
                      ((((loc.Incr).SetContent t).Incr).SetContent (t ++ " " ++ v))
                      (SplitN2 t '=' ++ [v]))
                    (Call.byName p source
                      ((((loc.Incr).SetContent t).Incr).SetContent (t ++ " " ++ v))
                      (SplitN2 t '=' ++ [v]))) hlen2 hrest2
                exact ⟨m, Relation.ReflTransGen.head
                  (PassStep.byNameNext loc.idx r t v p
                    ((((loc.Incr).SetContent t).Incr).SetContent (t ++ " " ++ v))
                    hget hget2 rfl rfl) hm⟩
            · rw [namedLoop_dispatch env source t rest loc r nm p hs htrim hlook hyes]
              obtain ⟨m, hm⟩ := ih rest ((loc.Incr).SetContent t)
                (r.call (env.processParamByName p source ((loc.Incr).SetContent t)
                    (SplitN2 t '='))
                  (Call.byName p source ((loc.Incr).SetContent t) (SplitN2 t '='))) hlen hrest
              exact ⟨m, Relation.ReflTransGen.head
                (PassStep.byName loc.idx r t p ((loc.Incr).SetContent t) hget rfl rfl) hm⟩
        · rw [namedLoop_syntax_error env source t rest loc r nm err hs htrim]
          obtain ⟨m, hm⟩ := ih rest ((loc.Incr).SetContent t)
            (r.addErr nm (Err.located ((loc.Incr).SetContent t) err)) hlen hrest
          exact ⟨m, Relation.ReflTransGen.head
            (PassStep.syntaxError loc.idx r t nm err ((loc.Incr).SetContent t) hget rfl rfl
              htrim) hm⟩

/-- The positional loop returns when there is a token for each parameter. -/
theorem positionalLoop_returns {ω : Type} (env : Env ω) (source : String)
    (params : List String) :
    ∀ (pps : List ByPos) (i : Nat) (loc : Loc) (r : Run ω), i + pps.length ≤ params.length →
      ∃ res, positionalLoop env source params pps i loc r = some res := by
  intro pps
  induction pps with
  | nil => intro i loc r _; exact ⟨_, rfl⟩
  | cons pp pps ih =>
    intro i loc r hlen
    simp only [List.length_cons] at hlen
    have hi : i < params.length := by omega
    simp only [positionalLoop, List.getElem?_eq_getElem hi]
    by_cases ht : pp.isTerminal = true
    · simp only [ht, if_true]
      exact ⟨_, rfl⟩
    · simp only [ht, Bool.false_eq_true, if_false]
      exact ih (i + 1) _ _ (by omega)

/-- The positional loop is a sequence of changes; when it does not return from
inside, the sequence number has advanced by the number of parameters. -/
theorem positionalLoop_trace {ω : Type} (env : Env ω) (source : String)
    (params : List String) :
    ∀ (pps : List ByPos) (i : Nat) (loc : Loc) (r : Run ω) (loc1 : Loc) (r1 : Run ω) (b : Bool),
      loc.idx = i →
      positionalLoop env source params pps i loc r = some (loc1, r1, b) →
      (∃ m, Relation.ReflTransGen (PassStep env source params) (i, r) (m, r1))
      ∧ (b = false → loc1.idx = i + pps.length
          ∧ Relation.ReflTransGen (PassStep env source params) (i, r) (loc1.idx, r1)) := by
  intro pps
  induction pps with
  | nil =>
    intro i loc r loc1 r1 b hi h
    simp only [positionalLoop, Option.some.injEq, Prod.mk.injEq] at h
    obtain ⟨h1, h2, _⟩ := h
    subst h1 h2
    refine ⟨⟨i, Relation.ReflTransGen.refl⟩, fun _ => ⟨by simpa using hi, ?_⟩⟩
    rw [hi]
  | cons pp pps ih =>
    intro i loc r loc1 r1 b hi h
    simp only [positionalLoop] at h
    cases hget : params[i]? with
    | none => rw [hget] at h; cases h
    | some pStr =>
      rw [hget] at h
      simp only at h
      have hstep : PassStep env source params (i, r)
          (i + 1, r.call (env.processParamByPos pp source ((loc.Incr).SetContent pStr) pStr)
            (Call.byPos pp source ((loc.Incr).SetContent pStr) pStr)) :=
        PassStep.byPos i r pp ((loc.Incr).SetContent pStr) pStr hget
          (by simp [Loc.Incr, Loc.SetContent, hi]) rfl
      by_cases ht : pp.isTerminal = true
      · simp only [ht, if_true, Option.some.injEq, Prod.mk.injEq] at h
        obtain ⟨_, h2, h3⟩ := h
        subst h2
        refine ⟨⟨i + 1, Relation.ReflTransGen.head hstep
          (Relation.ReflTransGen.single (PassStep.remainder (i + 1) (i + 1) _ _ (le_refl _)))⟩,
          fun hb => ?_⟩
        rw [hb] at h3
        cases h3
      · simp only [ht, Bool.false_eq_true, if_false] at h
        obtain ⟨⟨m, hm⟩, h2⟩ := ih (i + 1) _ _ loc1 r1 b
          (by simp [Loc.Incr, Loc.SetContent, hi]) h
        refine ⟨⟨m, Relation.ReflTransGen.head hstep hm⟩, fun hb => ?_⟩
        obtain ⟨k1, k2⟩ := h2 hb
        refine ⟨by rw [k1, List.length_cons]; omega, Relation.ReflTransGen.head hstep k2⟩

/-- The function `getParamsFromStringSlice` returns. -/
theorem getParams_returns {ω : Type} (env : Env ω) (source : String) (params : List String)
    (r : Run ω) : ∃ r2, getParamsFromStringSlice env source params r = some r2 := by
  unfold getParamsFromStringSlice
  by_cases hpos : r.ps.byPos.length > 0
  · simp only [hpos, if_true]
    by_cases hm : (r.ps.byPos.length : Int) - (params.length : Int) > 0
    · simp only [hm, if_true]
      exact ⟨_, rfl⟩
    · simp only [hm, if_false]
      obtain ⟨⟨loc1, r1, b⟩, hres⟩ := positionalLoop_returns env source params r.ps.byPos 0
        (Loc.New source) r (by omega)
      rw [hres]
      cases b
      · exact ⟨_, rfl⟩
      · exact ⟨_, rfl⟩
  · simp only [hpos, if_false]
    exact ⟨_, rfl⟩

/-- The function `getParamsFromStringSlice` is a sequence of changes. -/
theorem getParams_trace {ω : Type} (env : Env ω) (source : String) (params : List String)
    (r r2 : Run ω) (h : getParamsFromStringSlice env source params r = some r2) :
    ∃ m, Relation.ReflTransGen (PassStep env source params) (0, r) (m, r2) := by
  unfold getParamsFromStringSlice at h
  by_cases hpos : r.ps.byPos.length > 0
  · simp only [hpos, if_true] at h
    by_cases hm : (r.ps.byPos.length : Int) - (params.length : Int) > 0
    · simp only [hm, if_true, Option.some.injEq] at h
      subst h
      exact ⟨0, Relation.ReflTransGen.single (PassStep.missing r _)⟩
    · simp only [hm, if_false] at h
      cases hres : positionalLoop env source params r.ps.byPos 0 (Loc.New source) r with
      | none => rw [hres] at h; cases h
      | some res =>
        obtain ⟨loc1, r1, b⟩ := res
        rw [hres] at h
        obtain ⟨⟨m, hm1⟩, h2⟩ := positionalLoop_trace env source params r.ps.byPos 0
          (Loc.New source) r loc1 r1 b rfl hres
        cases b with
        | true =>
          simp only [Option.some.injEq] at h
          subst h
          exact ⟨m, hm1⟩
        | false =>
          simp only [Option.some.injEq] at h
          subst h
          obtain ⟨k1, k2⟩ := h2 rfl
          obtain ⟨m2, hm2⟩ := namedLoop_trace env source params _
            (params.drop r.ps.byPos.length) loc1 r1 (le_refl _)
            (by rw [k1, Nat.zero_add])
          exact ⟨m2, k2.trans hm2⟩
  · simp only [hpos, if_false] at h
    simp only [Option.some.injEq] at h
    subst h
    have h0 : r.ps.byPos.length = 0 := by omega
    obtain ⟨m2, hm2⟩ := namedLoop_trace env source params _
      (params.drop r.ps.byPos.length) (Loc.New source) r (le_refl _)
      (by rw [h0]; rfl)
    exact ⟨m2, hm2⟩

/-! ## Recording is append-only -/

theorem ErrMap.extends_refl (m : ErrMap) : ErrMap.Extends m m :=
  fun _ => List.prefix_refl _

theorem ErrMap.extends_trans {m1 m2 m3 : ErrMap} (h1 : ErrMap.Extends m1 m2)
    (h2 : ErrMap.Extends m2 m3) : ErrMap.Extends m1 m3 :=
  fun k => (h1 k).trans (h2 k)

theorem ErrMap.extends_append (m : ErrMap) (k : String) (es : List Err) :
    ErrMap.Extends m (m.append k es) := by
  intro k2
  unfold ErrMap.append
  split
  · exact List.prefix_append _ _
  · exact List.prefix_refl _

theorem checkErrors_appends (ps : ParamSet) (errors : List Err) (cf : ConfigFileDetails) :
    ErrMap.Extends ps.errors (checkErrors ps errors cf).errors := by
  unfold checkErrors
  split
  · split
    · exact ErrMap.extends_refl _
    · exact ErrMap.extends_append _ _ _
  · exact ErrMap.extends_refl _

theorem PassStep_appends {ω : Type} (env : Env ω) (source : String) (params : List String)
    (henv : env.AppendOnly) (a b : Nat × Run ω) (h : PassStep env source params a b) :
    ErrMap.Extends a.2.ps.errors b.2.ps.errors := by
  cases h with
  | missing r k => exact ErrMap.extends_append _ _ _
  | remainder n m r rest _ => exact ErrMap.extends_refl _
  | byPos n r pp loc v _ _ _ => exact henv.1 pp source loc v r.world r.ps.errors
  | syntaxError n r pStr nm err loc _ _ _ _ => exact ErrMap.extends_append _ _ _
  | byName n r pStr p loc _ _ _ => exact henv.2.1 p source loc _ r.world r.ps.errors
  | byNameNext n r pStr v p loc _ _ _ _ => exact henv.2.1 p source loc _ r.world r.ps.errors
  | unexpected n r pStr nm loc _ _ _ => exact henv.2.2 nm loc r.world r.ps.errors

theorem trace_appends {ω : Type} (env : Env ω) (source : String) (params : List String)
    (henv : env.AppendOnly) (a b : Nat × Run ω)
    (h : Relation.ReflTransGen (PassStep env source params) a b) :
    ErrMap.Extends a.2.ps.errors b.2.ps.errors := by
  induction h with
  | refl => exact ErrMap.extends_refl _
  | tail _ hbc ih => exact ErrMap.extends_trans ih (PassStep_appends env source params henv _ _ hbc)

/-- C22: recording is append-only. For every error key, the list of errors
held before a call of `reportMissingParams`, of `checkErrors` or of
`getParamsFromStringSlice` is a prefix of the list held after it, the outside
calls made by `getParamsFromStringSlice` being append-only themselves; and
`getParamsFromStringSlice` returns. -/
theorem recording_append_only {ω : Type} (env : Env ω) (source : String)
    (params : List String) (r : Run ω) (henv : env.AppendOnly) :
    (∀ (missingCount : Int) (key : String),
      r.ps.errors key <+: (reportMissingParams r.ps missingCount).errors key)
    ∧ (∀ (errors : List Err) (cf : ConfigFileDetails) (key : String),
      r.ps.errors key <+: (checkErrors r.ps errors cf).errors key)
    ∧ ∃ r2, getParamsFromStringSlice env source params r = some r2
        ∧ ∀ key : String, r.ps.errors key <+: r2.ps.errors key := by
  refine ⟨fun k key => ErrMap.extends_append _ _ _ key,
    fun errors cf key => checkErrors_appends _ _ _ key, ?_⟩
  obtain ⟨r2, h2⟩ := getParams_returns env source params r
  obtain ⟨m, hm⟩ := getParams_trace env source params r r2 h2
  exact ⟨r2, h2, fun key => trace_appends env source params henv _ _ hm key⟩

theorem reportingEnv_appendOnly : reportingEnv.AppendOnly :=
  ⟨fun _ _ _ _ _ m => ErrMap.extends_refl m, fun _ _ _ _ _ m => ErrMap.extends_refl m,
    fun nm _ _ m => ErrMap.extends_append m nm _⟩

/-- Witness of C22: a token without a dash and a name that is not registered,
with an error already held under the name. -/
theorem recording_append_only_witness :
    ∃ r2, getParamsFromStringSlice reportingEnv "cmd" ["verbos", "-x", "-x"]
        { ps := { nameToParam := [("verbose", { name := "verbose" })],
                  errors := fun k => if k = "x" then [Err.plain "before"] else [] },
          world := () } = some r2
      ∧ ∀ key : String,
          (if key = "x" then [Err.plain "before"] else []) <+: r2.ps.errors key :=
  (recording_append_only reportingEnv "cmd" ["verbos", "-x", "-x"]
    { ps := { nameToParam := [("verbose", { name := "verbose" })],
              errors := fun k => if k = "x" then [Err.plain "before"] else [] },
      world := () } reportingEnv_appendOnly).2.2

/-! ## The keys of the errors -/

theorem trimParam_error (p nm err : String) (h : trimParam p = (nm, some err)) :
    nm = p ∧ p.data.head? ≠ some '-' := by
  by_cases hd : p.data.head? = some '-'
  · exfalso
    cases hp : p.data with
    | nil => rw [hp] at hd; simp at hd
    | cons c cs =>
      rw [hp] at hd
      have hc : c = '-' := by simpa using hd
      subst hc
      by_cases h2 : cs.head? = some '-'
      · cases hcs : cs with
        | nil => rw [hcs] at h2; simp at h2
        | cons c2 cs2 =>
          rw [hcs] at h2
          have hc2 : c2 = '-' := by simpa using h2
          subst hc2
          rw [trimParam_double_dash p cs2 (by rw [hp, hcs])] at h
          simp at h
      · rw [trimParam_single_dash p cs hp h2] at h
        simp at h
  · rw [trimParam_no_dash p hd] at h
    simp only [Prod.mk.injEq] at h
    exact ⟨h.1.symm, hd⟩

theorem checkErrors_other_key (ps : ParamSet) (errors : List Err) (cf : ConfigFileDetails)
    (key : String) (hk : key ≠ "config file: " ++ cf.Name) :
    (checkErrors ps errors cf).errors key = ps.errors key := by
  unfold checkErrors
  split
  · split
    · rfl
    · simp [ErrMap.append, hk]
  · rfl

theorem PassStep_keys {ω : Type} (env : Env ω) (source : String) (params : List String)
    (allowed : String → Prop) (henv : env.RecordsUnder allowed) (key : String)
    (hkey : ¬ allowed key) (hne : key ≠ "")
    (hsyn : ∀ t ∈ params, ¬ ((SplitN2 t '=').headD "" = key ∧ key.data.head? ≠ some '-'))
    (a b : Nat × Run ω) (h : PassStep env source params a b) :
    b.2.ps.errors key = a.2.ps.errors key := by
  cases h with
  | missing r k => simp [reportMissingParams, ErrMap.append, hne]
  | remainder n m r rest _ => rfl
  | byPos n r pp loc v _ _ _ => exact henv.1 pp source loc v r.world r.ps.errors key hkey
  | syntaxError n r pStr nm err loc hget _ _ htrim =>
    have hmem : pStr ∈ params := List.getElem?_mem hget
    obtain ⟨h1, h2⟩ := trimParam_error _ _ _ htrim
    have hnk : key ≠ nm := by
      intro e
      subst e
      exact hsyn pStr hmem ⟨h1.symm, by rw [h1]; exact h2⟩
    simp [Run.addErr, ErrMap.append, hnk]
  | byName n r pStr p loc _ _ _ => exact henv.2.1 p source loc _ r.world r.ps.errors key hkey
  | byNameNext n r pStr v p loc _ _ _ _ =>
    exact henv.2.1 p source loc _ r.world r.ps.errors key hkey
  | unexpected n r pStr nm loc _ _ _ => exact henv.2.2 nm loc r.world r.ps.errors key hkey

theorem trace_keys {ω : Type} (env : Env ω) (source : String) (params : List String)
    (allowed : String → Prop) (henv : env.RecordsUnder allowed) (key : String)
    (hkey : ¬ allowed key) (hne : key ≠ "")
    (hsyn : ∀ t ∈ params, ¬ ((SplitN2 t '=').headD "" = key ∧ key.data.head? ≠ some '-'))
    (a b : Nat × Run ω) (h : Relation.ReflTransGen (PassStep env source params) a b) :
    b.2.ps.errors key = a.2.ps.errors key := by
  induction h with
  | refl => rfl
  | tail _ hbc ih =>
    rw [PassStep_keys env source params allowed henv key hkey hne hsyn _ _ hbc, ih]

theorem readFiles_keys {ω : Type} (fr : FileReader ω) (allowed : String → Prop)
    (hfr : fr.RecordsUnder allowed) (key : String) (hkey : ¬ allowed key) (desc : String)
    (gName : Option String) :
    ∀ (cfs : List ConfigFileDetails) (r : Run ω),
      (∀ cf ∈ cfs, key ≠ "config file: " ++ cf.Name) →
      (readFiles fr desc gName cfs r).ps.errors key = r.ps.errors key := by
  intro cfs
  induction cfs with
  | nil => intro r _; rfl
  | cons cf cfs ih =>
    intro r hk
    simp only [readFiles]
    rw [ih _ (fun c hc => hk c (List.mem_cons_of_mem _ hc)),
      checkErrors_other_key _ _ _ _ (hk cf (List.mem_cons_self _ _))]
    exact hfr desc gName cf.Name r.world r.ps.errors key hkey

theorem readGroupFiles_keys {ω : Type} (fr : FileReader ω) (allowed : String → Prop)
    (hfr : fr.RecordsUnder allowed) (key : String) (hkey : ¬ allowed key) :
    ∀ (groups : List (String × List ConfigFileDetails)) (r : Run ω),
      (∀ g ∈ groups, ∀ cf ∈ g.2, key ≠ "config file: " ++ cf.Name) →
      (readGroupFiles fr groups r).ps.errors key = r.ps.errors key := by
  intro groups
  induction groups with
  | nil => intro r _; rfl
  | cons g groups ih =>
    intro r hk
    obtain ⟨gName, cfs⟩ := g
    simp only [readGroupFiles]
    rw [ih _ (fun g2 hg => hk g2 (List.mem_cons_of_mem _ hg))]
    exact readFiles_keys fr allowed hfr key hkey _ _ cfs r
      (hk (gName, cfs) (List.mem_cons_self _ _))

/-- C23, the claim as given fails: the token `verbos`, which has no dash, is
reported by `getParamsFromStringSlice` itself under the key `verbos`, which is
neither the name of a registered parameter, nor the empty key, nor a key that
starts with `config file: `. -/
theorem syntax_error_key_not_registered :
    (getParamsFromStringSlice quietEnv "cmd" ["verbos"]
        { ps := { nameToParam := [("verbose", { name := "verbose" })] }, world := () }).map
        (fun r2 => r2.ps.errors "verbos")
      = some [Err.located { source := "cmd", idx := 1, content := "verbos" }
          (trimParamErrText "verbos")]
    ∧ List.lookup "verbos" [("verbose", ({ name := "verbose" } : ByName))] = none
    ∧ "verbos" ≠ ""
    ∧ ("config file: ".data.isPrefixOf "verbos".data) = false := by
  decide

/-- C23, amended: the outside calls apart, every key under which the
command-line pass records an error is the empty key or the name part of a
token that does not start with a dash, and every key under which the
config-file pass records an error is `"config file: "` followed by the name
of a registered config file, global or of a group. The keys of the errors of
the parameters are those the outside calls record under. -/
theorem error_keys {ω : Type} (env : Env ω) (fr : FileReader ω) (allowed : String → Prop)
    (source : String) (params : List String) (r : Run ω) (key : String)
    (henv : env.RecordsUnder allowed) (hfr : fr.RecordsUnder allowed)
    (hkey : ¬ allowed key) :
    (∀ r2, getParamsFromStringSlice env source params r = some r2 →
      r2.ps.errors key ≠ r.ps.errors key →
      key = "" ∨ ∃ t ∈ params, (SplitN2 t '=').headD "" = key ∧ key.data.head? ≠ some '-')
    ∧ ((getParamsFromConfigFile fr r).ps.errors key ≠ r.ps.errors key →
      ∃ cf, (cf ∈ r.ps.configFiles ∨ ∃ g ∈ r.ps.groupCfgFiles, cf ∈ g.2)
        ∧ key = "config file: " ++ cf.Name) := by
  constructor
  · intro r2 h2 hch
    by_contra hno
    push_neg at hno
    obtain ⟨m, hm⟩ := getParams_trace env source params r r2 h2
    exact hch (trace_keys env source params allowed henv key hkey hno.1
      (fun t ht hc => hc.2 (hno.2 t ht hc.1)) _ _ hm)
  · intro hch
    by_contra hno
    push_neg at hno
    apply hch
    obtain ⟨_, h2, _⟩ := readGroupFiles_spec fr r.ps.groupCfgFiles r
    simp only [getParamsFromConfigFile]
    rw [readFiles_keys fr allowed hfr key hkey _ _ _ _
        (fun cf hcf => hno cf (Or.inl (by rw [h2] at hcf; exact hcf))),
      readGroupFiles_keys fr allowed hfr key hkey _ _
        (fun g hg cf hcf => hno cf (Or.inr ⟨g, hg, hcf⟩))]

/-- Witness of C23, amended: the token `verbos`, which has no dash, with
outside calls that record nothing. -/
theorem error_keys_witness :
    "verbos" = "" ∨ ∃ t ∈ ["verbos", "-x"],
      (SplitN2 t '=').headD "" = "verbos" ∧ "verbos".data.head? ≠ some '-' := by
  obtain ⟨r2, h2⟩ := getParams_returns quietEnv "cmd" ["verbos", "-x"]
    { ps := { nameToParam := [("verbose", { name := "verbose" })] }, world := () }
  have hval : (getParamsFromStringSlice quietEnv "cmd" ["verbos", "-x"]
      { ps := { nameToParam := [("verbose", { name := "verbose" })] }, world := () }).map
        (fun r => r.ps.errors "verbos")
      = some [Err.located { source := "cmd", idx := 1, content := "verbos" }
          (trimParamErrText "verbos")] := by decide
  rw [h2] at hval
  have hch : r2.ps.errors "verbos" ≠ [] := by
    simp only [Option.map_some', Option.some.injEq] at hval
    rw [hval]
    exact List.cons_ne_nil _ _
  exact (error_keys quietEnv { Parse := fun _ _ _ s => (s, []) } (fun _ => False) "cmd"
    ["verbos", "-x"]
    { ps := { nameToParam := [("verbose", { name := "verbose" })] }, world := () } "verbos"
    ⟨fun _ _ _ _ _ _ _ _ => rfl, fun _ _ _ _ _ _ _ _ => rfl, fun _ _ _ _ _ _ => rfl⟩
    (fun _ _ _ _ _ _ _ => rfl) (fun h => h)).1 r2 h2 hch

/-! ## The sequence numbers of the locations -/

theorem PassStep_calls {ω : Type} (env : Env ω) (source : String) (params : List String)
    (a b : Nat × Run ω) (h : PassStep env source params a b) :
    a.1 ≤ b.1
    ∧ (b.2.calls = a.2.calls
      ∨ ∃ c, b.2.calls = a.2.calls ++ [c] ∧ a.1 < c.seqNo ∧ c.seqNo ≤ b.1
          ∧ c.locatedAt params = true) := by
  cases h with
  | missing r k => exact ⟨le_refl _, Or.inl rfl⟩
  | remainder n m r rest hnm => exact ⟨hnm, Or.inl rfl⟩
  | byPos n r pp loc v hget hidx hcont =>
    refine ⟨by simp, Or.inr ⟨_, rfl, ?_, ?_, ?_⟩⟩
    · simp [Call.seqNo, hidx]
    · simp [Call.seqNo, hidx]
    · simp [Call.locatedAt, hidx, hget, hcont]
  | syntaxError n r pStr nm err loc _ _ _ _ => exact ⟨by simp, Or.inl rfl⟩
  | byName n r pStr p loc hget hidx hcont =>
    refine ⟨by simp, Or.inr ⟨_, rfl, ?_, ?_, ?_⟩⟩
    · simp [Call.seqNo, hidx]
    · simp [Call.seqNo, hidx]
    · simp [Call.locatedAt, hidx, hget, hcont]
  | byNameNext n r pStr v p loc hget hget2 hidx hcont =>
    refine ⟨by simp, Or.inr ⟨_, rfl, ?_, ?_, ?_⟩⟩
    · simp [Call.seqNo, hidx]
    · simp [Call.seqNo, hidx]
    · simp [Call.locatedAt, hidx, hget, hget2, hcont]
  | unexpected n r pStr nm loc hget hidx hcont =>
    refine ⟨by simp, Or.inr ⟨_, rfl, ?_, ?_, ?_⟩⟩
    · simp [Call.seqNo, hidx]
    · simp [Call.seqNo, hidx]
    · simp [Call.locatedAt, hidx, hget, hcont]

theorem trace_calls {ω : Type} (env : Env ω) (source : String) (params : List String)
    (a b : Nat × Run ω) (h : Relation.ReflTransGen (PassStep env source params) a b) :
    a.1 ≤ b.1
    ∧ ∃ new, b.2.calls = a.2.calls ++ new
      ∧ (∀ c ∈ new, a.1 < c.seqNo ∧ c.seqNo ≤ b.1 ∧ c.locatedAt params = true)
      ∧ List.Pairwise (fun x y => x < y) (new.map Call.seqNo) := by
  induction h with
  | refl => exact ⟨le_refl _, [], by simp, by simp, by simp⟩
  | tail _ hbc ih =>
    obtain ⟨hle, new, h1, h2, h3⟩ := ih
    obtain ⟨hle2, hc⟩ := PassStep_calls env source params _ _ hbc
    refine ⟨le_trans hle hle2, ?_⟩
    rcases hc with hc | ⟨c, hc, k1, k2, k3⟩
    · exact ⟨new, by rw [hc, h1],
        fun c hcm => ⟨(h2 c hcm).1, le_trans (h2 c hcm).2.1 hle2, (h2 c hcm).2.2⟩, h3⟩
    · refine ⟨new ++ [c], by rw [hc, h1, List.append_assoc], ?_, ?_⟩
      · intro c2 hc2
        rcases List.mem_append.mp hc2 with hm | hm
        · exact ⟨(h2 c2 hm).1, le_trans (h2 c2 hm).2.1 hle2, (h2 c2 hm).2.2⟩
        · have : c2 = c := by simpa using hm
          subst this
          exact ⟨lt_of_le_of_lt hle k1, k2, k3⟩
      · rw [List.map_append, List.pairwise_append]
        refine ⟨h3, by simp, ?_⟩
        intro x hx y hy
        obtain ⟨c1, hc1, rfl⟩ := List.mem_map.mp hx
        have hy2 : y = c.seqNo := by simpa using hy
        subst hy2
        exact lt_of_le_of_lt (h2 c1 hc1).2.1 k1

/-- C26: the sequence number of the location is the number of tokens taken so
far. In a pass of `getParamsFromStringSlice` every outside call is located at
the token it is about: the call that binds, dispatches or reports as
unexpected the token at the index `i` is located at `i + 1`, and the dispatch
of a named parameter at the index `i` with the token at `i + 1` as its value
is located at `i + 2`; the sequence numbers of the calls of a pass increase
strictly. The named loop is entered with the sequence number `len(ps.byPos)`,
the index of its first token, and a token without a dash that comes after `k`
tokens consumed by the loop is reported as a syntax error located `k + 1`
after the sequence number at which the loop was entered. -/
theorem location_counter {ω : Type} (env : Env ω) (source : String) (params : List String)
    (r r2 : Run ω) (h : getParamsFromStringSlice env source params r = some r2) :
    (∃ new, r2.calls = r.calls ++ new
      ∧ (∀ c ∈ new, 1 ≤ c.seqNo ∧ c.locatedAt params = true)
      ∧ List.Pairwise (fun x y => x < y) (new.map Call.seqNo))
    ∧ (∀ (loc1 : Loc) (r1 : Run ω),
        positionalLoop env source params r.ps.byPos 0 (Loc.New source) r = some (loc1, r1, false) →
        loc1.idx = r.ps.byPos.length)
    ∧ (∀ (consumed : List String) (pStr : String) (rest : List String) (loc : Loc)
        (r0 : Run ω) (nm err : String),
        consumedWhole r0.ps.nameToParam r0.ps.terminalParam consumed = true →
        pStr ≠ r0.ps.terminalParam →
        trimParam ((SplitN2 pStr '=').headD "") = (nm, some err) →
        namedLoop env source (consumed ++ pStr :: rest) loc r0
          = namedLoop env source rest
              { source := loc.source, idx := loc.idx + consumed.length + 1, content := pStr }
              ((namedLoop env source consumed loc r0).addErr nm
                (Err.located
                  { source := loc.source, idx := loc.idx + consumed.length + 1, content := pStr }
                  err))) := by
  refine ⟨?_, ?_, ?_⟩
  · obtain ⟨m, hm⟩ := getParams_trace env source params r r2 h
    obtain ⟨_, new, h1, h2, h3⟩ := trace_calls env source params _ _ hm
    exact ⟨new, h1, fun c hc => ⟨by have := (h2 c hc).1; omega, (h2 c hc).2.2⟩, h3⟩
  · intro loc1 r1 hres
    have := (positionalLoop_trace env source params r.ps.byPos 0 (Loc.New source) r loc1 r1
      false rfl hres).2 rfl
    rw [this.1, Nat.zero_add]
  · intro consumed pStr rest loc r0 nm err hc hs htrim
    obtain ⟨loc1, h1, h2, h3, _, h5⟩ := namedLoop_append env source (pStr :: rest)
      consumed.length consumed loc r0 (le_refl _) hc
    rw [h3, namedLoop_syntax_error env source pStr rest loc1 _ nm err (by rw [h5]; exact hs)
      htrim]
    have hL : (loc1.Incr).SetContent pStr
        = { source := loc.source, idx := loc.idx + consumed.length + 1, content := pStr } := by
      simp [Loc.Incr, Loc.SetContent, h1, h2]
    rw [hL]

/-- Witness of C26: parsing `-p1 -p2` locates `p1` at 1 and `p2` at 2. -/
theorem location_counter_witness :
    (getParamsFromStringSlice quietEnv "supplied parameters" ["-p1", "-p2"]
        { ps := { nameToParam := [("p1", { name := "p1" }), ("p2", { name := "p2" })] },
          world := () }).map (fun r2 => r2.calls)
      = some [Call.byName { name := "p1" } "supplied parameters"
                { source := "supplied parameters", idx := 1, content := "-p1" } ["-p1"],
              Call.byName { name := "p2" } "supplied parameters"
                { source := "supplied parameters", idx := 2, content := "-p2" } ["-p2"]]
    ∧ ∃ r2, getParamsFromStringSlice quietEnv "supplied parameters" ["-p1", "-p2"]
          { ps := { nameToParam := [("p1", { name := "p1" }), ("p2", { name := "p2" })] },
            world := () } = some r2
        ∧ ∃ new, r2.calls = [] ++ new
          ∧ (∀ c ∈ new, 1 ≤ c.seqNo ∧ c.locatedAt ["-p1", "-p2"] = true)
          ∧ List.Pairwise (fun x y => x < y) (new.map Call.seqNo) := by
  refine ⟨by decide, ?_⟩
  obtain ⟨r2, h2⟩ := getParams_returns quietEnv "supplied parameters" ["-p1", "-p2"]
    { ps := { nameToParam := [("p1", { name := "p1" }), ("p2", { name := "p2" })] },
      world := () }
  exact ⟨r2, h2, (location_counter quietEnv "supplied parameters" ["-p1", "-p2"] _ r2 h2).1⟩

/-! ## `findClosestMatch`: what the suggestion is -/

/-- C24, the claim as given fails: on the empty registry `findClosestMatch`
returns the empty suggestion and the distance -1, and on the names `ab` and
`ac`, both at the distance 1 from `aa`, the suggestion is `ab or ac`, which is
not the name of a registered parameter. -/
theorem findClosestMatch_no_suggestion :
    findClosestMatch {} "verbos" = some ("", -1)
    ∧ findClosestMatch { nameToParam := [("ab", { name := "ab" }), ("ac", { name := "ac" })] }
        "aa" = some ("ab or ac", 1)
    ∧ List.lookup "ab or ac" [("ab", ({ name := "ab" } : ByName)), ("ac", { name := "ac" })]
        = none := by
  decide

/-- C24, amended: on a registry with at least one name, when in the
unrecognised name and in the registered names every rune but the last is a
single byte (or the unrecognised name is empty), `findClosestMatch` returns
whatever the distances are: the suggestion is the registered names at the
least distance from the unrecognised name, of which there is at least one,
joined with " or ", and the distance returned is that least distance, which is
not negative. -/
theorem findClosestMatch_suggestion (ps : ParamSet) (badParam : String)
    (hne : ps.nameToParam ≠ [])
    (hbytes : ∀ p ∈ ps.nameToParam.map Prod.fst,
      badParam.data = [] ∨ p.data = [] ∨
        (OffsetsAreIndices badParam.data ∧ OffsetsAreIndices p.data)) :
    ∃ (k : Nat) (ties : List String),
      findClosestMatch ps badParam = some (" or ".intercalate ties, (k : Int))
      ∧ ties ≠ []
      ∧ (∀ p, p ∈ ties ↔ (p ∈ ps.nameToParam.map Prod.fst ∧ Levenshtein badParam p = some k))
      ∧ (∀ p ∈ ps.nameToParam.map Prod.fst, ∀ n, Levenshtein badParam p = some n → k ≤ n)
      ∧ (0 : Int) ≤ (k : Int) := by
  have hall : ∀ p ∈ ps.nameToParam.map Prod.fst, (Levenshtein badParam p).isSome = true := by
    intro p hp
    rw [Levenshtein_eq, if_pos (hbytes p hp)]
    rfl
  obtain ⟨k, h1, ⟨p0, hp0, hk0⟩, h3⟩ := findClosestMatch_of_distances ps badParam hne hall
  refine ⟨k, _, h1, ?_, ?_, h3, Int.natCast_nonneg k⟩
  · intro hnil
    have : p0 ∈ (ps.nameToParam.map Prod.fst).filter
        (fun p => Levenshtein badParam p = some k) := by
      rw [List.mem_filter]
      exact ⟨hp0, by simpa using hk0⟩
    rw [hnil] at this
    cases this
  · intro p
    rw [List.mem_filter]
    simp

/-- Witness of C24, amended: the names `verbose` and `count` and the string
`verbos`. -/
theorem findClosestMatch_suggestion_witness :
    ∃ (k : Nat) (ties : List String),
      findClosestMatch
          { nameToParam := [("verbose", { name := "verbose" }), ("count", { name := "count" })] }
          "verbos" = some (" or ".intercalate ties, (k : Int))
      ∧ ties ≠ []
      ∧ (∀ p, p ∈ ties ↔ (p ∈ ["verbose", "count"] ∧ Levenshtein "verbos" p = some k))
      ∧ (∀ p ∈ ["verbose", "count"], ∀ n, Levenshtein "verbos" p = some n → k ≤ n)
      ∧ (0 : Int) ≤ (k : Int) :=
  findClosestMatch_suggestion
    { nameToParam := [("verbose", { name := "verbose" }), ("count", { name := "count" })] }
    "verbos" (by decide) (by decide)

/-! ## The resolution pass: the command line after the config files -/

theorem checkErrors_registry (ps : ParamSet) (errors : List Err) (cf : ConfigFileDetails) :
    (checkErrors ps errors cf).nameToParam = ps.nameToParam
    ∧ (checkErrors ps errors cf).terminalParam = ps.terminalParam
    ∧ (checkErrors ps errors cf).byPos = ps.byPos := by
  unfold checkErrors
  split
  · split <;> exact ⟨rfl, rfl, rfl⟩
  · exact ⟨rfl, rfl, rfl⟩

theorem readFiles_registry {ω : Type} (fr : FileReader ω) (desc : String)
    (gName : Option String) :
    ∀ (cfs : List ConfigFileDetails) (r : Run ω),
      (readFiles fr desc gName cfs r).ps.nameToParam = r.ps.nameToParam
      ∧ (readFiles fr desc gName cfs r).ps.terminalParam = r.ps.terminalParam
      ∧ (readFiles fr desc gName cfs r).ps.byPos = r.ps.byPos := by
  intro cfs
  induction cfs with
  | nil => intro r; exact ⟨rfl, rfl, rfl⟩
  | cons cf cfs ih =>
    intro r
    simp only [readFiles]
    obtain ⟨h1, h2, h3⟩ := ih
      { ps := checkErrors { r.ps with
            errors := (fr.Parse desc gName cf.Name (r.world, r.ps.errors)).1.2 }
          (fr.Parse desc gName cf.Name (r.world, r.ps.errors)).2 cf,
        world := (fr.Parse desc gName cf.Name (r.world, r.ps.errors)).1.1,
        calls := r.calls ++ [Call.parseFile desc gName cf.Name] }
    obtain ⟨k1, k2, k3⟩ := checkErrors_registry { r.ps with
        errors := (fr.Parse desc gName cf.Name (r.world, r.ps.errors)).1.2 }
      (fr.Parse desc gName cf.Name (r.world, r.ps.errors)).2 cf
    exact ⟨h1.trans k1, h2.trans k2, h3.trans k3⟩

theorem readGroupFiles_registry {ω : Type} (fr : FileReader ω) :
    ∀ (groups : List (String × List ConfigFileDetails)) (r : Run ω),
      (readGroupFiles fr groups r).ps.nameToParam = r.ps.nameToParam
      ∧ (readGroupFiles fr groups r).ps.terminalParam = r.ps.terminalParam
      ∧ (readGroupFiles fr groups r).ps.byPos = r.ps.byPos := by
  intro groups
  induction groups with
  | nil => intro r; exact ⟨rfl, rfl, rfl⟩
  | cons g groups ih =>
    intro r
    obtain ⟨gName, cfs⟩ := g
    simp only [readGroupFiles]
    obtain ⟨h1, h2, h3⟩ := ih
      (readFiles fr "group-specific parameter config file" (some gName) cfs r)
    obtain ⟨k1, k2, k3⟩ := readFiles_registry fr "group-specific parameter config file"
      (some gName) cfs r
    exact ⟨h1.trans k1, h2.trans k2, h3.trans k3⟩

theorem getParamsFromConfigFile_registry {ω : Type} (fr : FileReader ω) (r : Run ω) :
    (getParamsFromConfigFile fr r).ps.nameToParam = r.ps.nameToParam
    ∧ (getParamsFromConfigFile fr r).ps.terminalParam = r.ps.terminalParam
    ∧ (getParamsFromConfigFile fr r).ps.byPos = r.ps.byPos := by
  obtain ⟨h1, h2, h3⟩ := readGroupFiles_registry fr r.ps.groupCfgFiles r
  obtain ⟨k1, k2, k3⟩ := readFiles_registry fr "parameter config file" none
    (readGroupFiles fr r.ps.groupCfgFiles r).ps.configFiles
    (readGroupFiles fr r.ps.groupCfgFiles r)
  simp only [getParamsFromConfigFile]
  exact ⟨k1.trans h1, k2.trans h2, k3.trans h3⟩

theorem testBit_of_le_perm (n i : Nat) (hn : n ≤ 0o777) (hi : 9 ≤ i) : n.testBit i = false := by
  apply Nat.testBit_lt_two_pow
  calc n < 2 ^ 9 := by norm_num at hn ⊢; omega
    _ ≤ 2 ^ i := Nat.pow_le_pow_right (by norm_num) hi

theorem testBit_perm_mask (i : Nat) : (0o777 : Nat).testBit i = decide (i < 9) := by
  have : (0o777 : Nat) = 2 ^ 9 - 1 := by norm_num
  rw [this, Nat.testBit_two_pow_sub_one]

theorem and_eq_right_iff_bits (m p : Nat) :
    (m &&& p = p) ↔ ∀ i, p.testBit i = true → m.testBit i = true := by
  constructor
  · intro h i hp
    have := congrArg (fun x => x.testBit i) h
    simp only [Nat.testBit_and, hp, Bool.and_true] at this
    exact this
  · intro h
    apply Nat.eq_of_testBit_eq
    intro i
    rw [Nat.testBit_and]
    cases hp : p.testBit i
    · simp
    · simp [h i hp]

theorem and_eq_zero_iff_bits (m p : Nat) :
    (m &&& p = 0) ↔ ∀ i, ¬ (p.testBit i = true ∧ m.testBit i = true) := by
  constructor
  · intro h i ⟨hp, hm⟩
    have := congrArg (fun x => x.testBit i) h
    simp [Nat.testBit_and, hp, hm] at this
  · intro h
    apply Nat.eq_of_testBit_eq
    intro i
    rw [Nat.testBit_and, Nat.zero_testBit]
    cases hp : p.testBit i
    · simp
    · cases hm : m.testBit i
      · simp
      · exact absurd ⟨hp, hm⟩ (h i)

theorem perm_eq_iff (m p : Nat) (hp : p ≤ 0o777) (hm : m ≤ 0o777) :
    m = p ↔ (m &&& p = p ∧ m &&& (0o777 ^^^ p) = 0) := by
  constructor
  · intro h
    subst h
    refine ⟨Nat.and_self m, ?_⟩
    rw [and_eq_zero_iff_bits]
    rintro i ⟨h1, h2⟩
    rw [Nat.testBit_xor, testBit_perm_mask, h2] at h1
    by_cases hi : i < 9
    · simp [hi] at h1
    · rw [testBit_of_le_perm m i hm (by omega)] at h2
      cases h2
  · rintro ⟨h1, h2⟩
    rw [and_eq_right_iff_bits] at h1
    rw [and_eq_zero_iff_bits] at h2
    apply Nat.eq_of_testBit_eq
    intro i
    by_cases hi : i < 9
    · cases hpi : p.testBit i
      · cases hmi : m.testBit i
        · rfl
        · exfalso
          apply h2 i
          refine ⟨?_, hmi⟩
          rw [Nat.testBit_xor, testBit_perm_mask, hpi]
          simp [hi]
      · exact h1 i hpi
    · rw [testBit_of_le_perm m i hm (by omega), testBit_of_le_perm p i hp (by omega)]

/-- C40: for permission values `p` and `m` within the nine permission bits,
`PermCheckEq(p)(m)` returns nil if and only if both `PermCheckHasAll(p)(m)`
and `PermCheckHasNone(0777 XOR p)(m)` return nil; `PermCheckHasAll(p)(m)`
returns nil exactly when every bit of `p` is set in `m`, and
`PermCheckHasNone(p)(m)` exactly when no bit of `p` is set in `m`. -/
theorem PermCheck_relations (p m : Nat) (hp : p ≤ 0o777) (hm : m ≤ 0o777) :
    (PermCheckEq p m = none ↔
      (PermCheckHasAll p m = none ∧ PermCheckHasNone (0o777 ^^^ p) m = none))
    ∧ (PermCheckHasAll p m = none ↔ ∀ i, p.testBit i = true → m.testBit i = true)
    ∧ (PermCheckHasNone p m = none ↔ ∀ i, ¬ (p.testBit i = true ∧ m.testBit i = true)) := by
  have hall : ∀ q, PermCheckHasAll q m = none ↔ (m &&& q) = q := by
    intro q
    unfold PermCheckHasAll
    by_cases h : (m &&& q) = q
    · simp [h]
    · simp [h]
  have hnone : ∀ q, PermCheckHasNone q m = none ↔ (m &&& q) = 0 := by
    intro q
    unfold PermCheckHasNone
    by_cases h : (m &&& q) = 0
    · simp [h]
    · simp [h]
  have heq : PermCheckEq p m = none ↔ m = p := by
    unfold PermCheckEq
    by_cases h : m = p
    · simp [h]
    · simp [h]
  refine ⟨?_, ?_, ?_⟩
  · rw [heq, hall, hnone]
    exact perm_eq_iff m p hp hm
  · rw [hall]
    exact and_eq_right_iff_bits m p
  · rw [hnone]
    exact and_eq_zero_iff_bits m p

/-- Witness of C40: the permissions of the tests, 0644 expected and 0600
found, with the texts of the errors. -/
theorem PermCheck_relations_witness :
    (PermCheckEq 0o644 0o600 = none ↔
      (PermCheckHasAll 0o644 0o600 = none ∧ PermCheckHasNone (0o777 ^^^ 0o644) 0o600 = none))
    ∧ PermCheckEq 0o644 0o600 = some "bad permissions: should be 0644 but we have 0600"
    ∧ PermCheckHasAll 0o644 0o600
        = some "bad permissions: all of 0644 should be set but we have 0600"
    ∧ PermCheckHasNone (0o777 ^^^ 0o644) 0o600 = none
    ∧ PermCheckEq 0o644 0o644 = none :=
  ⟨(PermCheck_relations 0o644 0o600 (by decide) (by decide)).1, by decide, by decide, by decide,
    by decide⟩

/-! ## `filecheck`: the status check -/

/-- C31: `StatusCheck` decides existence first. It asks `os.Lstat` when a
symbolic link is expected and `os.Stat` otherwise. When that call reports that
the object does not exist, `StatusCheck` returns an error if and only if
`Existence` is `MustExist`, and the result is the same whatever the type
expected and the permission and size checkers are; when the call does not
report that the object does not exist and `Existence` is `MustNotExist`, it
returns the error `exists but shouldn't`, whatever the other expectations
are. -/
theorem StatusCheck_existence_first (fs : FileSystem) (modeString : Nat → String)
    (es : ExpectedStatus) (name : String) :
    ((if es.ObjectType = FSObjTypeSymlink then fs.Lstat name else fs.Stat name)
        = StatResult.notExist →
      es.StatusCheck fs modeString name
        = (if es.Existence = filecheck.Exists.MustExist then
            some ("path: '" ++ name ++ "' does not exist but should")
          else none)
      ∧ ((es.StatusCheck fs modeString name).isSome = true
          ↔ es.Existence = filecheck.Exists.MustExist)
      ∧ ∀ es2 : ExpectedStatus,
          (if es2.ObjectType = FSObjTypeSymlink then fs.Lstat name else fs.Stat name)
            = StatResult.notExist →
          es2.Existence = es.Existence →
          es2.StatusCheck fs modeString name = es.StatusCheck fs modeString name)
    ∧ ((if es.ObjectType = FSObjTypeSymlink then fs.Lstat name else fs.Stat name)
        ≠ StatResult.notExist →
      es.Existence = filecheck.Exists.MustNotExist →
      es.StatusCheck fs modeString name = some ("path: '" ++ name ++ "' exists but shouldn't"))
    ∧ (es.ObjectType ≠ FSObjTypeSymlink → es.stat fs name = fs.Stat name)
    ∧ (es.ObjectType = FSObjTypeSymlink → es.stat fs name = fs.Lstat name) := by
  refine ⟨?_, ?_, fun h => by simp [ExpectedStatus.stat, h],
    fun h => by simp [ExpectedStatus.stat, h]⟩
  · intro h
    have hval : ∀ e : ExpectedStatus,
        (if e.ObjectType = FSObjTypeSymlink then fs.Lstat name else fs.Stat name)
          = StatResult.notExist →
        e.StatusCheck fs modeString name
          = (if e.Existence = filecheck.Exists.MustExist then
              some ("path: '" ++ name ++ "' does not exist but should")
            else none) := by
      intro e he
      have he2 : e.stat fs name = StatResult.notExist := he
      simp only [ExpectedStatus.StatusCheck, he2]
    refine ⟨hval es h, ?_, ?_⟩
    · rw [hval es h]
      by_cases hm : es.Existence = filecheck.Exists.MustExist
      · simp [hm]
      · simp [hm]
    · intro es2 h2 he
      rw [hval es h, hval es2 h2, he]
  · intro h hm
    have h2 : es.stat fs name ≠ StatResult.notExist := h
    unfold ExpectedStatus.StatusCheck
    cases hs : es.stat fs name with
    | notExist => exact absurd hs h2
    | failed msg => simp only [hm, if_true]
    | info mode size => simp only [hm, if_true]

/-- Witness of C31: on the names of the tests, a directory that exists and
must not gives the error whatever is asked of it, a name that does not exist
gives an error when it must exist and none when it need not, with checkers
that reject everything. -/
theorem StatusCheck_existence_first_witness :
    ExpectedStatus.StatusCheck exampleFS (fun _ => "")
        { Existence := filecheck.Exists.MustNotExist, ObjectType := FSObjTypeDirectory }
        "testdata/IsADirectory"
      = some ("path: '" ++ "testdata/IsADirectory" ++ "' exists but shouldn't")
    ∧ ExpectedStatus.StatusCheck exampleFS (fun _ => "")
        { Existence := filecheck.Exists.MustExist, ObjectType := FSObjTypeSymlink,
          PermCheckers := [fun _ => some "no"], SizeCheckers := [fun _ => some "no"] }
        "testdata/nonesuch"
      = some "path: 'testdata/nonesuch' does not exist but should"
    ∧ ExpectedStatus.StatusCheck exampleFS (fun _ => "")
        { Existence := filecheck.Exists.Optional, ObjectType := FSObjTypeNamedPipe,
          PermCheckers := [fun _ => some "no"], SizeCheckers := [fun _ => some "no"] }
        "testdata/nonesuch"
      = none
    ∧ ExpectedStatus.StatusCheck exampleFS (fun _ => "")
        { Existence := filecheck.Exists.MustNotExist, ObjectType := FSObjTypeDontCare }
        "testdata/nonesuch"
      = none
    ∧ ExpectedStatus.StatusCheck exampleFS (fun _ => "")
        { Existence := filecheck.Exists.Optional, ObjectType := FSObjTypeRegularFile }
        "testdata/IsADirectory"
      = some "path: 'testdata/IsADirectory' should be a regular file but is a directory" :=
  ⟨(StatusCheck_existence_first exampleFS (fun _ => "")
      { Existence := filecheck.Exists.MustNotExist, ObjectType := FSObjTypeDirectory }
      "testdata/IsADirectory").2.1 (by decide) rfl,
    by decide, by decide, by decide, by decide⟩

/-- C32: the text `es.String()` is "The filesystem object must not exist" when
`Existence` is `MustNotExist`, whatever the object type; otherwise it is
"The filesystem object must exist" for `MustExist` or "The filesystem object
need not exist" for `Optional`, followed, only when `ObjectType` is not
`FSObjTypeDontCare`, by " and must be a T" or " but if it does it must be a T"
respectively, where T is `ObjectTypeAsString(ObjectType)`; the texts for the
named types are those of the tests. -/
theorem ExpectedStatus_String_spec (modeString : Nat → String) (es : ExpectedStatus) :
    (es.Existence = filecheck.Exists.MustNotExist →
      es.asString modeString = "The filesystem object must not exist")
    ∧ (es.Existence = filecheck.Exists.MustExist →
      es.asString modeString
        = "The filesystem object must exist"
          ++ (if es.ObjectType = FSObjTypeDontCare then ""
              else " and must be a " ++ ObjectTypeAsString modeString es.ObjectType))
    ∧ (es.Existence = filecheck.Exists.Optional →
      es.asString modeString
        = "The filesystem object need not exist"
          ++ (if es.ObjectType = FSObjTypeDontCare then ""
              else " but if it does it must be a "
                ++ ObjectTypeAsString modeString es.ObjectType))
    ∧ ObjectTypeAsString modeString FSObjTypeRegularFile = "regular file"
    ∧ ObjectTypeAsString modeString FSObjTypeDirectory = "directory"
    ∧ ObjectTypeAsString modeString FSObjTypeSymlink = "symbolic link"
    ∧ ObjectTypeAsString modeString FSObjTypeNamedPipe = "named pipe"
    ∧ ObjectTypeAsString modeString FSObjTypeSocket = "socket"
    ∧ ObjectTypeAsString modeString FSObjTypeDevice = "device"
    ∧ ExpectedStatus.asString (fun _ => "")
        { Existence := filecheck.Exists.Optional, ObjectType := FSObjTypeNamedPipe }
        = "The filesystem object need not exist but if it does it must be a named pipe"
    ∧ ExpectedStatus.asString (fun _ => "")
        { Existence := filecheck.Exists.MustExist, ObjectType := FSObjTypeDirectory }
        = "The filesystem object must exist and must be a directory"
    ∧ ExpectedStatus.asString (fun _ => "")
        { Existence := filecheck.Exists.MustNotExist, ObjectType := FSObjTypeDirectory }
        = "The filesystem object must not exist" := by
  refine ⟨?_, ?_, ?_, ?_, ?_, ?_, ?_, ?_, ?_, by decide, by decide, by decide⟩
  rotate_left 3
  · unfold ObjectTypeAsString
    rw [if_neg (by decide), if_pos rfl]
  · unfold ObjectTypeAsString
    rw [if_neg (by decide), if_neg (by decide), if_pos rfl]
  · unfold ObjectTypeAsString
    rw [if_neg (by decide), if_neg (by decide), if_neg (by decide), if_pos rfl]
  · unfold ObjectTypeAsString
    rw [if_neg (by decide), if_neg (by decide), if_neg (by decide), if_neg (by decide),
      if_pos rfl]
  · unfold ObjectTypeAsString
    rw [if_neg (by decide), if_neg (by decide), if_neg (by decide), if_neg (by decide),
      if_neg (by decide), if_pos rfl]
  · unfold ObjectTypeAsString
    rw [if_neg (by decide), if_neg (by decide), if_neg (by decide), if_neg (by decide),
      if_neg (by decide), if_neg (by decide), if_pos rfl]
  · intro h
    simp [ExpectedStatus.asString, h]
  · intro h
    by_cases ht : es.ObjectType = FSObjTypeDontCare
    · simp [ExpectedStatus.asString, h, ht]
    · simp only [ExpectedStatus.asString, h, ht, if_true, if_false, ne_eq, not_false_eq_true,
        reduceCtorEq]
      have e : (" and" ++ " must be a " : String) = " and must be a " := by decide
      rw [← e, String.append_assoc]
  · intro h
    by_cases ht : es.ObjectType = FSObjTypeDontCare
    · simp [ExpectedStatus.asString, h, ht]
    · simp only [ExpectedStatus.asString, h, ht, if_true, if_false, ne_eq, not_false_eq_true,
        reduceCtorEq]
      have e : (" but if it does it" ++ " must be a " : String)
          = " but if it does it must be a " := by decide
      rw [← e, String.append_assoc]

/-! ## `psetter.Float64Setter` -/

theorem float64ChecksLoop_eq_none_iff {α : Type} (v : α) :
    ∀ checks : List (Option (α → Option String)),
      float64ChecksLoop checks v = none ↔ ∀ check, some check ∈ checks → check v = none := by
  intro checks
  induction checks with
  | nil => simp [float64ChecksLoop]
  | cons c rest ih =>
    cases c with
    | none =>
      simp only [float64ChecksLoop, ih, List.mem_cons, reduceCtorEq, false_or]
    | some check =>
      simp only [float64ChecksLoop]
      cases hc : check v with
      | some err =>
        simp only [reduceCtorEq, false_iff]
        intro h
        have := h check (List.mem_cons_self _ _)
        rw [hc] at this
        cases this
      | none =>
        simp only [ih, List.mem_cons, Option.some.injEq]
        constructor
        · intro h c2 hc2
          rcases hc2 with e | hm
          · rw [e]; exact hc
          · exact h c2 hm
        · intro h c2 hm
          exact h c2 (Or.inr hm)

/-- C33: `Float64Setter.SetWithVal` returns nil exactly when the text parses as
a float and no check that is not nil rejects the number, and it then leaves
`Value` equal to the parsed number and the checks as they were; whenever it
returns an error (the text does not parse, or a check returns an error, which
is then the error returned) the setter and its `Value` are as before.
`Float64Setter.Set` always returns an error and never changes `Value`. -/
theorem Float64Setter_spec {α : Type} (ParseFloat : String → Except String α)
    (s : Float64Setter α) (name paramVal : String) :
    (((s.SetWithVal ParseFloat name paramVal).2 = none) ↔
      ∃ v, ParseFloat paramVal = Except.ok v
        ∧ ∀ check, some check ∈ s.Checks → check v = none)
    ∧ (∀ v, ParseFloat paramVal = Except.ok v →
        (∀ check, some check ∈ s.Checks → check v = none) →
        s.SetWithVal ParseFloat name paramVal = ({ Value := v, Checks := s.Checks }, none))
    ∧ ((s.SetWithVal ParseFloat name paramVal).2 ≠ none →
        (s.SetWithVal ParseFloat name paramVal).1 = s)
    ∧ (∀ err, ParseFloat paramVal = Except.error err →
        s.SetWithVal ParseFloat name paramVal
          = (s, some ("could not parse '" ++ paramVal ++ "' as a float value: " ++ err)))
    ∧ (∀ v check err, ParseFloat paramVal = Except.ok v → some check ∈ s.Checks →
        check v = some err → ∃ err2, s.SetWithVal ParseFloat name paramVal = (s, some err2))
    ∧ (s.Set name).2 = some "no number given (it should be followed by '=num')"
    ∧ (s.Set name).1 = s := by
  refine ⟨?_, ?_, ?_, ?_, ?_, rfl, rfl⟩
  · unfold Float64Setter.SetWithVal
    cases hp : ParseFloat paramVal with
    | error err => simp
    | ok v =>
      simp only [Except.ok.injEq, exists_eq_left']
      cases hl : float64ChecksLoop s.Checks v with
      | some err =>
        simp only [reduceCtorEq, false_iff]
        intro h
        rw [(float64ChecksLoop_eq_none_iff v s.Checks).mpr h] at hl
        cases hl
      | none =>
        simp only [true_iff]
        exact (float64ChecksLoop_eq_none_iff v s.Checks).mp hl
  · intro v hp hc
    unfold Float64Setter.SetWithVal
    rw [hp]
    simp only [(float64ChecksLoop_eq_none_iff v s.Checks).mpr hc]
  · cases hp : ParseFloat paramVal with
    | error err =>
      intro _
      simp only [Float64Setter.SetWithVal, hp]
    | ok v =>
      cases hl : float64ChecksLoop s.Checks v with
      | some err =>
        intro _
        simp only [Float64Setter.SetWithVal, hp, hl]
      | none =>
        intro h
        simp only [Float64Setter.SetWithVal, hp, hl] at h
        exact absurd rfl h
  · intro err hp
    simp only [Float64Setter.SetWithVal, hp]
  · intro v check err hp hm hc
    cases hl : float64ChecksLoop s.Checks v with
    | some err2 =>
      refine ⟨err2, ?_⟩
      simp only [Float64Setter.SetWithVal, hp, hl]
    | none =>
      have := (float64ChecksLoop_eq_none_iff v s.Checks).mp hl check hm
      rw [hc] at this
      cases this

/-! ## `Levenshtein`: the index beyond the matrix -/

/-- C34: `Levenshtein` is to keep every index within its matrix of
(runes(a)+1) by (runes(b)+1) entries for every pair of strings; on `éa` and
`x` the matrix has the rows 0 to 2, the loop over `éa` yields the byte offsets
0 and 2, and the row `d[2+1]` it then reads does not exist: the call panics,
in either order of the arguments, while on `ab` and `x` it returns 2. -/
theorem Levenshtein_index_beyond_matrix :
    RuneCountInString "éa" = 2
    ∧ rangeString "éa" = [(0, 'é'), (2, 'a')]
    ∧ (initMatrix 2 1).map (fun d => d.length) = some 3
    ∧ (initMatrix 2 1).bind (fun d => d.get 3 1) = none
    ∧ Levenshtein "éa" "x" = none
    ∧ Levenshtein "x" "éa" = none
    ∧ Levenshtein "ab" "x" = some 2 := by
  decide

/-! ## The named phase: the token after a parameter that needs a value -/

/-- C35: a parameter `p` that requires a value, given by a token `pStr`
without `=`, takes the token after it as its value whatever that token is: a
token equal to the terminal token (or one that looks like another parameter)
is passed to `p` as the value, the remainder is not set by it, and the loop
goes on with the tokens after it, so that only a terminal token met there
ends the parsing. -/
theorem namedLoop_value_is_next_token {ω : Type} (env : Env ω) (source : String)
    (pStr : String) (loc : Loc) (r : Run ω) (nm : String) (p : ByName)
    (hs : pStr ≠ r.ps.terminalParam)
    (htrim : trimParam ((SplitN2 pStr '=').headD "") = (nm, none))
    (hlook : r.ps.nameToParam.lookup nm = some p)
    (hm : p.valueReq = ValueReq.Mandatory) (hne : '=' ∉ pStr.data) :
    (∀ (v : String) (rest : List String),
      namedLoop env source (pStr :: v :: rest) loc r
        = namedLoop env source rest
            { source := loc.source, idx := loc.idx + 2, content := pStr ++ " " ++ v }
            (r.call (env.processParamByName p source
                { source := loc.source, idx := loc.idx + 2, content := pStr ++ " " ++ v }
                [pStr, v])
              (Call.byName p source
                { source := loc.source, idx := loc.idx + 2, content := pStr ++ " " ++ v }
                [pStr, v])))
    ∧ (∀ v : String,
      (namedLoop env source [pStr, v] loc r).ps.Remainder = r.ps.Remainder
      ∧ (namedLoop env source [pStr, v] loc r).calls
          = r.calls ++ [Call.byName p source
              { source := loc.source, idx := loc.idx + 2, content := pStr ++ " " ++ v }
              [pStr, v]])
    ∧ (∀ rest : List String,
      namedLoop env source (pStr :: r.ps.terminalParam :: r.ps.terminalParam :: rest) loc r
        = (r.call (env.processParamByName p source
                { source := loc.source, idx := loc.idx + 2,
                  content := pStr ++ " " ++ r.ps.terminalParam }
                [pStr, r.ps.terminalParam])
              (Call.byName p source
                { source := loc.source, idx := loc.idx + 2,
                  content := pStr ++ " " ++ r.ps.terminalParam }
                [pStr, r.ps.terminalParam])).setRemainder rest) := by
  have hsp : SplitN2 pStr '=' = [pStr] := SplitN2_of_not_mem pStr '=' hne
  have hyes : p.valueReq = ValueReq.Mandatory ∧ (SplitN2 pStr '=').length = 1 :=
    ⟨hm, by rw [hsp]; rfl⟩
  have hstep : ∀ (v : String) (rest : List String),
      namedLoop env source (pStr :: v :: rest) loc r
        = namedLoop env source rest
            { source := loc.source, idx := loc.idx + 2, content := pStr ++ " " ++ v }
            (r.call (env.processParamByName p source
                { source := loc.source, idx := loc.idx + 2, content := pStr ++ " " ++ v }
                [pStr, v])
              (Call.byName p source
                { source := loc.source, idx := loc.idx + 2, content := pStr ++ " " ++ v }
                [pStr, v])) := by
    intro v rest
    rw [namedLoop_lookahead env source pStr v rest loc r nm p hs htrim hlook hyes, hsp]
    rfl
  refine ⟨hstep, fun v => ?_, fun rest => ?_⟩
  · rw [hstep v []]
    exact ⟨rfl, rfl⟩
  · rw [hstep r.ps.terminalParam (r.ps.terminalParam :: rest)]
    exact namedLoop_sentinel env source rest _
      (r.call (env.processParamByName p source
          { source := loc.source, idx := loc.idx + 2,
            content := pStr ++ " " ++ r.ps.terminalParam }
          [pStr, r.ps.terminalParam])
        (Call.byName p source
          { source := loc.source, idx := loc.idx + 2,
            content := pStr ++ " " ++ r.ps.terminalParam }
          [pStr, r.ps.terminalParam]))

/-- Witness of C35: in `-count -- -- x` the first `--` is the value of `count`
and the second one ends the parsing, with `x` as the remainder. -/
theorem namedLoop_value_is_next_token_witness :
    namedLoop quietEnv "cmd" ["-count", "--", "--", "x"] (Loc.New "cmd")
        { ps := { nameToParam := [("count", { name := "count", valueReq := ValueReq.Mandatory })] },
          world := () }
      = (Run.call { ps := { nameToParam :=
                [("count", { name := "count", valueReq := ValueReq.Mandatory })] }, world := () }
            (quietEnv.processParamByName { name := "count", valueReq := ValueReq.Mandatory } "cmd"
              { source := "cmd", idx := 2, content := "-count" ++ " " ++ "--" } ["-count", "--"])
            (Call.byName { name := "count", valueReq := ValueReq.Mandatory } "cmd"
              { source := "cmd", idx := 2, content := "-count" ++ " " ++ "--" }
              ["-count", "--"])).setRemainder ["x"] :=
  (namedLoop_value_is_next_token quietEnv "cmd" "-count" (Loc.New "cmd")
    { ps := { nameToParam := [("count", { name := "count", valueReq := ValueReq.Mandatory })] },
      world := () } "count" { name := "count", valueReq := ValueReq.Mandatory }
    (by decide) (by decide) (by decide) (by decide) (by decide)).2.2 ["x"]

/-- C36: a named token that ends in its first `=`, so that the inline value is
empty, is dispatched with the empty string as its value, whatever the value
requirement of the parameter is (a mandatory value included); the token after
it is not taken as the value: the loop goes on with it, and when it is the
terminal token it ends the parsing. -/
theorem namedLoop_empty_inline_value {ω : Type} (env : Env ω) (source : String)
    (pStr : String) (name : List Char) (loc : Loc) (r : Run ω) (nm : String) (p : ByName)
    (hd : pStr.data = name ++ ['=']) (hn : '=' ∉ name)
    (hs : pStr ≠ r.ps.terminalParam)
    (htrim : trimParam ⟨name⟩ = (nm, none))
    (hlook : r.ps.nameToParam.lookup nm = some p) :
    SplitN2 pStr '=' = [⟨name⟩, ""]
    ∧ (∀ rest : List String,
      namedLoop env source (pStr :: rest) loc r
        = namedLoop env source rest
            { source := loc.source, idx := loc.idx + 1, content := pStr }
            (r.call (env.processParamByName p source
                { source := loc.source, idx := loc.idx + 1, content := pStr } [⟨name⟩, ""])
              (Call.byName p source
                { source := loc.source, idx := loc.idx + 1, content := pStr } [⟨name⟩, ""])))
    ∧ (∀ rest : List String,
      namedLoop env source (pStr :: r.ps.terminalParam :: rest) loc r
        = (r.call (env.processParamByName p source
                { source := loc.source, idx := loc.idx + 1, content := pStr } [⟨name⟩, ""])
              (Call.byName p source
                { source := loc.source, idx := loc.idx + 1, content := pStr }
                [⟨name⟩, ""])).setRemainder rest) := by
  have hsp : SplitN2 pStr '=' = [⟨name⟩, ""] := SplitN2_of_split pStr '=' name [] hd hn
  have htrim2 : trimParam ((SplitN2 pStr '=').headD "") = (nm, none) := by
    rw [hsp]; exact htrim
  have hstep : ∀ rest : List String,
      namedLoop env source (pStr :: rest) loc r
        = namedLoop env source rest
            { source := loc.source, idx := loc.idx + 1, content := pStr }
            (r.call (env.processParamByName p source
                { source := loc.source, idx := loc.idx + 1, content := pStr } [⟨name⟩, ""])
              (Call.byName p source
                { source := loc.source, idx := loc.idx + 1, content := pStr }
                [⟨name⟩, ""])) := by
    intro rest
    rw [namedLoop_dispatch env source pStr rest loc r nm p hs htrim2 hlook
      (fun h => by rw [hsp] at h; simp at h), hsp]
    rfl
  refine ⟨hsp, hstep, fun rest => ?_⟩
  rw [hstep (r.ps.terminalParam :: rest)]
  exact namedLoop_sentinel env source rest _
    (r.call (env.processParamByName p source
        { source := loc.source, idx := loc.idx + 1, content := pStr } [⟨name⟩, ""])
      (Call.byName p source
        { source := loc.source, idx := loc.idx + 1, content := pStr } [⟨name⟩, ""]))

/-- Witness of C36: in `--count= -v` the parameter `count`, which requires a
value, is dispatched with the empty value and `-v` is left to the loop. -/
theorem namedLoop_empty_inline_value_witness :
    SplitN2 "--count=" '=' = [⟨"--count".data⟩, ""]
    ∧ namedLoop quietEnv "cmd" ["--count=", "-v"] (Loc.New "cmd")
        { ps := { nameToParam := [("count", { name := "count", valueReq := ValueReq.Mandatory })] },
          world := () }
      = namedLoop quietEnv "cmd" ["-v"] { source := "cmd", idx := 0 + 1, content := "--count=" }
          (Run.call { ps := { nameToParam :=
                [("count", { name := "count", valueReq := ValueReq.Mandatory })] }, world := () }
            (quietEnv.processParamByName { name := "count", valueReq := ValueReq.Mandatory } "cmd"
              { source := "cmd", idx := 0 + 1, content := "--count=" } [⟨"--count".data⟩, ""])
            (Call.byName { name := "count", valueReq := ValueReq.Mandatory } "cmd"
              { source := "cmd", idx := 0 + 1, content := "--count=" }
              [⟨"--count".data⟩, ""])) :=
  ⟨(namedLoop_empty_inline_value quietEnv "cmd" "--count=" "--count".data (Loc.New "cmd")
      { ps := { nameToParam := [("count", { name := "count", valueReq := ValueReq.Mandatory })] },
        world := () } "count" { name := "count", valueReq := ValueReq.Mandatory }
      (by decide) (by decide) (by decide) (by decide) (by decide)).1,
   (namedLoop_empty_inline_value quietEnv "cmd" "--count=" "--count".data (Loc.New "cmd")
      { ps := { nameToParam := [("count", { name := "count", valueReq := ValueReq.Mandatory })] },
        world := () } "count" { name := "count", valueReq := ValueReq.Mandatory }
      (by decide) (by decide) (by decide) (by decide) (by decide)).2.1 ["-v"]⟩

/-! ## The named phase: a token without a dash -/

theorem namePart_head (pStr : String) (hdash : pStr.data.head? ≠ some '-') :
    ((SplitN2 pStr '=').headD "").data.head? ≠ some '-' := by
  rcases split_cases '=' pStr.data with h | ⟨name, val, e, hn⟩
  · rw [SplitN2_of_not_mem pStr '=' h]
    exact hdash
  · rw [SplitN2_of_split pStr '=' name val e hn]
    show name.head? ≠ some '-'
    rw [e] at hdash
    cases name with
    | nil => simp
    | cons c cs => simpa using hdash

/-- C37: a token of the named loop that does not start with a dash (and is not
the terminal token) is recorded as one error under the key equal to its text
before its first `=`, the whole token when it has none: no outside call is made
for it, so it is not looked up, dispatched or given a suggestion, the world
and the errors under the other keys are as before, and the loop goes on with
the very next token, every later token being processed. -/
theorem namedLoop_dashless_token {ω : Type} (env : Env ω) (source : String)
    (pStr : String) (rest : List String) (loc : Loc) (r : Run ω)
    (hdash : pStr.data.head? ≠ some '-') (hs : pStr ≠ r.ps.terminalParam) :
    namedLoop env source (pStr :: rest) loc r
      = namedLoop env source rest { source := loc.source, idx := loc.idx + 1, content := pStr }
          (r.addErr ((SplitN2 pStr '=').headD "")
            (Err.located { source := loc.source, idx := loc.idx + 1, content := pStr }
              (trimParamErrText ((SplitN2 pStr '=').headD ""))))
    ∧ (∀ e : Err,
        (r.addErr ((SplitN2 pStr '=').headD "") e).calls = r.calls
        ∧ (r.addErr ((SplitN2 pStr '=').headD "") e).world = r.world
        ∧ (r.addErr ((SplitN2 pStr '=').headD "") e).ps.remainingParams = r.ps.remainingParams
        ∧ (r.addErr ((SplitN2 pStr '=').headD "") e).ps.errors ((SplitN2 pStr '=').headD "")
            = r.ps.errors ((SplitN2 pStr '=').headD "") ++ [e]
        ∧ ∀ k, k ≠ (SplitN2 pStr '=').headD "" →
            (r.addErr ((SplitN2 pStr '=').headD "") e).ps.errors k = r.ps.errors k)
    ∧ ('=' ∉ pStr.data → (SplitN2 pStr '=').headD "" = pStr)
    ∧ (∀ name val : List Char, pStr.data = name ++ '=' :: val → '=' ∉ name →
        (SplitN2 pStr '=').headD "" = ⟨name⟩) := by
  have htrim : trimParam ((SplitN2 pStr '=').headD "")
      = ((SplitN2 pStr '=').headD "", some (trimParamErrText ((SplitN2 pStr '=').headD ""))) :=
    trimParam_no_dash _ (namePart_head pStr hdash)
  refine ⟨?_, fun e => ⟨rfl, rfl, rfl, ?_, fun k hk => ?_⟩, fun h => ?_, fun name val e hn => ?_⟩
  · rw [namedLoop_syntax_error env source pStr rest loc r _ _ hs htrim]
    rfl
  · simp only [Run.addErr, ErrMap.append, if_true]
  · simp only [Run.addErr, ErrMap.append, hk, if_false]
  · rw [SplitN2_of_not_mem pStr '=' h]
    rfl
  · rw [SplitN2_of_split pStr '=' name val e hn]
    rfl

/-- Witness of C37: the token `verbos=3` is reported under `verbos` and the
token `-v` after it is processed. -/
theorem namedLoop_dashless_token_witness :
    namedLoop quietEnv "cmd" ["verbos=3", "-v"] (Loc.New "cmd")
        { ps := { nameToParam := [("verbose", { name := "verbose" })] }, world := () }
      = namedLoop quietEnv "cmd" ["-v"] { source := "cmd", idx := 0 + 1, content := "verbos=3" }
          (Run.addErr { ps := { nameToParam := [("verbose", { name := "verbose" })] }, world := () }
            ((SplitN2 "verbos=3" '=').headD "")
            (Err.located { source := "cmd", idx := 0 + 1, content := "verbos=3" }
              (trimParamErrText ((SplitN2 "verbos=3" '=').headD ""))))
    ∧ (SplitN2 "verbos=3" '=').headD "" = "verbos" :=
  ⟨(namedLoop_dashless_token quietEnv "cmd" "verbos=3" ["-v"] (Loc.New "cmd")
      { ps := { nameToParam := [("verbose", { name := "verbose" })] }, world := () }
      (by decide) (by decide)).1, by decide⟩

/-! ## The line parsers: a blank program scope -/

theorem TrimSpace_blank (ws : List Char) (hws : ∀ c ∈ ws, isSpace c = true) :
    TrimSpace ⟨ws⟩ = "" := by
  have h := TrimSpace_pad ws [] [] hws (by simp)
  simp only [List.append_nil] at h
  rw [h]
  rfl

theorem not_mem_of_blank (ws : List Char) (hws : ∀ c ∈ ws, isSpace c = true) (c : Char)
    (hc : isSpace c = false) : c ∉ ws := by
  intro h
  rw [hws c h] at hc
  cases hc

/-- The scope, the name and the parts of a line that starts with white space
and a slash. -/
theorem blank_scope_parts (ws body : List Char) (hws : ∀ c ∈ ws, isSpace c = true) :
    splitParamName ((SplitN2 ⟨ws ++ '/' :: body⟩ '=').headD "")
      = ("", TrimSpace ((SplitN2 ⟨body⟩ '=').headD ""))
    ∧ ∀ n : String, trimParts (SplitN2 ⟨ws ++ '/' :: body⟩ '=') n
        = trimParts (SplitN2 ⟨body⟩ '=') n := by
  have hslash : '/' ∉ ws := not_mem_of_blank ws hws '/' (by decide)
  have heq : '=' ∉ ws := not_mem_of_blank ws hws '=' (by decide)
  rcases split_cases '=' body with h | ⟨nm, val, e, hn⟩
  · have hline : '=' ∉ (⟨ws ++ '/' :: body⟩ : String).data := by
      show '=' ∉ ws ++ '/' :: body
      simp only [List.mem_append, List.mem_cons, not_or]
      exact ⟨heq, by decide, h⟩
    rw [SplitN2_of_not_mem _ '=' hline, SplitN2_of_not_mem ⟨body⟩ '=' h]
    refine ⟨?_, fun n => by rw [trimParts_one, trimParts_one]⟩
    show splitParamName ⟨ws ++ '/' :: body⟩ = _
    rw [splitParamName_of_slash ⟨ws ++ '/' :: body⟩ ws body rfl hslash, TrimSpace_blank ws hws]
    rfl
  · have hline : (⟨ws ++ '/' :: body⟩ : String).data = (ws ++ '/' :: nm) ++ '=' :: val := by
      show ws ++ '/' :: body = (ws ++ '/' :: nm) ++ '=' :: val
      rw [e]; simp
    have hn2 : '=' ∉ ws ++ '/' :: nm := by
      simp only [List.mem_append, List.mem_cons, not_or]
      exact ⟨heq, by decide, hn⟩
    rw [SplitN2_of_split _ '=' (ws ++ '/' :: nm) val hline hn2,
      SplitN2_of_split ⟨body⟩ '=' nm val e hn]
    refine ⟨?_, fun n => by rw [trimParts_two, trimParts_two]⟩
    show splitParamName ⟨ws ++ '/' :: nm⟩ = _
    rw [splitParamName_of_slash ⟨ws ++ '/' :: nm⟩ ws nm rfl hslash, TrimSpace_blank ws hws]
    rfl

/-- C38: a line of a config file whose program scope, the text before its
first `/`, is empty or white space only is never marked unused: for every
program base name the global line parser dispatches it under the rule
`paramNeedNotExist` and the group line parser dispatches it, with the name and
the value found after the slash. When the name after the slash has no `/` of
its own, both parsers do with the line exactly what they do with the line
without the scope and the slash. -/
theorem ParseLine_blank_scope {ω : Type} (fenv : FileEnv ω) (gName : String)
    (ws body : List Char) (loc : Loc) (r : Run ω) (hws : ∀ c ∈ ws, isSpace c = true) :
    paramLineParser.ParseLine fenv ⟨ws ++ '/' :: body⟩ loc r
      = (r.call (fenv.setValueFromFile
              (trimParts (SplitN2 ⟨body⟩ '=') (TrimSpace ((SplitN2 ⟨body⟩ '=').headD "")))
              loc paramExistenceRule.paramNeedNotExist)
            (Call.setValueFromFile
              (trimParts (SplitN2 ⟨body⟩ '=') (TrimSpace ((SplitN2 ⟨body⟩ '=').headD "")))
              loc paramExistenceRule.paramNeedNotExist), none)
    ∧ groupParamLineParser.ParseLine fenv gName ⟨ws ++ '/' :: body⟩ loc r
      = (r.call (fenv.setValueFromGroupFile
              (trimParts (SplitN2 ⟨body⟩ '=') (TrimSpace ((SplitN2 ⟨body⟩ '=').headD "")))
              loc gName)
            (Call.setValueFromGroupFile
              (trimParts (SplitN2 ⟨body⟩ '=') (TrimSpace ((SplitN2 ⟨body⟩ '=').headD "")))
              loc gName), none)
    ∧ ('/' ∉ ((SplitN2 ⟨body⟩ '=').headD "").data →
        paramLineParser.ParseLine fenv ⟨ws ++ '/' :: body⟩ loc r
          = paramLineParser.ParseLine fenv ⟨body⟩ loc r
        ∧ groupParamLineParser.ParseLine fenv gName ⟨ws ++ '/' :: body⟩ loc r
          = groupParamLineParser.ParseLine fenv gName ⟨body⟩ loc r) := by
  obtain ⟨hsplit, hparts⟩ := blank_scope_parts ws body hws
  obtain ⟨h1, h2⟩ := ParseLine_of_parts fenv gName ⟨ws ++ '/' :: body⟩ loc r ""
    (TrimSpace ((SplitN2 ⟨body⟩ '=').headD "")) hsplit (Or.inl rfl)
  rw [hparts] at h1 h2
  simp only [if_true] at h1
  refine ⟨h1, h2, fun hno => ?_⟩
  obtain ⟨k1, k2⟩ := ParseLine_of_parts fenv gName ⟨body⟩ loc r ""
    (TrimSpace ((SplitN2 ⟨body⟩ '=').headD ""))
    (splitParamName_of_no_slash _ hno) (Or.inl rfl)
  simp only [if_true] at k1
  exact ⟨h1.trans k1.symm, h2.trans k2.symm⟩

/-- Witness of C38: the line ` /x = 1`, read by the program `myprog`, is
dispatched as the line `x=1` is, with the parts `x` and `1`. -/
theorem ParseLine_blank_scope_witness :
    (⟨" ".data ++ '/' :: "x = 1".data⟩ : String) = " /x = 1"
    ∧ trimParts (SplitN2 ⟨"x = 1".data⟩ '=') (TrimSpace ((SplitN2 ⟨"x = 1".data⟩ '=').headD ""))
        = ["x", "1"]
    ∧ trimParts (SplitN2 "x=1" '=') (TrimSpace ((SplitN2 "x=1" '=').headD "")) = ["x", "1"]
    ∧ paramLineParser.ParseLine (specFileEnv quietEnv (fun _ _ w => w) [("x", { name := "x" })])
        ⟨" ".data ++ '/' :: "x = 1".data⟩ (Loc.New "cfg")
        { ps := { progBaseName := "myprog", nameToParam := [("x", { name := "x" })] },
          world := () }
      = paramLineParser.ParseLine
          (specFileEnv quietEnv (fun _ _ w => w) [("x", { name := "x" })])
          ⟨"x = 1".data⟩ (Loc.New "cfg")
          { ps := { progBaseName := "myprog", nameToParam := [("x", { name := "x" })] },
            world := () } :=
  ⟨by decide, by decide, by decide,
    ((ParseLine_blank_scope (specFileEnv quietEnv (fun _ _ w => w) [("x", { name := "x" })]) ""
      " ".data "x = 1".data (Loc.New "cfg")
      { ps := { progBaseName := "myprog", nameToParam := [("x", { name := "x" })] },
        world := () } (by decide)).2.2 (by decide)).1⟩

/-! ## `Levenshtein` and `Hamming` on strings of single-byte characters -/

theorem utf8Size_of_single_byte (c : Char) (h : c.toNat < 128) : c.utf8Size = 1 := by
  have hv : c.val ≤ 0x7F := by
    rw [UInt32.le_def]
    show c.val.toNat ≤ 127
    have : c.toNat = c.val.toNat := rfl
    omega
  simp [Char.utf8Size, hv]

theorem rangeFrom_single_bytes : ∀ (cs : List Char) (off : Nat), (∀ c ∈ cs, c.toNat < 128) →
    rangeFrom off cs = List.enumFrom off cs := by
  intro cs
  induction cs with
  | nil => intro off _; rfl
  | cons c cs ih =>
    intro off h
    simp only [rangeFrom, List.enumFrom]
    rw [utf8Size_of_single_byte c (h c (List.mem_cons_self _ _)),
      ih (off + 1) (fun d hd => h d (List.mem_cons_of_mem _ hd))]

/-- Edits change the length by one at most each. -/
theorem editsTo_length {xs ys : List Char} {n : Nat} (h : EditsTo xs ys n) :
    xs.length ≤ ys.length + n ∧ ys.length ≤ xs.length + n := by
  induction h with
  | done => simp
  | keep c _ ih => simp only [List.length_cons]; omega
  | substitute x y _ ih => simp only [List.length_cons]; omega
  | delete x _ ih => simp only [List.length_cons]; omega
  | insert y _ ih => simp only [List.length_cons]; omega

/-- Substituting at the differing positions and adding or removing the runes
beyond the shorter length is one way of editing. -/
theorem editDistance_le_hammingDistance : ∀ xs ys : List Char,
    editDistance xs ys ≤ hammingDistance xs ys := by
  intro xs
  induction xs with
  | nil =>
    intro ys
    show ys.length ≤ _
    simp [hammingDistance, mismatchCount_nil_left]
  | cons x xs ih =>
    intro ys
    cases ys with
    | nil =>
      rw [editDistance_nil_right]
      simp [hammingDistance]
    | cons y ys =>
      rw [editDistance_cons_cons]
      refine le_trans (le_trans (min_le_right _ _) (min_le_right _ _)) ?_
      have := ih ys
      simp only [hammingDistance, mismatchCount_cons_cons, List.length_cons] at this ⊢
      by_cases hxy : x = y
      · subst hxy
        simp only [if_true, bne_self_eq_false, Bool.false_eq_true, if_false]
        omega
      · have hb : (x != y) = true := bne_iff_ne.mpr hxy
        simp only [hxy, if_false, hb, if_true]
        omega

theorem mismatchCount_le (a b : List Char) : mismatchCount a b ≤ min a.length b.length := by
  unfold mismatchCount
  exact le_trans (List.countP_le_length _) (by simp)

theorem hammingDistance_le_max (a b : List Char) :
    hammingDistance a b ≤ max a.length b.length := by
  have := mismatchCount_le a b
  unfold hammingDistance
  omega

/-- C39: for strings `a` and `b` made of single-byte (ASCII) characters only,
`Levenshtein` and `Hamming` both return, `Levenshtein(a, b)` is at most
`Hamming(a, b)`, at least the absolute difference of the lengths and at most
the larger of the lengths. -/
theorem Levenshtein_bounds_single_byte (a b : String)
    (ha : ∀ c ∈ a.data, c.toNat < 128) (hb : ∀ c ∈ b.data, c.toNat < 128) :
    ∃ lev ham : Nat, Levenshtein a b = some lev ∧ Hamming a b = some (ham : Int)
      ∧ lev ≤ ham
      ∧ a.length ≤ b.length + lev ∧ b.length ≤ a.length + lev
      ∧ lev ≤ max a.length b.length := by
  have hlev : Levenshtein a b = some (editDistance a.data b.data) :=
    Levenshtein_of_offsets a b (rangeFrom_single_bytes a.data 0 ha)
      (rangeFrom_single_bytes b.data 0 hb)
  have hlen := editsTo_length (editsTo_editDistance a.data b.data)
  have hle := editDistance_le_hammingDistance a.data b.data
  refine ⟨_, _, hlev, Hamming_eq a b, hle, hlen.1, hlen.2, le_trans hle ?_⟩
  exact hammingDistance_le_max a.data b.data

/-- Witness of C39: `abc` and `bcd`, at the `Levenshtein` distance 2 and the
`Hamming` distance 3, and `kitten` and `sitting`, at the distances 3 and 3. -/
theorem Levenshtein_bounds_single_byte_witness :
    (∃ lev ham : Nat, Levenshtein "abc" "bcd" = some lev ∧ Hamming "abc" "bcd" = some (ham : Int)
      ∧ lev ≤ ham
      ∧ "abc".length ≤ "bcd".length + lev ∧ "bcd".length ≤ "abc".length + lev
      ∧ lev ≤ max "abc".length "bcd".length)
    ∧ Levenshtein "abc" "bcd" = some 2 ∧ Hamming "abc" "bcd" = some 3
    ∧ Levenshtein "kitten" "sitting" = some 3 ∧ Hamming "kitten" "sitting" = some 3 :=
  ⟨Levenshtein_bounds_single_byte "abc" "bcd" (by decide) (by decide), by decide, by decide,
    by decide, by decide⟩

end Golem
